import Mathlib

/-!
# Luna `PropertiesManager`: selection-driven property aggregation

Shallow embedding of `Utilities/Luna/Core/PropertiesManager.cpp`.

* `std::map` is a key-sorted association list (`StdMap`), with the
  no-overwrite `insert` and the `find` of the standard library.
* `std::string` is a list of characters under the lexicographic order.
* A `Selectable*` is a natural number (the address); what the object answers to
  `ConnectProperties` and `ValidatePanel` is looked up in `WorkerEnv.objects`.
* The worker thread reads two fields of the manager while it runs: the live
  generation id through `args.m_CurrentSelectionId` and the mode `m_Setting`.
  Each is an oracle indexed by the number of reads made so far, so every
  interleaving of the UI thread with the worker is covered.
* Calls on collaborators (enumerator, container, canvas, thread creation) are
  recorded as lists of calls in program order.
* `ManagerSystem` puts the manager together with the worker threads in flight
  and the results they raised; `SceneEditor.OnDelete` and `SceneEditor.OnUndo`
  embed the two edit handlers of `Utilities/Luna/Scene/SceneEditor.cpp`.
-/

namespace Luna

/-! ## Containers -/

/-- A `std::string`, ordered lexicographically. -/
abbrev StdString := List Char

/-- A `std::map<K, V>`: entries in ascending key order. -/
abbrev StdMap (K V : Type) := List (K × V)

namespace StdMap

variable {K V : Type} [LinearOrder K]

/-- The keys in iteration order. -/
def keys (m : StdMap K V) : List K := m.map Prod.fst

/-- Representation invariant of a `std::map`: strictly ascending keys. -/
def WF (m : StdMap K V) : Prop := (keys m).Pairwise (· < ·)

instance (m : StdMap K V) : Decidable (WF m) := by
  unfold WF; infer_instance

/-- The `std::map::find`: the mapped value of the entry with key `k`, if any. -/
def find (k : K) : StdMap K V → Option V
  | [] => none
  | (k', v) :: rest => if k' = k then some v else find k rest

/-- The `std::map::insert`: adds `(k, v)` at its sorted position unless an entry
with key `k` exists, in which case the map is left as it is. -/
def insert (k : K) (v : V) : StdMap K V → StdMap K V
  | [] => [(k, v)]
  | (k', v') :: rest =>
    if k < k' then (k, v) :: (k', v') :: rest
    else if k' < k then (k', v') :: insert k v rest
    else (k', v') :: rest

/-- Update through the iterator returned by `insert`/`find`:
`it->second = f (it->second)` for the entry with key `k`. -/
def adjust (k : K) (f : V → V) : StdMap K V → StdMap K V
  | [] => []
  | (k', v) :: rest =>
    if k' = k then (k', f v) :: rest else (k', v) :: adjust k f rest

/-- The idiom `inserted = m.insert((k, v)); inserted.first->second.push_back(x)`
(or `.Append(x)`), with `f` the update of the mapped value. -/
def insertThen (k : K) (v : V) (f : V → V) (m : StdMap K V) : StdMap K V :=
  adjust k f (insert k v m)

end StdMap

/-- An `OS_SelectableDumbPtr`: ordered set of object addresses. -/
abbrev OS_SelectableDumbPtr := List Nat

/-- Modelled from the spec: `OrderedSet::Append` (declared outside this
repository slice). The spec makes a selection "an ordered, duplicate-free
sequence": appending a member that is already present changes nothing. -/
def OrderedSet.Append (x : Nat) (s : OS_SelectableDumbPtr) : OS_SelectableDumbPtr :=
  if x ∈ s then s else s ++ [x]

/-- The copy loops `for (itr ...) selection.Append( *itr )`. -/
def copySelection (src : List Nat) : OS_SelectableDumbPtr :=
  src.foldl (fun acc x => OrderedSet.Append x acc) []

/-! ## Data model -/

/-- The enum `PropertySettings::PropertySetting`. -/
inductive PropertySetting where
  | Intersection
  | Union
deriving DecidableEq, Repr

/-- The key of `M_ElementByType` / `M_ElementsByType`. -/
structure ElementTypeFlags where
  m_Type : Int
  m_IncludeFlags : Int
  m_ExcludeFlags : Int
deriving DecidableEq, Repr

/-- Modelled from the spec: the comparison of `ElementTypeFlags` (its
`operator<` is declared in `PropertiesManager.h`, outside this slice). The spec
makes the key "a composite of (property-kind, include-flags, exclude-flags)",
so two keys are equivalent only when all three fields agree; the order taken
here is the lexicographic one on the three fields. -/
def ElementTypeFlags.toLex3 (k : ElementTypeFlags) : Int ×ₗ Int ×ₗ Int :=
  toLex (k.m_Type, toLex (k.m_IncludeFlags, k.m_ExcludeFlags))

theorem ElementTypeFlags.toLex3_injective :
    Function.Injective ElementTypeFlags.toLex3 := by
  intro a b h
  cases a; cases b
  simp only [ElementTypeFlags.toLex3] at h
  have h1 := congrArg (fun x => (ofLex x).1) h
  have h2 := congrArg (fun x => (ofLex (ofLex x).2).1) h
  have h3 := congrArg (fun x => (ofLex (ofLex x).2).2) h
  simp at h1 h2 h3
  simp [h1, h2, h3]

instance : LinearOrder ElementTypeFlags :=
  LinearOrder.lift' ElementTypeFlags.toLex3 ElementTypeFlags.toLex3_injective

/-- A `Reflect::Element*` handed to `EnumerateElement`: its address, its
`GetType()`, and, when `ObjectCast<Symbol::UDTInstance>` succeeds, the symbol
name `GetUDT()->GetSymbolName()`. -/
structure Element where
  ptr : Nat
  GetType : Int
  GetSymbolName : Option StdString
deriving DecidableEq, Repr

abbrev M_ElementByType := StdMap ElementTypeFlags Element
abbrev M_ElementsByType := StdMap ElementTypeFlags (List Element)
abbrev M_UDTInstanceBySymbol := StdMap StdString Element
abbrev M_UDTInstancesBySymbol := StdMap StdString (List Element)

/-- A panel creator delegate, identified by a number. -/
abbrev PanelCreator := Nat

abbrev M_PanelCreators := StdMap StdString PanelCreator
abbrev M_UnionedSelections := StdMap StdString OS_SelectableDumbPtr

/-- What a selectable object does when asked: the `EnumerateElement` calls its
`ConnectProperties` makes, in order, and its answer to `ValidatePanel`. -/
structure Selectable where
  ConnectProperties : List (Element × Int × Int)
  ValidatePanel : StdString → Bool

/-- The two per-object maps `EnumerateElementArgs` writes to. -/
structure EnumerateElementArgs where
  m_CurrentElements : M_ElementByType
  m_CurrentUDTInstances : M_UDTInstanceBySymbol
deriving DecidableEq, Repr

/-- The method `EnumerateElementArgs::EnumerateElement` (lines 55-71). -/
def EnumerateElementArgs.EnumerateElement (a : EnumerateElementArgs)
    (element : Element) (includeFlags excludeFlags : Int) : EnumerateElementArgs :=
  match element.GetSymbolName with
  | some symbolName =>
    ⟨a.m_CurrentElements, StdMap.insert symbolName element a.m_CurrentUDTInstances⟩
  | none =>
    ⟨StdMap.insert (ElementTypeFlags.mk element.GetType includeFlags excludeFlags) element
        a.m_CurrentElements,
      a.m_CurrentUDTInstances⟩

/-- The statements `currentElements.clear(); currentUDTInstances.clear();
(*itr)->ConnectProperties(enumerateElementArgs);` for one object. -/
def connectProperties (o : Selectable) : EnumerateElementArgs :=
  o.ConnectProperties.foldl
    (fun a c => a.EnumerateElement c.1 c.2.1 c.2.2) ⟨[], []⟩

/-- The `PropertyThreadArgs` block: snapshot of the selection, captured
generation id, the pointer to the live id (the value found at the n-th read
through it), and the captured mode. -/
structure PropertyThreadArgs where
  m_Selection : List Nat
  m_SelectionId : Nat
  m_CurrentSelectionId : Nat → Nat
  m_Setting : PropertySetting

/-- What the worker sees of the rest of the program: the static registry
`s_PanelCreators`, the objects behind the addresses of the selection, and the
manager field `m_Setting` (the value found at the n-th read). -/
structure WorkerEnv where
  s_PanelCreators : M_PanelCreators
  objects : Nat → Selectable
  m_Setting : Nat → PropertySetting

/-! ## The worker: `GenerateProperties` -/

/-- How a loop with a cancellation checkpoint ends: it ran to its end, or it
hit `return` at a checkpoint. Both carry the loop state and the number of reads
of the live id made so far. -/
inductive Checked (σ : Type) where
  | done (s : σ) (idReads : Nat)
  | returned (s : σ) (idReads : Nat)

/-- The loop shape
`for ( ; itr != end; ++itr ) { if ( *args.m_CurrentSelectionId != args.m_SelectionId ) return; body }`. -/
def forEachChecked {α σ : Type} (args : PropertyThreadArgs) (body : α → σ → σ) :
    List α → σ → Nat → Checked σ
  | [], s, t => .done s t
  | x :: xs, s, t =>
    if args.m_CurrentSelectionId t ≠ args.m_SelectionId then .returned s (t + 1)
    else forEachChecked args body xs (body x s) (t + 1)

/-- Variables written by the panel validation loop of one object. -/
structure PanelScan where
  currentPanels : M_PanelCreators
  unionedPanels : M_PanelCreators
  unionedSelections : M_UnionedSelections
  settingReads : Nat
deriving DecidableEq, Repr

/-- Body of the panel validation loop (after its checkpoint), lines 242-271. -/
def validatePanelStep (env : WorkerEnv) (obj : Nat) (p : StdString × PanelCreator)
    (s : PanelScan) : PanelScan :=
  if (env.objects obj).ValidatePanel p.1 then
    match env.m_Setting s.settingReads with
    | .Intersection =>
      { s with currentPanels := StdMap.insert p.1 p.2 s.currentPanels,
               settingReads := s.settingReads + 1 }
    | .Union =>
      { s with unionedPanels := StdMap.insert p.1 p.2 s.unionedPanels,
               unionedSelections :=
                 StdMap.insertThen p.1 [] (OrderedSet.Append obj) s.unionedSelections,
               settingReads := s.settingReads + 1 }
  else s

/-- Body of the `index == 0` culling loop: seed a one-element list. -/
def seedStep {K E : Type} [LinearOrder K] (c : K × E) (newCommon : StdMap K (List E)) :
    StdMap K (List E) :=
  StdMap.insertThen c.1 [] (fun l => l ++ [c.2]) newCommon

/-- Body of the `index > 0` culling loop: keep a shared key only when the
current object has it, and append the current instance. -/
def cullStep {K E : Type} [LinearOrder K] (current : StdMap K E) (sh : K × List E)
    (newCommon : StdMap K (List E)) : StdMap K (List E) :=
  match StdMap.find sh.1 current with
  | some found => StdMap.insertThen sh.1 sh.2 (fun l => l ++ [found]) newCommon
  | none => newCommon

/-- The block that builds `newCommonElements` (lines 292-341) or
`newCommonUDTInstances` (lines 349-398); the two blocks are the same code over
different map types. -/
def mergeCommon {K E : Type} [LinearOrder K] (args : PropertyThreadArgs) (index : Nat)
    (current : StdMap K E) (common : StdMap K (List E)) (t : Nat) :
    Checked (StdMap K (List E)) :=
  if index = 0 then forEachChecked args seedStep current [] t
  else forEachChecked args (cullStep current) common [] t

/-- Local variables of `GenerateProperties` that live across pass 1. -/
structure Pass1State where
  intersectingPanels : M_PanelCreators
  unionedSelections : M_UnionedSelections
  unionedPanels : M_PanelCreators
  commonElements : M_ElementsByType
  commonUDTInstances : M_UDTInstancesBySymbol
  settingReads : Nat
deriving DecidableEq, Repr

/-- One iteration of the pass-1 loop after its checkpoint, up to and excluding
the early-exit test (lines 215-401). `none` is a `return` at an inner
checkpoint. The second component is the number of id reads made so far. -/
def processObject (args : PropertyThreadArgs) (env : WorkerEnv) (index : Nat) (obj : Nat)
    (st : Pass1State) (t : Nat) : Option Pass1State × Nat :=
  let current := connectProperties (env.objects obj)
  let panels :=
    if args.m_Setting = PropertySetting.Intersection then st.intersectingPanels
    else env.s_PanelCreators
  match forEachChecked args (validatePanelStep env obj) panels
      ⟨[], st.unionedPanels, st.unionedSelections, st.settingReads⟩ t with
  | .returned _ t1 => (none, t1)
  | .done scan t1 =>
    let intersectingPanels :=
      if env.m_Setting scan.settingReads = PropertySetting.Intersection then
        scan.currentPanels
      else st.intersectingPanels
    let elems : Checked M_ElementsByType :=
      if current.m_CurrentElements.isEmpty then .done [] t1
      else mergeCommon args index current.m_CurrentElements st.commonElements t1
    match elems with
    | .returned _ t2 => (none, t2)
    | .done commonElements t2 =>
      match mergeCommon args index current.m_CurrentUDTInstances
          st.commonUDTInstances t2 with
      | .returned _ t3 => (none, t3)
      | .done commonUDTInstances t3 =>
        (some
          { intersectingPanels := intersectingPanels
            unionedSelections := scan.unionedSelections
            unionedPanels := scan.unionedPanels
            commonElements := commonElements
            commonUDTInstances := commonUDTInstances
            settingReads := scan.settingReads + 1 }, t3)

/-- The early-exit test of line 404. -/
def allShared (st : Pass1State) : Bool :=
  st.intersectingPanels.isEmpty && st.commonElements.isEmpty
    && st.commonUDTInstances.isEmpty

/-- How the pass-1 loop ends. -/
inductive Pass1Exit where
  | completed (st : Pass1State)
  | broke (st : Pass1State)
  | returned
deriving DecidableEq, Repr

/-- The pass-1 loop (lines 206-408), started at `index` with `t` id reads
made. -/
def pass1Loop (args : PropertyThreadArgs) (env : WorkerEnv) :
    List Nat → Nat → Pass1State → Nat → Pass1Exit × Nat
  | [], _, st, t => (.completed st, t)
  | obj :: rest, index, st, t =>
    if args.m_CurrentSelectionId t ≠ args.m_SelectionId then (.returned, t + 1)
    else
      match processObject args env index obj st (t + 1) with
      | (none, t1) => (.returned, t1)
      | (some st1, t1) =>
        if allShared st1 then (.broke st1, t1)
        else pass1Loop args env rest (index + 1) st1 t1

/-- The pass-1 loop with the early-exit test of lines 403-407 removed. -/
def pass1LoopNoBreak (args : PropertyThreadArgs) (env : WorkerEnv) :
    List Nat → Nat → Pass1State → Nat → Pass1Exit × Nat
  | [], _, st, t => (.completed st, t)
  | obj :: rest, index, st, t =>
    if args.m_CurrentSelectionId t ≠ args.m_SelectionId then (.returned, t + 1)
    else
      match processObject args env index obj st (t + 1) with
      | (none, t1) => (.returned, t1)
      | (some st1, t1) => pass1LoopNoBreak args env rest (index + 1) st1 t1

/-- The local `selection` built at lines 183-186. -/
def workerSelection (args : PropertyThreadArgs) : OS_SelectableDumbPtr :=
  copySelection args.m_Selection

/-- The locals at the start of pass 1 (lines 174-201). -/
def pass1Init (args : PropertyThreadArgs) (env : WorkerEnv) : Pass1State :=
  { intersectingPanels :=
      if (workerSelection args).isEmpty then [] else env.s_PanelCreators
    unionedSelections := []
    unionedPanels := []
    commonElements := []
    commonUDTInstances := []
    settingReads := 0 }

/-- Pass 1 of `GenerateProperties`. -/
def pass1 (args : PropertyThreadArgs) (env : WorkerEnv) : Pass1Exit × Nat :=
  pass1Loop args env (workerSelection args) 0 (pass1Init args env) 0

/-- Pass 1 with the early exit removed. -/
def pass1NoBreak (args : PropertyThreadArgs) (env : WorkerEnv) : Pass1Exit × Nat :=
  pass1LoopNoBreak args env (workerSelection args) 0 (pass1Init args env) 0

/-- Calls the worker makes on its collaborators in passes 2 and 3. -/
inductive WorkerCall where
  | Push
  | Invoke (creator : PanelCreator) (selection : OS_SelectableDumbPtr)
  | Pop
  | NocBreak
  | InterpretReflect (instances : List Element) (includeFlags excludeFlags : Int)
  | InterpretSymbol (instances : List Element)
deriving DecidableEq, Repr

/-- Body of the pass-2 loop (lines 429-458). -/
def createPanelStep (args : PropertyThreadArgs) (selection : OS_SelectableDumbPtr)
    (unionedSelections : M_UnionedSelections) (p : StdString × PanelCreator)
    (calls : List WorkerCall) : List WorkerCall :=
  match args.m_Setting with
  | .Intersection => calls ++ [.Push, .Invoke p.2 selection, .Pop]
  | .Union =>
    match StdMap.find p.1 unionedSelections with
    | some found => calls ++ [.Push, .Invoke p.2 found, .Pop]
    | none => calls ++ [.NocBreak]

/-- Body of the reflect interpretation loop (lines 484-489). -/
def interpretElementStep (c : ElementTypeFlags × List Element)
    (calls : List WorkerCall) : List WorkerCall :=
  calls ++ [.InterpretReflect c.2 c.1.m_IncludeFlags c.1.m_ExcludeFlags]

/-- Body of the symbol interpretation loop (lines 505-510). -/
def interpretSymbolStep (c : StdString × List Element)
    (calls : List WorkerCall) : List WorkerCall :=
  calls ++ [.InterpretSymbol c.2]

/-- What one run of the worker did: the collaborator calls of passes 2 and 3,
whether `m_PropertiesCreated.Raise` was reached and with which generation id,
and how many times the live id was read. -/
structure WorkerRun where
  calls : List WorkerCall
  raised : Option Nat
  idReads : Nat
deriving DecidableEq, Repr

/-- Passes 2 and 3 and the final `Raise` (lines 417-515). -/
def pass23 (args : PropertyThreadArgs) (st : Pass1State) (t : Nat) : WorkerRun :=
  let panels :=
    if args.m_Setting = PropertySetting.Intersection then st.intersectingPanels
    else st.unionedPanels
  match forEachChecked args
      (createPanelStep args (workerSelection args) st.unionedSelections) panels [] t with
  | .returned calls t1 => ⟨calls, none, t1⟩
  | .done calls t1 =>
    match forEachChecked args interpretElementStep st.commonElements calls t1 with
    | .returned calls t2 => ⟨calls, none, t2⟩
    | .done calls t2 =>
      match forEachChecked args interpretSymbolStep st.commonUDTInstances calls t2 with
      | .returned calls t3 => ⟨calls, none, t3⟩
      | .done calls t3 => ⟨calls, some args.m_SelectionId, t3⟩

/-- The method `PropertiesManager::GenerateProperties` (lines 172-516). The
assertion on the container stack after each panel creator (line 462) concerns
the external callback and is not part of the embedding. -/
def GenerateProperties (args : PropertyThreadArgs) (env : WorkerEnv) : WorkerRun :=
  match pass1 args env with
  | (.returned, t) => ⟨[], none, t⟩
  | (.completed st, t) => pass23 args st t
  | (.broke st, t) => pass23 args st t

/-! ## The naive narrowing rule of the specification -/

/-- The accepted set of one object "computed over the full registry". -/
def acceptedPanels (env : WorkerEnv) (obj : Nat) : M_PanelCreators :=
  env.s_PanelCreators.filter (fun p => (env.objects obj).ValidatePanel p.1)

/-- The naive rule as the specification words it: "intersect the previous
running set with the object's accepted set computed over the full registry". -/
def naiveIntersectStep (env : WorkerEnv) (running : M_PanelCreators) (obj : Nat) :
    M_PanelCreators :=
  running.filter (fun p => decide (p.1 ∈ StdMap.keys (acceptedPanels env obj)))

/-- The naive rule run over a selection, seeded from the full registry. -/
def naiveIntersect (env : WorkerEnv) (selection : List Nat) : M_PanelCreators :=
  selection.foldl (naiveIntersectStep env) env.s_PanelCreators

/-! ## The manager -/

/-- What the canvas of the owning container answers during one manager call:
its scroll offset (`GetScroll()`) and whether its window is shown. -/
structure CanvasView where
  GetScroll : Int × Int
  IsShown : Bool
deriving DecidableEq, Repr

/-- Calls the manager makes on its collaborators: the enumerator (`Reset`), the
owning container (`AddControl`), its canvas, and thread creation with the
captured arguments. -/
inductive ManagerCall where
  | Reset
  | GetScroll
  | AddControl (control : Nat)
  | Freeze
  | Layout
  | SetScroll (scroll : Int × Int)
  | Read
  | Thaw
  | CreateContainer
  | CreateThread (selection : OS_SelectableDumbPtr) (selectionId : Nat)
      (setting : PropertySetting)
deriving DecidableEq, Repr

/-- The fields of `PropertiesManager`. `m_SelectionId` is a `u32`. -/
structure PropertiesManager where
  m_Setting : PropertySetting
  m_SelectionDirty : Bool
  m_SelectionId : Nat
  m_ThreadCount : Int
  m_Selection : OS_SelectableDumbPtr
  m_PreviousScroll : Int × Int
deriving DecidableEq, Repr

/-- Number of values of a `u32`. -/
def u32Size : Nat := 4294967296

/-- The state built by the constructor (lines 73-81). -/
def PropertiesManager.constructed : PropertiesManager :=
  { m_Setting := PropertySetting.Intersection
    m_SelectionDirty := false
    m_SelectionId := 0
    m_ThreadCount := 0
    m_Selection := []
    m_PreviousScroll := (0, 0) }

/-- The method `PropertiesManager::FinalizeProperties` (lines 518-537). -/
def PropertiesManager.FinalizeProperties (m : PropertiesManager) (selectionId : Nat)
    (controls : List Nat) : PropertiesManager × List ManagerCall :=
  if selectionId ≠ m.m_SelectionId then (m, [])
  else
    (m, controls.map ManagerCall.AddControl ++
      [ManagerCall.Freeze, ManagerCall.Layout, ManagerCall.SetScroll m.m_PreviousScroll,
        ManagerCall.Read, ManagerCall.Thaw])

/-- The method `PropertiesManager::CreateProperties` (lines 125-160). -/
def PropertiesManager.CreateProperties (m : PropertiesManager) (canvas : CanvasView) :
    PropertiesManager × List ManagerCall :=
  let m1 := { m with m_PreviousScroll := canvas.GetScroll }
  if !canvas.IsShown then (m1, [ManagerCall.Reset, ManagerCall.GetScroll])
  else if m1.m_Selection.isEmpty then
    let r := m1.FinalizeProperties m1.m_SelectionId []
    (r.1, [ManagerCall.Reset, ManagerCall.GetScroll] ++ r.2)
  else
    ({ m1 with m_ThreadCount := m1.m_ThreadCount + 1 },
      [ManagerCall.Reset, ManagerCall.GetScroll, ManagerCall.CreateContainer,
        ManagerCall.CreateThread (copySelection m1.m_Selection) m1.m_SelectionId
          m1.m_Setting])

/-- The method `PropertiesManager::Show` (lines 88-96). -/
def PropertiesManager.Show (m : PropertiesManager) (canvas : CanvasView) :
    PropertiesManager × List ManagerCall :=
  if m.m_SelectionDirty then
    let r := m.CreateProperties canvas
    ({ r.1 with m_SelectionDirty := false }, r.2)
  else (m, [])

/-- The method `PropertiesManager::SetProperties` (lines 103-112). -/
def PropertiesManager.SetProperties (m : PropertiesManager) (canvas : CanvasView)
    (setting : PropertySetting) : PropertiesManager × List ManagerCall :=
  let m1 := { m with m_Setting := setting }
  let m2 := { m1 with m_SelectionId := (m1.m_SelectionId + 1) % u32Size }
  let m3 := { m2 with m_SelectionDirty := true }
  m3.CreateProperties canvas

/-- The method `PropertiesManager::SetSelection` (lines 114-123). -/
def PropertiesManager.SetSelection (m : PropertiesManager) (canvas : CanvasView)
    (selection : OS_SelectableDumbPtr) : PropertiesManager × List ManagerCall :=
  let m1 := { m with m_Selection := selection }
  let m2 := { m1 with m_SelectionId := (m1.m_SelectionId + 1) % u32Size }
  let m3 := { m2 with m_SelectionDirty := true }
  m3.CreateProperties canvas

/-- The method `PropertiesManager::ThreadsActive` (lines 549-553). -/
def PropertiesManager.ThreadsActive (m : PropertiesManager) : Bool :=
  decide (m.m_ThreadCount > 0)

/-- The manager side of `GeneratePropertiesThread`: once `GenerateProperties`
has come back, the thread counter is decremented. -/
def PropertiesManager.GeneratePropertiesThread (m : PropertiesManager) :
    PropertiesManager :=
  { m with m_ThreadCount := m.m_ThreadCount - 1 }

/-- One operation on the manager, as seen from the outside. -/
inductive ManagerOp where
  | SetSelection (selection : OS_SelectableDumbPtr)
  | SetProperties (setting : PropertySetting)
  | Show
  | CreateProperties
  | FinalizeProperties (selectionId : Nat) (controls : List Nat)
  | ThreadsActive
  | WorkerExit
deriving DecidableEq, Repr

/-- The manager state after one operation, the canvas answering `canvas`. -/
def PropertiesManager.step (m : PropertiesManager) (canvas : CanvasView) :
    ManagerOp → PropertiesManager
  | .SetSelection selection => (m.SetSelection canvas selection).1
  | .SetProperties setting => (m.SetProperties canvas setting).1
  | .Show => (m.Show canvas).1
  | .CreateProperties => (m.CreateProperties canvas).1
  | .FinalizeProperties selectionId controls =>
    (m.FinalizeProperties selectionId controls).1
  | .ThreadsActive => m
  | .WorkerExit => m.GeneratePropertiesThread

/-- The manager state after a sequence of operations. -/
def PropertiesManager.run (m : PropertiesManager) :
    List (CanvasView × ManagerOp) → PropertiesManager
  | [] => m
  | (canvas, op) :: rest => (m.step canvas op).run rest

/-- Whether an operation is a selection or mode change. -/
def ManagerOp.bumps : ManagerOp → Bool
  | .SetSelection _ => true
  | .SetProperties _ => true
  | _ => false

/-- The number of selection and mode changes in a sequence of operations. -/
def countBumps (ops : List (CanvasView × ManagerOp)) : Nat :=
  (ops.filter (fun o => o.2.bumps)).length

/-! ## What pass 1 ends with -/

/-- The five maps of pass 1 that the later passes read. -/
structure Pass1Maps where
  intersectingPanels : M_PanelCreators
  unionedPanels : M_PanelCreators
  unionedSelections : M_UnionedSelections
  commonElements : M_ElementsByType
  commonUDTInstances : M_UDTInstancesBySymbol
deriving DecidableEq, Repr

/-- The maps held by a pass-1 state. -/
def Pass1State.maps (st : Pass1State) : Pass1Maps :=
  ⟨st.intersectingPanels, st.unionedPanels, st.unionedSelections, st.commonElements,
    st.commonUDTInstances⟩

/-- The maps pass 1 ends with, or `none` when it returned at a checkpoint. -/
def Pass1Exit.maps : Pass1Exit → Option Pass1Maps
  | .completed st => some st.maps
  | .broke st => some st.maps
  | .returned => none

/-- The per-object element map of the object at address `obj`. -/
def currentElementsOf (env : WorkerEnv) (obj : Nat) : M_ElementByType :=
  (connectProperties (env.objects obj)).m_CurrentElements

/-- The per-object symbol map of the object at address `obj`. -/
def currentUDTInstancesOf (env : WorkerEnv) (obj : Nat) : M_UDTInstanceBySymbol :=
  (connectProperties (env.objects obj)).m_CurrentUDTInstances

/-- Whether the loop went through all its objects, with no `break` and no
`return`. -/
def Pass1Exit.isCompleted : Pass1Exit → Bool
  | .completed _ => true
  | _ => false

/-- Whether the loop left through the early-exit `break`. -/
def Pass1Exit.isBroke : Pass1Exit → Bool
  | .broke _ => true
  | _ => false

/-- The pass-1 loop run over the first `k` objects of the selection only: how
the worker stands once object `k` has been processed. -/
def pass1Upto (args : PropertyThreadArgs) (env : WorkerEnv) (k : Nat) : Pass1Exit × Nat :=
  pass1Loop args env ((workerSelection args).take k) 0 (pass1Init args env) 0

/-- Every read of the live id numbered from `a` up to `b` (excluded) finds the
captured id. -/
def Fresh (args : PropertyThreadArgs) (a b : Nat) : Prop :=
  ∀ n, a ≤ n → n < b → args.m_CurrentSelectionId n = args.m_SelectionId

/-! ## Closed forms used to reason about pass 1 -/

/-- The run is not cancelled: every read of the live id finds the captured
id. -/
def Steady (args : PropertyThreadArgs) : Prop :=
  ∀ n, args.m_CurrentSelectionId n = args.m_SelectionId

/-- The manager mode is `setting` at every read the worker makes of it. -/
def SteadySetting (env : WorkerEnv) (setting : PropertySetting) : Prop :=
  ∀ n, env.m_Setting n = setting

/-- The entries `(k, w)` for the entries `c` of `xs` with `pick c = some w`. -/
def StdMap.build {K A B : Type} (pick : K × A → Option B) (xs : StdMap K A) : StdMap K B :=
  xs.filterMap (fun c => (pick c).map (fun w => (c.1, w)))

/-- What the `index == 0` loop stores for a current entry. -/
def seedPick {K E : Type} (c : K × E) : Option (List E) := some [c.2]

/-- What the `index > 0` loop stores for a shared entry, if anything. -/
def cullPick {K E : Type} [LinearOrder K] (current : StdMap K E) (sh : K × List E) :
    Option (List E) :=
  (StdMap.find sh.1 current).map (fun found => sh.2 ++ [found])

/-- The map an uncancelled `mergeCommon` builds. -/
def mergedCommon {K E : Type} [LinearOrder K] (index : Nat) (current : StdMap K E)
    (common : StdMap K (List E)) : StdMap K (List E) :=
  if index = 0 then StdMap.build seedPick current
  else StdMap.build (cullPick current) common

/-- The panel validation loop of one object without its checkpoints. -/
def scanPanels (args : PropertyThreadArgs) (env : WorkerEnv) (obj : Nat) (st : Pass1State) :
    PanelScan :=
  (if args.m_Setting = PropertySetting.Intersection then st.intersectingPanels
    else env.s_PanelCreators).foldl
    (fun acc p => validatePanelStep env obj p acc)
    ⟨[], st.unionedPanels, st.unionedSelections, st.settingReads⟩

/-- The state an uncancelled `processObject` ends with. -/
def nextState (args : PropertyThreadArgs) (env : WorkerEnv) (index obj : Nat)
    (st : Pass1State) : Pass1State :=
  { intersectingPanels :=
      if env.m_Setting (scanPanels args env obj st).settingReads
          = PropertySetting.Intersection then
        (scanPanels args env obj st).currentPanels
      else st.intersectingPanels
    unionedSelections := (scanPanels args env obj st).unionedSelections
    unionedPanels := (scanPanels args env obj st).unionedPanels
    commonElements := mergedCommon index (currentElementsOf env obj) st.commonElements
    commonUDTInstances :=
      mergedCommon index (currentUDTInstancesOf env obj) st.commonUDTInstances
    settingReads := (scanPanels args env obj st).settingReads + 1 }

/-- Both common maps are well-formed. -/
def Pass1State.WFCommon (st : Pass1State) : Prop :=
  StdMap.WF st.commonElements ∧ StdMap.WF st.commonUDTInstances

/-- The entry a common map must hold under `key` once the objects `done` have
been merged: the instances the objects hold under `key`, in order, when every
one of them has one; no entry otherwise. -/
def expectedCommon {K E : Type} [LinearOrder K] (current : Nat → StdMap K E)
    (done : List Nat) (key : K) : Option (List E) :=
  if done.all (fun o => (StdMap.find key (current o)).isSome) then
    some (done.filterMap (fun o => StdMap.find key (current o)))
  else none

/-! ## The scenario of the specification, as concrete inputs

Object `A` (address 100) enumerates the properties `x`, `y` and accepts the
panels `P1`, `P2`; object `B` (address 200) enumerates `y`, `z` and accepts
`P2`, `P3`; object `C` (address 300) enumerates nothing and accepts no panel. -/

namespace Scenario

def keyX : ElementTypeFlags := ⟨1, 0, 0⟩
def keyY : ElementTypeFlags := ⟨2, 0, 0⟩
def keyZ : ElementTypeFlags := ⟨3, 0, 0⟩

def Ax : Element := ⟨11, 1, none⟩
def Ay : Element := ⟨12, 2, none⟩
def By : Element := ⟨22, 2, none⟩
def Bz : Element := ⟨23, 3, none⟩

def P1 : StdString := "P1".toList
def P2 : StdString := "P2".toList
def P3 : StdString := "P3".toList

def objA : Selectable := ⟨[(Ax, 0, 0), (Ay, 0, 0)], fun n => decide (n = P1 ∨ n = P2)⟩
def objB : Selectable := ⟨[(By, 0, 0), (Bz, 0, 0)], fun n => decide (n = P2 ∨ n = P3)⟩
def objC : Selectable := ⟨[], fun _ => false⟩

def objects (ptr : Nat) : Selectable :=
  if ptr = 100 then objA else if ptr = 200 then objB else objC

def registry : M_PanelCreators := [(P1, 1), (P2, 2), (P3, 3)]

/-- The worker environment in which the manager mode stays `setting`. -/
def env (setting : PropertySetting) : WorkerEnv := ⟨registry, objects, fun _ => setting⟩

/-- Worker arguments captured at generation 7; the live id is 7 for the first
`changeAt` reads and 8 from then on. -/
def args (selection : List Nat) (setting : PropertySetting) (changeAt : Nat) :
    PropertyThreadArgs :=
  ⟨selection, 7, fun n => if n < changeAt then 7 else 8, setting⟩

/-- Worker arguments captured at generation 7 with a live id that stays 7. -/
def steadyArgs (selection : List Nat) (setting : PropertySetting) : PropertyThreadArgs :=
  ⟨selection, 7, fun _ => 7, setting⟩

end Scenario

/-! ## The manager with its worker threads -/

/-- A worker thread started by `CreateProperties`, with the arguments captured
for it (the `PropertyThreadArgs` of line 157 without the pointer). -/
structure StartedWorker where
  m_Selection : OS_SelectableDumbPtr
  m_SelectionId : Nat
  m_Setting : PropertySetting
deriving DecidableEq, Repr

/-- The worker threads a list of manager calls creates, in order. -/
def startedBy : List ManagerCall → List StartedWorker
  | [] => []
  | ManagerCall.CreateThread selection selectionId setting :: rest =>
    ⟨selection, selectionId, setting⟩ :: startedBy rest
  | _ :: rest => startedBy rest

/-- The thread function `GeneratePropertiesThread` as a whole (lines 162-170):
`GenerateProperties( args )` is run to its end, whatever that is, and then the
thread counter is decremented. -/
def PropertiesManager.workerThread (m : PropertiesManager) (args : PropertyThreadArgs)
    (env : WorkerEnv) : PropertiesManager × WorkerRun :=
  (m.GeneratePropertiesThread, GenerateProperties args env)

/-- The manager, the worker threads that were started and have not yet left
`GeneratePropertiesThread`, the results raised through `PropertiesCreated` and
not yet handed to `FinalizeProperties`, the results `FinalizeProperties` let
through its generation check, and the calls made on the enumerator, the owning
container and the canvas so far. -/
structure ManagerSystem where
  manager : PropertiesManager
  workers : List StartedWorker
  raised : List (Nat × List Nat)
  attached : List (Nat × List Nat)
  log : List ManagerCall
deriving DecidableEq, Repr

/-- The system right after the constructor of the manager. -/
def ManagerSystem.initial : ManagerSystem :=
  ⟨PropertiesManager.constructed, [], [], [], []⟩

/-- What can happen to the manager: a call on the thread that owns it, the end
of worker thread number `worker` (which ran in the environment `env`, reading
the live ids `live` and leaving `controls` in its container), or the hand-over
of raised result number `result` to `FinalizeProperties`. -/
inductive SystemEvent where
  | SetSelection (canvas : CanvasView) (selection : OS_SelectableDumbPtr)
  | SetProperties (canvas : CanvasView) (setting : PropertySetting)
  | Show (canvas : CanvasView)
  | CreateProperties (canvas : CanvasView)
  | ThreadsActive
  | WorkerFinished (worker : Nat) (env : WorkerEnv) (live : Nat → Nat) (controls : List Nat)
  | Deliver (result : Nat)

/-- The system after a manager call that returned `r`: the threads it created
are added to the running ones, its calls to the log. -/
def ManagerSystem.afterCall (s : ManagerSystem)
    (r : PropertiesManager × List ManagerCall) : ManagerSystem :=
  { s with manager := r.1, workers := s.workers ++ startedBy r.2, log := s.log ++ r.2 }

/-- Modelled from the spec: the listener of `PropertiesCreated`
(`SceneEditor::OnPropertiesCreated`, not part of this slice) is the Finalizer of
the specification: it "consumes a result event" and hands the generation id and
the control list to `FinalizeProperties`; the result counts as attached when
the generation check lets it through. -/
def ManagerSystem.deliver (s : ManagerSystem) (result : Nat × List Nat) : ManagerSystem :=
  { s with
    manager := (s.manager.FinalizeProperties result.1 result.2).1,
    attached :=
      if result.1 = s.manager.m_SelectionId then s.attached ++ [result] else s.attached,
    log := s.log ++ (s.manager.FinalizeProperties result.1 result.2).2 }

/-- One step of the system. An event naming a worker or a result that does not
exist changes nothing. -/
def ManagerSystem.step (s : ManagerSystem) : SystemEvent → ManagerSystem
  | .SetSelection canvas selection => s.afterCall (s.manager.SetSelection canvas selection)
  | .SetProperties canvas setting => s.afterCall (s.manager.SetProperties canvas setting)
  | .Show canvas => s.afterCall (s.manager.Show canvas)
  | .CreateProperties canvas => s.afterCall (s.manager.CreateProperties canvas)
  | .ThreadsActive => s
  | .WorkerFinished worker env live controls =>
    match s.workers.get? worker with
    | none => s
    | some w =>
      let r := s.manager.workerThread ⟨w.m_Selection, w.m_SelectionId, live, w.m_Setting⟩ env
      { s with
        manager := r.1,
        workers := s.workers.eraseIdx worker,
        raised :=
          match r.2.raised with
          | some selectionId => s.raised ++ [(selectionId, controls)]
          | none => s.raised }
  | .Deliver result =>
    match s.raised.get? result with
    | none => s
    | some res => { s.deliver res with raised := s.raised.eraseIdx result }

/-- The system after a sequence of events. -/
def ManagerSystem.run (s : ManagerSystem) : List SystemEvent → ManagerSystem
  | [] => s
  | e :: rest => (s.step e).run rest

/-! ## The scene editor handlers -/

/-- What the scene manager answers to a handler: `CanUndo()`,
`HasCurrentScene()`, and `HasCurrentScene()` once `Undo()` has run. -/
structure SceneManagerView where
  CanUndo : Bool
  HasCurrentScene : Bool
  HasCurrentSceneAfterUndo : Bool
deriving DecidableEq, Repr

/-- The part of `SceneEditor` the edit handlers read. -/
structure SceneEditor where
  m_SelectionPropertiesManager : PropertiesManager
  m_SceneManager : SceneManagerView
deriving DecidableEq, Repr

/-- Calls the edit handlers make: the error message box of `OnDelete`,
`DeleteSelected()` on the current scene, `Push` of its result on the current
scene, `m_SceneManager.Undo()`, `m_ToolProperties.Read()`, and `Execute` on the
current scene. -/
inductive EditorCall where
  | ErrorMessageBox
  | DeleteSelected
  | Push
  | Undo
  | ToolPropertiesRead
  | Execute (interactively : Bool)
deriving DecidableEq, Repr

/-- The handler `SceneEditor::OnDelete` (lines 2123-2135). -/
def SceneEditor.OnDelete (e : SceneEditor) : List EditorCall :=
  if e.m_SelectionPropertiesManager.ThreadsActive then [EditorCall.ErrorMessageBox]
  else if e.m_SceneManager.HasCurrentScene then [EditorCall.DeleteSelected, EditorCall.Push]
  else []

/-- The handler `SceneEditor::OnUndo` (lines 2040-2051). -/
def SceneEditor.OnUndo (e : SceneEditor) : List EditorCall :=
  if e.m_SceneManager.CanUndo then
    [EditorCall.Undo, EditorCall.ToolPropertiesRead] ++
      (if e.m_SceneManager.HasCurrentSceneAfterUndo then [EditorCall.Execute false] else [])
  else []

/-! ## Integer helpers of `Core/MathCommon.inl` -/

namespace Lunar

/-- The unsigned overload of `_IsPowerOfTwo` (lines 24-34) for an unsigned
integer type of `bits` bits: `( rValue & ( rValue - 1 ) ) == 0`, the
subtraction wrapping modulo `2 ^ bits`. -/
def IsPowerOfTwoUnsigned (bits : Nat) (rValue : Nat) : Bool :=
  (rValue &&& ((rValue + 2 ^ bits - 1) % 2 ^ bits)) == 0

/-- The signed overload of `_IsPowerOfTwo` (lines 10-22) for a signed integer
type of `bits` bits: `absValue = Abs( rValue )`, then
`( absValue & ( absValue - 1 ) ) == 0`, the operands taken as their two's
complement bit patterns (so `0 - 1` is the pattern of all ones). The absolute
value of the least value of the type is not representable; the result is
`none` there. -/
def IsPowerOfTwoSigned (bits : Nat) (rValue : Int) : Option Bool :=
  if rValue = -(2 : Int) ^ (bits - 1) then none
  else some ((rValue.natAbs &&& ((rValue.natAbs + 2 ^ bits - 1) % 2 ^ bits)) == 0)

/-- An integer type: signed or not, and its width. -/
structure IntegerType where
  isSigned : Bool
  bits : Nat
deriving DecidableEq, Repr

/-- The values of an integer type whose absolute value the type can hold: every
value of an unsigned type, every value but the least of a signed type. -/
def IntegerType.HasAbs (T : IntegerType) (v : Int) : Prop :=
  if T.isSigned then -(2 : Int) ^ (T.bits - 1) < v ∧ v < (2 : Int) ^ (T.bits - 1)
  else 0 ≤ v ∧ v < (2 : Int) ^ T.bits

instance (T : IntegerType) (v : Int) : Decidable (T.HasAbs v) := by
  unfold IntegerType.HasAbs
  infer_instance

/-- The template `IsPowerOfTwo` (lines 198-207): dispatch on
`boost::is_signed< T >`. -/
def IsPowerOfTwo (T : IntegerType) (rValue : Int) : Option Bool :=
  if T.isSigned then IsPowerOfTwoSigned T.bits rValue
  else some (IsPowerOfTwoUnsigned T.bits rValue.toNat)

/-- The loop of `Log2( uint32_t )` in the branch without `_BitScanReverse`
(lines 227-237): while the masked bit is clear, leave at bit 0, else step one
bit down. -/
def Log2Scan (value : Nat) : Nat → Nat → Nat
  | 0, _ => 0
  | bitIndex + 1, mask =>
    if value &&& mask = 0 then Log2Scan value bitIndex (mask >>> 1) else bitIndex + 1

/-- The function `Log2( uint32_t )` (lines 216-241), branch without
`_BitScanReverse`: `bitIndex = sizeof( value ) * 8 - 1`, `mask = 1 << bitIndex`. -/
def Log2 (value : Nat) : Nat := Log2Scan value 31 (1 <<< 31)

end Lunar

/-! ## Invariants of the panel maps -/

/-- The two union maps go together: both are well-formed, they have the same
keys, and no stored sub-selection is empty. -/
def UnionAgree (unionedPanels : M_PanelCreators) (unionedSelections : M_UnionedSelections) :
    Prop :=
  StdMap.WF unionedPanels ∧ StdMap.WF unionedSelections ∧
    (∀ name, name ∈ StdMap.keys unionedPanels ↔ name ∈ StdMap.keys unionedSelections) ∧
    ∀ name s, StdMap.find name unionedSelections = some s → s ≠ []

/-- The panel maps of a pass-1 state are well-formed and the union maps go
together. -/
def Pass1State.WFPanels (st : Pass1State) : Prop :=
  StdMap.WF st.intersectingPanels ∧ UnionAgree st.unionedPanels st.unionedSelections

/-! ## An object that enumerates two descriptors under one key -/

namespace Scenario

def Dx1 : Element := ⟨41, 1, none⟩
def Dx2 : Element := ⟨42, 1, none⟩
def S : StdString := "S".toList
def Ds1 : Element := ⟨43, 9, some S⟩
def Ds2 : Element := ⟨44, 9, some S⟩

/-- Object `D` enumerates, in this order, two descriptors under the key `x` and
two UDT instances of the symbol `S`; it accepts no panel. -/
def objD : Selectable := ⟨[(Dx1, 0, 0), (Dx2, 0, 0), (Ds1, 0, 0), (Ds2, 0, 0)], fun _ => false⟩

/-- The worker environment in which every address holds object `D`. -/
def envD : WorkerEnv := ⟨registry, fun _ => objD, fun _ => PropertySetting.Intersection⟩

end Scenario

/-! ## The iteration steps of an uncancelled run, and the raise

Every loop of `GenerateProperties` starts each of its iterations with the
comparison of the two generation ids. The definitions below count the
iterations an uncancelled run goes through, from the lengths of the maps the
loops walk; they do not look at the reads of the live id. -/

/-- Number of iterations of the loop inside `mergeCommon`: over the current
object's map for the first object (the loops at lines 298 and 351), over the running common map
for a later one (the loops at lines 316 and 369). -/
def mergeSteps {K E : Type} (index : Nat) (current : StdMap K E)
    (common : StdMap K (List E)) : Nat :=
  if index = 0 then current.length else common.length

/-- Number of iterations of the three inner loops of one pass-1 iteration: the
panel validation loop, the element merge (skipped when the object enumerated no
element, lines 284-288) and the symbol merge. -/
def objectSteps (args : PropertyThreadArgs) (env : WorkerEnv) (index obj : Nat)
    (st : Pass1State) : Nat :=
  (if args.m_Setting = PropertySetting.Intersection then st.intersectingPanels
    else env.s_PanelCreators).length
  + (if (currentElementsOf env obj).isEmpty then 0
      else mergeSteps index (currentElementsOf env obj) st.commonElements)
  + mergeSteps index (currentUDTInstancesOf env obj) st.commonUDTInstances

/-- Number of iterations (of the object loop and of its inner loops) an
uncancelled pass 1 goes through from the state `st` at object number `index`. -/
def pass1Steps (args : PropertyThreadArgs) (env : WorkerEnv) :
    List Nat → Nat → Pass1State → Nat
  | [], _, _ => 0
  | obj :: rest, index, st =>
    1 + objectSteps args env index obj st +
      (if allShared (nextState args env index obj st) then 0
        else pass1Steps args env rest (index + 1) (nextState args env index obj st))

/-- How an uncancelled pass 1 ends from the state `st` at object number
`index`: through the `break` or at the end of the selection. -/
def pass1End (args : PropertyThreadArgs) (env : WorkerEnv) :
    List Nat → Nat → Pass1State → Pass1Exit
  | [], _, st => .completed st
  | obj :: rest, index, st =>
    if allShared (nextState args env index obj st) then
      .broke (nextState args env index obj st)
    else pass1End args env rest (index + 1) (nextState args env index obj st)

/-- The state an uncancelled pass 1 ends with. -/
def Pass1Exit.state (init : Pass1State) : Pass1Exit → Pass1State
  | .completed st => st
  | .broke st => st
  | .returned => init

/-- The calls of one iteration of the pass-2 loop (lines 429-458). -/
def createPanelCalls (args : PropertyThreadArgs) (selection : OS_SelectableDumbPtr)
    (unionedSelections : M_UnionedSelections) (p : StdString × PanelCreator) :
    List WorkerCall :=
  match args.m_Setting with
  | .Intersection => [.Push, .Invoke p.2 selection, .Pop]
  | .Union =>
    match StdMap.find p.1 unionedSelections with
    | some found => [.Push, .Invoke p.2 found, .Pop]
    | none => [.NocBreak]

/-- The iterations of passes 2 and 3 from the pass-1 state `st`, in order, each
with the calls it makes: one per panel of the applicable map, one per entry of
`commonElements`, one per entry of `commonUDTInstances`. -/
def pass23Steps (args : PropertyThreadArgs) (st : Pass1State) : List (List WorkerCall) :=
  (if args.m_Setting = PropertySetting.Intersection then st.intersectingPanels
    else st.unionedPanels).map
      (createPanelCalls args (workerSelection args) st.unionedSelections)
  ++ st.commonElements.map
      (fun c => [WorkerCall.InterpretReflect c.2 c.1.m_IncludeFlags c.1.m_ExcludeFlags])
  ++ st.commonUDTInstances.map (fun c => [WorkerCall.InterpretSymbol c.2])

/-- Number of iterations of pass 1 in an uncancelled run. -/
def pass1StepCount (args : PropertyThreadArgs) (env : WorkerEnv) : Nat :=
  pass1Steps args env (workerSelection args) 0 (pass1Init args env)

/-- The state pass 1 ends with in an uncancelled run. -/
def pass1EndState (args : PropertyThreadArgs) (env : WorkerEnv) : Pass1State :=
  (pass1End args env (workerSelection args) 0 (pass1Init args env)).state (pass1Init args env)

/-- The iterations of passes 2 and 3 in an uncancelled run. -/
def laterSteps (args : PropertyThreadArgs) (env : WorkerEnv) : List (List WorkerCall) :=
  pass23Steps args (pass1EndState args env)

/-- Number of iterations of passes 1 to 3 in an uncancelled run. -/
def stepCount (args : PropertyThreadArgs) (env : WorkerEnv) : Nat :=
  pass1StepCount args env + (laterSteps args env).length

/-- Modelled from the spec: the worker's own container `args.m_Container`
(`Inspect::Container` is declared outside this repository slice). The spec's
result event carries "the resulting control list"; what the container holds is
decided by the creators and interpreters invoked with it, so `GetControls()` is
given as a function of the calls the worker has made so far. -/
structure WorkerContainer where
  GetControls : List WorkerCall → List Nat

/-- The `PropertiesCreatedArgs` of line 514: the generation id and the controls. -/
structure PropertiesCreatedArgs where
  m_SelectionId : Nat
  m_Controls : List Nat
deriving DecidableEq, Repr

/-- What a run does to the outside, in program order. -/
inductive WorkerEvent where
  | Call (call : WorkerCall)
  | Raise (raised : PropertiesCreatedArgs)
deriving DecidableEq, Repr

/-- The run of `GenerateProperties` as a sequence of events: the calls of
passes 2 and 3 and then, when lines 514-515 are reached, the one
`m_PropertiesCreated.Raise` with `args.m_SelectionId` and
`args.m_Container->GetControls()` as the container is at that moment. -/
def GeneratePropertiesEvents (args : PropertyThreadArgs) (env : WorkerEnv)
    (container : WorkerContainer) : List WorkerEvent :=
  (GenerateProperties args env).calls.map WorkerEvent.Call ++
    match (GenerateProperties args env).raised with
    | some selectionId =>
      [WorkerEvent.Raise ⟨selectionId, container.GetControls (GenerateProperties args env).calls⟩]
    | none => []

namespace Scenario

/-- A container that holds one control per invoked panel creator, numbered as
the creator, and the control 0 per interpreted entry. -/
def container : WorkerContainer :=
  ⟨fun calls => calls.filterMap (fun c =>
    match c with
    | .Invoke creator _ => some creator
    | .InterpretReflect _ _ _ => some 0
    | .InterpretSymbol _ => some 0
    | _ => none)⟩

end Scenario

namespace StdMap

/-! ## Lemmas on `StdMap` -/

theorem keys_cons {K V : Type} (p : K × V) (m : StdMap K V) : keys (p :: m) = p.1 :: keys m := rfl

theorem keys_append {K V : Type} (a b : StdMap K V) : keys (a ++ b) = keys a ++ keys b := by
  simp [keys]

theorem keys_filterMap_sublist {K A B : Type} (pick : K × A → Option B) (xs : StdMap K A) :
    (keys (xs.filterMap (fun c => (pick c).map (fun w => (c.1, w))))).Sublist (keys xs) := by
  induction xs with
  | nil => simp [keys]
  | cons c rest ih =>
    cases hp : pick c with
    | none =>
      simp only [List.filterMap_cons, hp, Option.map_none', keys_cons]
      exact ih.trans (List.sublist_cons_self _ _)
    | some w =>
      simp only [List.filterMap_cons, hp, Option.map_some', keys_cons]
      exact ih.cons₂ _

variable {K V : Type} [LinearOrder K]


theorem WF_cons (p : K × V) (m : StdMap K V) :
    WF (p :: m) ↔ (∀ k ∈ keys m, p.1 < k) ∧ WF m := by
  unfold WF
  rw [keys_cons, List.pairwise_cons]

theorem WF_nil : WF ([] : StdMap K V) := List.Pairwise.nil

theorem find_eq_none_iff (k : K) (m : StdMap K V) : find k m = none ↔ k ∉ keys m := by
  induction m with
  | nil => simp [find, keys]
  | cons p rest ih =>
    obtain ⟨k1, v1⟩ := p
    rw [find, keys_cons, List.mem_cons]
    by_cases h : k1 = k
    · simp [h]
    · simp only [h, if_false, ih]
      constructor
      · intro hn hor
        rcases hor with hor | hor
        · exact h hor.symm
        · exact hn hor
      · intro hn hm
        exact hn (Or.inr hm)

theorem mem_keys_iff_find (k : K) (m : StdMap K V) :
    k ∈ keys m ↔ ∃ v, find k m = some v := by
  rw [← not_iff_not, ← find_eq_none_iff]
  cases find k m <;> simp

theorem find_mem (k : K) (v : V) (m : StdMap K V) (h : find k m = some v) : (k, v) ∈ m := by
  induction m with
  | nil => simp [find] at h
  | cons p rest ih =>
    obtain ⟨k1, v1⟩ := p
    rw [find] at h
    by_cases hk : k1 = k
    · simp only [hk, if_true, Option.some.injEq] at h
      rw [hk, h]; exact List.mem_cons_self _ _
    · simp only [hk, if_false] at h
      exact List.mem_cons_of_mem _ (ih h)

theorem find_of_mem (k : K) (v : V) (m : StdMap K V) (hwf : WF m) (h : (k, v) ∈ m) :
    find k m = some v := by
  induction m with
  | nil => simp at h
  | cons p rest ih =>
    obtain ⟨k1, v1⟩ := p
    rw [WF_cons] at hwf
    rw [find]
    rcases List.mem_cons.mp h with h | h
    · simp only [Prod.mk.injEq] at h
      simp [h.1, h.2]
    · have hk : k ∈ keys rest := List.mem_map.mpr ⟨(k, v), h, rfl⟩
      have hlt : k1 < k := hwf.1 k hk
      simp only [ne_of_lt hlt, if_false]
      exact ih hwf.2 h

theorem mem_keys_insert (k k1 : K) (v : V) (m : StdMap K V) :
    k1 ∈ keys (insert k v m) ↔ k1 = k ∨ k1 ∈ keys m := by
  induction m with
  | nil => simp [insert, keys]
  | cons p rest ih =>
    obtain ⟨k2, v2⟩ := p
    rw [insert]
    split_ifs with h1 h2
    · simp [keys]
    · rw [keys_cons, List.mem_cons, ih, keys_cons, List.mem_cons]
      tauto
    · have e : k = k2 := le_antisymm (not_lt.mp h2) (not_lt.mp h1)
      rw [keys_cons, List.mem_cons, e]
      tauto

theorem WF_insert (k : K) (v : V) (m : StdMap K V) (h : WF m) : WF (insert k v m) := by
  induction m with
  | nil => simp [insert, WF, keys]
  | cons p rest ih =>
    obtain ⟨k2, v2⟩ := p
    rw [WF_cons] at h
    rw [insert]
    split_ifs with h1 h2
    · rw [WF_cons, WF_cons]
      refine ⟨?_, h⟩
      intro k3 hk3
      rw [keys_cons, List.mem_cons] at hk3
      rcases hk3 with hk3 | hk3
      · rw [hk3]; exact h1
      · exact lt_trans h1 (h.1 k3 hk3)
    · rw [WF_cons]
      refine ⟨?_, ih h.2⟩
      intro k3 hk3
      rw [mem_keys_insert] at hk3
      rcases hk3 with hk3 | hk3
      · rw [hk3]; exact h2
      · exact h.1 k3 hk3
    · rw [WF_cons]; exact h

theorem find_insert_ne (k k1 : K) (v : V) (m : StdMap K V) (hne : k1 ≠ k) :
    find k1 (insert k v m) = find k1 m := by
  induction m with
  | nil => simp [insert, find, Ne.symm hne]
  | cons p rest ih =>
    obtain ⟨k2, v2⟩ := p
    rw [insert]
    split_ifs with h1 h2
    · rw [find]; simp [Ne.symm hne]
    · rw [find, find, ih]
    · rfl

theorem find_insert_self (k : K) (v : V) (m : StdMap K V) (hwf : WF m) :
    find k (insert k v m) = some ((find k m).getD v) := by
  induction m with
  | nil => simp [insert, find]
  | cons p rest ih =>
    obtain ⟨k2, v2⟩ := p
    rw [WF_cons] at hwf
    rw [insert]
    split_ifs with h1 h2
    · have hnot : find k ((k2, v2) :: rest) = none := by
        rw [find_eq_none_iff, keys_cons, List.mem_cons]
        intro hor
        rcases hor with hor | hor
        · exact absurd h1 (by rw [hor]; exact lt_irrefl _)
        · exact absurd (lt_trans h1 (hwf.1 k hor)) (lt_irrefl _)
      rw [hnot]; simp [find]
    · rw [find, find]
      simp only [ne_of_lt h2, if_false]
      exact ih hwf.2
    · have e : k2 = k := le_antisymm (not_lt.mp h1) (not_lt.mp h2)
      simp [find, e]

theorem keys_adjust (k : K) (f : V → V) (m : StdMap K V) : keys (adjust k f m) = keys m := by
  induction m with
  | nil => rfl
  | cons p rest ih =>
    obtain ⟨k2, v2⟩ := p
    rw [adjust]
    split_ifs
    · rfl
    · rw [keys_cons, keys_cons, ih]

theorem WF_adjust (k : K) (f : V → V) (m : StdMap K V) (h : WF m) : WF (adjust k f m) := by
  unfold WF at *
  rw [keys_adjust]; exact h

theorem find_adjust (k k1 : K) (f : V → V) (m : StdMap K V) :
    find k1 (adjust k f m) = if k1 = k then (find k m).map f else find k1 m := by
  induction m with
  | nil => simp [adjust, find]
  | cons p rest ih =>
    obtain ⟨k2, v2⟩ := p
    rw [adjust]
    by_cases h2 : k2 = k
    · simp only [h2, if_true]
      by_cases h1 : k1 = k
      · simp [find, h1]
      · simp [find, h1, Ne.symm h1]
    · simp only [h2, if_false]
      rw [find, ih]
      by_cases h1 : k1 = k
      · have h21 : ¬ k2 = k1 := by rw [h1]; exact h2
        simp [find, h1, h2]
      · simp [find, h1]

theorem WF_insertThen (k : K) (v : V) (f : V → V) (m : StdMap K V) (h : WF m) :
    WF (insertThen k v f m) :=
  WF_adjust k f _ (WF_insert k v m h)

theorem find_insertThen (k k1 : K) (v : V) (f : V → V) (m : StdMap K V) (hwf : WF m) :
    find k1 (insertThen k v f m)
      = if k1 = k then some (f ((find k m).getD v)) else find k1 m := by
  unfold insertThen
  rw [find_adjust]
  by_cases h1 : k1 = k
  · simp [h1, find_insert_self k v m hwf]
  · simp [h1, find_insert_ne k k1 v m h1]

theorem mem_keys_insertThen (k k1 : K) (v : V) (f : V → V) (m : StdMap K V) :
    k1 ∈ keys (insertThen k v f m) ↔ k1 = k ∨ k1 ∈ keys m := by
  unfold insertThen
  rw [keys_adjust, mem_keys_insert]

theorem insert_of_lt_all (k : K) (v : V) (m : StdMap K V) (h : ∀ k1 ∈ keys m, k1 < k) :
    insert k v m = m ++ [(k, v)] := by
  induction m with
  | nil => rfl
  | cons p rest ih =>
    obtain ⟨k2, v2⟩ := p
    have h2 : k2 < k := h k2 (by simp [keys])
    rw [insert]
    simp only [not_lt_of_lt h2, if_false, h2, if_true]
    rw [ih (fun k1 hk1 => h k1 (by rw [keys_cons]; exact List.mem_cons_of_mem _ hk1))]
    rfl

theorem adjust_append_last (k : K) (v : V) (f : V → V) (m : StdMap K V)
    (h : ∀ k1 ∈ keys m, k1 < k) : adjust k f (m ++ [(k, v)]) = m ++ [(k, f v)] := by
  induction m with
  | nil => simp [adjust]
  | cons p rest ih =>
    obtain ⟨k2, v2⟩ := p
    have h2 : k2 < k := h k2 (by simp [keys])
    rw [List.cons_append, adjust]
    simp only [ne_of_lt h2, if_false]
    rw [ih (fun k1 hk1 => h k1 (by rw [keys_cons]; exact List.mem_cons_of_mem _ hk1))]
    rfl

theorem insertThen_of_lt_all (k : K) (v : V) (f : V → V) (m : StdMap K V)
    (h : ∀ k1 ∈ keys m, k1 < k) : insertThen k v f m = m ++ [(k, f v)] := by
  unfold insertThen
  rw [insert_of_lt_all k v m h, adjust_append_last k v f m h]

/-- A loop that walks a well-formed map in key order and, for each entry,
either appends one entry under the same key to the map being built or leaves
it alone, builds the `filterMap` of its input. -/
theorem foldl_build {A B : Type} (step : K × A → StdMap K B → StdMap K B)
    (pick : K × A → Option B)
    (hstep : ∀ c m, (∀ k ∈ keys m, k < c.1) →
      step c m = match pick c with
        | some w => m ++ [(c.1, w)]
        | none => m)
    (xs : StdMap K A) (hxs : WF xs) (acc : StdMap K B)
    (hacc : ∀ k ∈ keys acc, ∀ k1 ∈ keys xs, k < k1) :
    xs.foldl (fun m c => step c m) acc
      = acc ++ xs.filterMap (fun c => (pick c).map (fun w => (c.1, w))) := by
  induction xs generalizing acc with
  | nil => simp
  | cons c rest ih =>
    rw [WF_cons] at hxs
    rw [List.foldl_cons, hstep c acc (fun k hk => hacc k hk c.1 (by simp [keys]))]
    cases hp : pick c with
    | none =>
      simp only [List.filterMap_cons, hp, Option.map_none']
      exact ih hxs.2 acc (fun k hk k1 hk1 =>
        hacc k hk k1 (by rw [keys_cons]; exact List.mem_cons_of_mem _ hk1))
    | some w =>
      simp only [List.filterMap_cons, hp, Option.map_some']
      rw [ih hxs.2]
      · simp
      · intro k hk k1 hk1
        rw [keys_append, List.mem_append] at hk
        rcases hk with hk | hk
        · exact hacc k hk k1 (by rw [keys_cons]; exact List.mem_cons_of_mem _ hk1)
        · simp only [keys, List.map_cons, List.map_nil, List.mem_singleton] at hk
          rw [hk]; exact hxs.1 k1 hk1

theorem WF_filterMap {A B : Type} (pick : K × A → Option B) (xs : StdMap K A) (h : WF xs) :
    WF (xs.filterMap (fun c => (pick c).map (fun w => (c.1, w)))) :=
  List.Pairwise.sublist (keys_filterMap_sublist pick xs) h

theorem find_filterMap {A B : Type} (pick : K × A → Option B) (xs : StdMap K A) (h : WF xs)
    (k : K) :
    find k (xs.filterMap (fun c => (pick c).map (fun w => (c.1, w))))
      = (find k xs).bind (fun a => pick (k, a)) := by
  induction xs with
  | nil => simp [find]
  | cons c rest ih =>
    obtain ⟨k1, a1⟩ := c
    rw [WF_cons] at h
    by_cases hk : k1 = k
    · subst hk
      have hn : find k1 rest = none := by
        rw [find_eq_none_iff]
        intro hm
        exact lt_irrefl _ (h.1 k1 hm)
      cases hp : pick (k1, a1) with
      | none =>
        simp only [List.filterMap_cons, hp, Option.map_none', find, if_true, Option.bind_some]
        rw [ih h.2, hn]; simp [hp]
      | some w =>
        simp [List.filterMap_cons, hp, find]
    · cases hp : pick (k1, a1) with
      | none =>
        simp only [List.filterMap_cons, hp, Option.map_none', find, hk, if_false]
        exact ih h.2
      | some w =>
        simp only [List.filterMap_cons, hp, Option.map_some', find, hk, if_false]
        exact ih h.2

end StdMap

/-! ## Checkpointed loops -/

theorem Fresh.mono {args : PropertyThreadArgs} {a b c d : Nat} (h : Fresh args a b)
    (h1 : a ≤ c) (h2 : d ≤ b) : Fresh args c d :=
  fun n hn hn2 => h n (le_trans h1 hn) (lt_of_lt_of_le hn2 h2)

theorem Fresh.trans {args : PropertyThreadArgs} {a b c : Nat} (h1 : Fresh args a b)
    (h2 : Fresh args b c) : Fresh args a c := by
  intro n hn hn2
  by_cases hb : n < b
  · exact h1 n hn hb
  · exact h2 n (not_lt.mp hb) hn2

theorem Fresh.refl (args : PropertyThreadArgs) (a : Nat) : Fresh args a a :=
  fun _ hn hn2 => absurd hn2 (not_lt.mpr hn)

theorem forEachChecked_done {α σ : Type} (args : PropertyThreadArgs) (body : α → σ → σ)
    (xs : List α) (s : σ) (t : Nat) (s1 : σ) (t1 : Nat)
    (h : forEachChecked args body xs s t = .done s1 t1) :
    s1 = xs.foldl (fun acc x => body x acc) s ∧ t1 = t + xs.length ∧ Fresh args t t1 := by
  induction xs generalizing s t with
  | nil =>
    simp only [forEachChecked, Checked.done.injEq] at h
    obtain ⟨rfl, rfl⟩ := h
    exact ⟨rfl, rfl, Fresh.refl args t⟩
  | cons x xs ih =>
    rw [forEachChecked] at h
    by_cases hc : args.m_CurrentSelectionId t = args.m_SelectionId
    · simp only [ne_eq, hc, not_true_eq_false, if_false] at h
      obtain ⟨e1, e2, e3⟩ := ih _ _ h
      refine ⟨e1, by rw [e2, List.length_cons]; omega, ?_⟩
      intro n hn hn2
      by_cases hnt : n = t
      · rw [hnt]; exact hc
      · exact e3 n (by omega) hn2
    · simp [hc] at h

theorem forEachChecked_returned {α σ : Type} (args : PropertyThreadArgs) (body : α → σ → σ)
    (xs : List α) (s : σ) (t : Nat) (s1 : σ) (t1 : Nat)
    (h : forEachChecked args body xs s t = .returned s1 t1) :
    t < t1 ∧ args.m_CurrentSelectionId (t1 - 1) ≠ args.m_SelectionId := by
  induction xs generalizing s t with
  | nil => simp [forEachChecked] at h
  | cons x xs ih =>
    rw [forEachChecked] at h
    by_cases hc : args.m_CurrentSelectionId t = args.m_SelectionId
    · simp only [ne_eq, hc, not_true_eq_false, if_false] at h
      obtain ⟨e1, e2⟩ := ih _ _ h
      exact ⟨by omega, e2⟩
    · simp only [ne_eq, hc, not_false_eq_true, if_true, Checked.returned.injEq] at h
      obtain ⟨-, rfl⟩ := h
      exact ⟨by omega, by simpa using hc⟩

theorem forEachChecked_fresh {α σ : Type} (args : PropertyThreadArgs) (body : α → σ → σ)
    (xs : List α) (s : σ) (t : Nat) (h : Fresh args t (t + xs.length)) :
    forEachChecked args body xs s t
      = .done (xs.foldl (fun acc x => body x acc) s) (t + xs.length) := by
  induction xs generalizing s t with
  | nil => rfl
  | cons x xs ih =>
    rw [forEachChecked]
    have hc : args.m_CurrentSelectionId t = args.m_SelectionId :=
      h t le_rfl (by rw [List.length_cons]; omega)
    simp only [ne_eq, hc, not_true_eq_false, if_false]
    rw [ih, List.foldl_cons, List.length_cons]
    · congr 1; omega
    · exact h.mono (by omega) (by rw [List.length_cons]; omega)

theorem mergeCommon_done {K E : Type} [LinearOrder K] (args : PropertyThreadArgs)
    (index : Nat) (current : StdMap K E) (common : StdMap K (List E)) (t : Nat)
    (r : StdMap K (List E)) (t1 : Nat)
    (h : mergeCommon args index current common t = .done r t1) :
    t ≤ t1 ∧ Fresh args t t1 := by
  unfold mergeCommon at h
  split_ifs at h
  · obtain ⟨-, e, f⟩ := forEachChecked_done _ _ _ _ _ _ _ h
    exact ⟨by omega, f⟩
  · obtain ⟨-, e, f⟩ := forEachChecked_done _ _ _ _ _ _ _ h
    exact ⟨by omega, f⟩

theorem processObject_some (args : PropertyThreadArgs) (env : WorkerEnv) (index obj : Nat)
    (st : Pass1State) (t : Nat) (st1 : Pass1State) (t1 : Nat)
    (h : processObject args env index obj st t = (some st1, t1)) :
    t ≤ t1 ∧ Fresh args t t1 := by
  unfold processObject at h
  simp only [] at h
  split at h
  · simp at h
  · rename_i scan ta hscan
    obtain ⟨-, ea, fa⟩ := forEachChecked_done _ _ _ _ _ _ _ hscan
    split at h
    · simp at h
    · rename_i ce tb hce
      have hb : ta ≤ tb ∧ Fresh args ta tb := by
        split_ifs at hce
        · simp only [Checked.done.injEq] at hce
          obtain ⟨-, rfl⟩ := hce
          exact ⟨le_rfl, Fresh.refl _ _⟩
        · exact mergeCommon_done _ _ _ _ _ _ _ hce
      split at h
      · simp at h
      · rename_i cu tc hcu
        obtain ⟨hc1, hc2⟩ := mergeCommon_done _ _ _ _ _ _ _ hcu
        simp only [Prod.mk.injEq, Option.some.injEq] at h
        obtain ⟨-, rfl⟩ := h
        exact ⟨by omega, (fa.trans hb.2).trans hc2⟩

theorem pass1Loop_exit (args : PropertyThreadArgs) (env : WorkerEnv) (sel : List Nat)
    (index : Nat) (st : Pass1State) (t : Nat) (x : Pass1Exit) (t1 : Nat)
    (h : pass1Loop args env sel index st t = (x, t1)) (hx : x ≠ .returned) :
    t ≤ t1 ∧ Fresh args t t1 := by
  induction sel generalizing index st t with
  | nil =>
    simp only [pass1Loop, Prod.mk.injEq] at h
    obtain ⟨-, rfl⟩ := h
    exact ⟨le_rfl, Fresh.refl _ _⟩
  | cons obj rest ih =>
    rw [pass1Loop] at h
    by_cases hc : args.m_CurrentSelectionId t = args.m_SelectionId
    · simp only [ne_eq, hc, not_true_eq_false, if_false] at h
      have h0 : Fresh args t (t + 1) := by
        intro n hn hn2
        have : n = t := by omega
        rw [this]; exact hc
      split at h
      · simp only [Prod.mk.injEq] at h
        exact absurd h.1.symm hx
      · rename_i st1 ta hp
        obtain ⟨e1, f1⟩ := processObject_some _ _ _ _ _ _ _ _ hp
        split_ifs at h
        · simp only [Prod.mk.injEq] at h
          obtain ⟨-, rfl⟩ := h
          exact ⟨by omega, h0.trans f1⟩
        · obtain ⟨e2, f2⟩ := ih _ _ _ h
          exact ⟨by omega, (h0.trans f1).trans f2⟩
    · simp only [ne_eq, hc, not_false_eq_true, if_true, Prod.mk.injEq] at h
      exact absurd h.1.symm hx

theorem pass1Loop_append (args : PropertyThreadArgs) (env : WorkerEnv) (xs ys : List Nat)
    (index : Nat) (st : Pass1State) (t : Nat) (st1 : Pass1State) (t1 : Nat)
    (h : pass1Loop args env xs index st t = (.completed st1, t1)) :
    pass1Loop args env (xs ++ ys) index st t
      = pass1Loop args env ys (index + xs.length) st1 t1 := by
  induction xs generalizing index st t with
  | nil =>
    simp only [pass1Loop, Prod.mk.injEq, Pass1Exit.completed.injEq] at h
    obtain ⟨rfl, rfl⟩ := h
    simp
  | cons obj rest ih =>
    rw [pass1Loop] at h
    rw [List.cons_append, pass1Loop]
    by_cases hc : args.m_CurrentSelectionId t = args.m_SelectionId
    · simp only [ne_eq, hc, not_true_eq_false, if_false] at h ⊢
      split at h
      · simp at h
      · rename_i st2 ta hp
        split_ifs at h with hb
        · simp at h
        · simp only [hb]
          rw [ih _ _ _ h, List.length_cons]
          have e : index + 1 + rest.length = index + (rest.length + 1) := by omega
          rw [e]
          simp
    · simp [hc] at h

theorem pass23_raised (args : PropertyThreadArgs) (st : Pass1State) (t : Nat)
    (id : Nat) (h : (pass23 args st t).raised = some id) :
    t ≤ (pass23 args st t).idReads ∧ Fresh args t (pass23 args st t).idReads := by
  unfold pass23 at h ⊢
  simp only [] at h ⊢
  split
  · rename_i c1 t1 h1; simp [h1] at h
  · rename_i c1 t1 h1
    simp only [h1] at h
    obtain ⟨-, e1, f1⟩ := forEachChecked_done _ _ _ _ _ _ _ h1
    split
    · rename_i c2 t2 h2; simp [h2] at h
    · rename_i c2 t2 h2
      simp only [h2] at h
      obtain ⟨-, e2, f2⟩ := forEachChecked_done _ _ _ _ _ _ _ h2
      split
      · rename_i c3 t3 h3; simp [h3] at h
      · rename_i c3 t3 h3
        obtain ⟨-, e3, f3⟩ := forEachChecked_done _ _ _ _ _ _ _ h3
        exact ⟨by simp only []; omega, (f1.trans f2).trans f3⟩

theorem GenerateProperties_raised (args : PropertyThreadArgs) (env : WorkerEnv) (id : Nat)
    (h : (GenerateProperties args env).raised = some id) :
    Fresh args 0 (GenerateProperties args env).idReads := by
  unfold GenerateProperties at h ⊢
  split
  · rename_i t hp; simp [hp] at h
  · rename_i st t hp
    simp only [hp] at h
    obtain ⟨-, f1⟩ := pass1Loop_exit _ _ _ _ _ _ _ _ hp (by simp)
    exact f1.trans (pass23_raised _ _ _ _ h).2
  · rename_i st t hp
    simp only [hp] at h
    obtain ⟨-, f1⟩ := pass1Loop_exit _ _ _ _ _ _ _ _ hp (by simp)
    exact f1.trans (pass23_raised _ _ _ _ h).2


/-! ## Pass 1 of an uncancelled run -/

theorem Steady.fresh {args : PropertyThreadArgs} (h : Steady args) (a b : Nat) :
    Fresh args a b := fun n _ _ => h n

theorem connectProperties_WF (o : Selectable) :
    StdMap.WF (connectProperties o).m_CurrentElements ∧
    StdMap.WF (connectProperties o).m_CurrentUDTInstances := by
  unfold connectProperties
  have gen : ∀ (calls : List (Element × Int × Int)) (a : EnumerateElementArgs),
      StdMap.WF a.m_CurrentElements ∧ StdMap.WF a.m_CurrentUDTInstances →
      StdMap.WF (calls.foldl (fun a c => a.EnumerateElement c.1 c.2.1 c.2.2) a).m_CurrentElements ∧
      StdMap.WF
        (calls.foldl (fun a c => a.EnumerateElement c.1 c.2.1 c.2.2) a).m_CurrentUDTInstances := by
    intro calls
    induction calls with
    | nil => intro a h; exact h
    | cons c rest ih =>
      intro a h
      rw [List.foldl_cons]
      apply ih
      unfold EnumerateElementArgs.EnumerateElement
      split
      · exact ⟨h.1, StdMap.WF_insert _ _ _ h.2⟩
      · exact ⟨StdMap.WF_insert _ _ _ h.1, h.2⟩
  exact gen _ _ ⟨StdMap.WF_nil, StdMap.WF_nil⟩

theorem seed_fold {K E : Type} [LinearOrder K] (current : StdMap K E)
    (h : StdMap.WF current) :
    current.foldl (fun acc x => seedStep x acc) [] = StdMap.build seedPick current := by
  have e := StdMap.foldl_build (fun (c : K × E) m => seedStep c m) seedPick
    (fun c m hm => by
      simp only [seedStep, seedPick]
      rw [StdMap.insertThen_of_lt_all _ _ _ _ hm]
      rfl)
    current h [] (by intro k hk; simp [StdMap.keys] at hk)
  simpa [StdMap.build] using e

theorem cull_fold {K E : Type} [LinearOrder K] (current : StdMap K E)
    (common : StdMap K (List E)) (h : StdMap.WF common) :
    common.foldl (fun acc x => cullStep current x acc) []
      = StdMap.build (cullPick current) common := by
  have e := StdMap.foldl_build (fun (c : K × List E) m => cullStep current c m)
    (cullPick current)
    (fun c m hm => by
      simp only [cullStep, cullPick]
      cases hf : StdMap.find c.1 current with
      | none => rfl
      | some found =>
        simp only [Option.map_some']
        rw [StdMap.insertThen_of_lt_all _ _ _ _ hm])
    common h [] (by intro k hk; simp [StdMap.keys] at hk)
  simpa [StdMap.build] using e

theorem mergeCommon_steady {K E : Type} [LinearOrder K] (args : PropertyThreadArgs)
    (hs : Steady args) (index : Nat) (current : StdMap K E) (common : StdMap K (List E))
    (t : Nat) (hcur : StdMap.WF current) (hcom : StdMap.WF common) :
    ∃ t1, mergeCommon args index current common t
      = .done (mergedCommon index current common) t1 := by
  unfold mergeCommon mergedCommon
  split_ifs
  · rw [forEachChecked_fresh _ _ _ _ _ (hs.fresh _ _), seed_fold current hcur]
    exact ⟨_, rfl⟩
  · rw [forEachChecked_fresh _ _ _ _ _ (hs.fresh _ _), cull_fold current common hcom]
    exact ⟨_, rfl⟩

theorem mergedCommon_nil {K E : Type} [LinearOrder K] (index : Nat)
    (common : StdMap K (List E)) :
    mergedCommon index ([] : StdMap K E) common = [] := by
  unfold mergedCommon StdMap.build
  split_ifs
  · rfl
  · rw [List.filterMap_eq_nil_iff]
    intro c _
    simp [cullPick, StdMap.find]

theorem mergedCommon_WF {K E : Type} [LinearOrder K] (index : Nat) (current : StdMap K E)
    (common : StdMap K (List E)) (hcur : StdMap.WF current) (hcom : StdMap.WF common) :
    StdMap.WF (mergedCommon index current common) := by
  unfold mergedCommon StdMap.build
  split_ifs
  · exact StdMap.WF_filterMap _ _ hcur
  · exact StdMap.WF_filterMap _ _ hcom

theorem processObject_steady (args : PropertyThreadArgs) (env : WorkerEnv) (hs : Steady args)
    (index obj : Nat) (st : Pass1State) (t : Nat) (hwf : st.WFCommon) :
    ∃ t1, processObject args env index obj st t
      = (some (nextState args env index obj st), t1) := by
  obtain ⟨hce, hcu⟩ := connectProperties_WF (env.objects obj)
  unfold processObject
  simp only []
  rw [forEachChecked_fresh _ _ _ _ _ (hs.fresh _ _)]
  simp only []
  by_cases hemp : (connectProperties (env.objects obj)).m_CurrentElements.isEmpty = true
  · simp only [hemp, if_true]
    obtain ⟨t3, h3⟩ := mergeCommon_steady args hs index
      (connectProperties (env.objects obj)).m_CurrentUDTInstances st.commonUDTInstances
      (t + (if args.m_Setting = PropertySetting.Intersection then st.intersectingPanels
        else env.s_PanelCreators).length) hcu hwf.2
    rw [h3]
    refine ⟨t3, ?_⟩
    have hnil : (connectProperties (env.objects obj)).m_CurrentElements = [] :=
      List.isEmpty_iff.mp hemp
    simp only [nextState, scanPanels, currentElementsOf, currentUDTInstancesOf, hnil,
      mergedCommon_nil]
  · simp only [hemp, Bool.false_eq_true, if_false]
    obtain ⟨t2, h2⟩ := mergeCommon_steady args hs index
      (connectProperties (env.objects obj)).m_CurrentElements st.commonElements
      (t + (if args.m_Setting = PropertySetting.Intersection then st.intersectingPanels
        else env.s_PanelCreators).length) hce hwf.1
    rw [h2]
    simp only []
    obtain ⟨t3, h3⟩ := mergeCommon_steady args hs index
      (connectProperties (env.objects obj)).m_CurrentUDTInstances st.commonUDTInstances
      t2 hcu hwf.2
    rw [h3]
    exact ⟨t3, rfl⟩

theorem nextState_WFCommon (args : PropertyThreadArgs) (env : WorkerEnv) (index obj : Nat)
    (st : Pass1State) (hwf : st.WFCommon) : (nextState args env index obj st).WFCommon := by
  obtain ⟨hce, hcu⟩ := connectProperties_WF (env.objects obj)
  exact ⟨mergedCommon_WF _ _ _ hce hwf.1, mergedCommon_WF _ _ _ hcu hwf.2⟩

/-- Invariant principle for the pass-1 loop of an uncancelled run: a property
of (objects processed, state) that every object step keeps, and that stays
true of the state at a `break` whatever objects are left, holds of the state
the loop ends with, for the whole selection. -/
theorem pass1Loop_steady (args : PropertyThreadArgs) (env : WorkerEnv) (hs : Steady args)
    (P : List Nat → Pass1State → Prop)
    (hstep : ∀ done o st, o ∉ done → st.WFCommon → P done st →
      P (done ++ [o]) (nextState args env done.length o st))
    (hbrk : ∀ done more st, done ≠ [] → P done st → allShared st = true →
      P (done ++ more) st)
    (sel done : List Nat) (st : Pass1State) (t : Nat) (hnd : (done ++ sel).Nodup)
    (hwf : st.WFCommon) (hP : P done st) :
    ∃ x t1 st1, pass1Loop args env sel done.length st t = (x, t1) ∧
      (x = .completed st1 ∨ x = .broke st1) ∧ P (done ++ sel) st1 := by
  induction sel generalizing done st t with
  | nil => exact ⟨_, _, st, rfl, Or.inl rfl, by simpa using hP⟩
  | cons o rest ih =>
    have hnotin : o ∉ done := by
      intro hmem
      have := List.nodup_append.mp hnd
      exact this.2.2 hmem (List.mem_cons_self _ _)
    obtain ⟨t1, hp⟩ := processObject_steady args env hs done.length o st (t + 1) hwf
    have hP1 := hstep done o st hnotin hwf hP
    have hwf1 := nextState_WFCommon args env done.length o st hwf
    rw [pass1Loop]
    simp only [ne_eq, hs t, not_true_eq_false, if_false, hp]
    by_cases hb : allShared (nextState args env done.length o st) = true
    · simp only [hb, if_true]
      refine ⟨_, _, _, rfl, Or.inr rfl, ?_⟩
      have := hbrk (done ++ [o]) rest _ (by simp) hP1 hb
      simpa using this
    · simp only [hb, Bool.false_eq_true, if_false]
      have hnd1 : ((done ++ [o]) ++ rest).Nodup := by simpa using hnd
      obtain ⟨x, t2, st2, h1, h2, h3⟩ := ih (done ++ [o]) _ t1 hnd1 hwf1 hP1
      refine ⟨x, t2, st2, ?_, h2, by simpa using h3⟩
      rw [← h1]
      simp


/-! ## The selection copy -/

theorem OrderedSet.mem_Append (x y : Nat) (s : OS_SelectableDumbPtr) :
    y ∈ OrderedSet.Append x s ↔ y = x ∨ y ∈ s := by
  unfold OrderedSet.Append
  split_ifs with h
  · constructor
    · exact Or.inr
    · rintro (rfl | h1)
      · exact h
      · exact h1
  · simp [or_comm]

theorem OrderedSet.nodup_Append (x : Nat) (s : OS_SelectableDumbPtr) (h : s.Nodup) :
    (OrderedSet.Append x s).Nodup := by
  unfold OrderedSet.Append
  split_ifs with hx
  · exact h
  · rw [List.nodup_append]
    refine ⟨h, List.nodup_singleton x, ?_⟩
    intro a ha hb
    simp only [List.mem_singleton] at hb
    subst hb
    exact hx ha

theorem copy_fold_nodup (src : List Nat) (acc : OS_SelectableDumbPtr) (h : acc.Nodup) :
    (src.foldl (fun acc x => OrderedSet.Append x acc) acc).Nodup := by
  induction src generalizing acc with
  | nil => exact h
  | cons x rest ih => exact ih _ (OrderedSet.nodup_Append x acc h)

theorem copySelection_nodup (src : List Nat) : (copySelection src).Nodup :=
  copy_fold_nodup src [] List.nodup_nil

theorem copy_fold_mem (src : List Nat) (acc : OS_SelectableDumbPtr) (y : Nat) :
    y ∈ src.foldl (fun acc x => OrderedSet.Append x acc) acc ↔ y ∈ acc ∨ y ∈ src := by
  induction src generalizing acc with
  | nil => simp
  | cons x rest ih =>
    rw [List.foldl_cons, ih, OrderedSet.mem_Append, List.mem_cons]
    tauto

theorem mem_copySelection (src : List Nat) (y : Nat) : y ∈ copySelection src ↔ y ∈ src := by
  unfold copySelection
  rw [copy_fold_mem]
  simp

theorem workerSelection_nodup (args : PropertyThreadArgs) : (workerSelection args).Nodup :=
  copySelection_nodup _

/-! ## The common maps as an intersection -/

theorem find_build_seed {K E : Type} [LinearOrder K] (current : StdMap K E)
    (h : StdMap.WF current) (k : K) :
    StdMap.find k (StdMap.build seedPick current)
      = (StdMap.find k current).map (fun e => [e]) := by
  unfold StdMap.build
  rw [StdMap.find_filterMap _ _ h]
  cases StdMap.find k current <;> rfl

theorem find_build_cull {K E : Type} [LinearOrder K] (current : StdMap K E)
    (common : StdMap K (List E)) (h : StdMap.WF common) (k : K) :
    StdMap.find k (StdMap.build (cullPick current) common)
      = (StdMap.find k common).bind
          (fun l => (StdMap.find k current).map (fun e => l ++ [e])) := by
  unfold StdMap.build
  rw [StdMap.find_filterMap _ _ h]
  rfl

theorem expectedCommon_step {K E : Type} [LinearOrder K] (current : Nat → StdMap K E)
    (done : List Nat) (o : Nat) (common : StdMap K (List E))
    (hcur : StdMap.WF (current o)) (hcom : StdMap.WF common)
    (hnil : done = [] → common = [])
    (hinv : done ≠ [] → ∀ k, StdMap.find k common = expectedCommon current done k) (k : K) :
    StdMap.find k (mergedCommon done.length (current o) common)
      = expectedCommon current (done ++ [o]) k := by
  unfold mergedCommon
  by_cases hd : done = []
  · subst hd
    simp only [List.length_nil, if_true, List.nil_append]
    rw [find_build_seed _ hcur]
    unfold expectedCommon
    cases hf : StdMap.find k (current o) <;> simp [hf]
  · have hlen : done.length ≠ 0 := by
      intro h0
      exact hd (List.length_eq_zero.mp h0)
    simp only [hlen, if_false]
    rw [find_build_cull _ _ hcom, hinv hd k]
    unfold expectedCommon
    rw [List.all_append, List.filterMap_append]
    by_cases hall : done.all (fun o => (StdMap.find k (current o)).isSome) = true
    · cases hf : StdMap.find k (current o) <;> simp [hall, hf]
    · cases hf : StdMap.find k (current o) <;> simp [hall, hf]

theorem expectedCommon_break {K E : Type} [LinearOrder K] (current : Nat → StdMap K E)
    (done more : List Nat)
    (hinv : ∀ k, StdMap.find k ([] : StdMap K (List E)) = expectedCommon current done k)
    (k : K) :
    StdMap.find k ([] : StdMap K (List E)) = expectedCommon current (done ++ more) k := by
  have h := hinv k
  unfold expectedCommon at h ⊢
  rw [List.all_append]
  by_cases hall : done.all (fun o => (StdMap.find k (current o)).isSome) = true
  · simp [hall, StdMap.find] at h
  · simp [hall, StdMap.find]

theorem expectedCommon_spec {K E : Type} [LinearOrder K] (current : Nat → StdMap K E)
    (sel : List Nat) (common : StdMap K (List E))
    (h : ∀ k, StdMap.find k common = expectedCommon current sel k) (key : K) :
    (key ∈ StdMap.keys common ↔ ∀ o ∈ sel, key ∈ StdMap.keys (current o)) ∧
    (∀ l, StdMap.find key common = some l →
      l.map some = sel.map (fun o => StdMap.find key (current o))) := by
  have hk := h key
  unfold expectedCommon at hk
  constructor
  · rw [StdMap.mem_keys_iff_find, hk]
    by_cases hall : sel.all (fun o => (StdMap.find key (current o)).isSome) = true
    · simp only [hall, if_true, Option.some.injEq, exists_eq', true_iff]
      intro o ho
      rw [List.all_eq_true] at hall
      have := hall o ho
      rw [StdMap.mem_keys_iff_find]
      exact Option.isSome_iff_exists.mp this
    · simp only [hall, Bool.false_eq_true, if_false]
      constructor
      · rintro ⟨v, hv⟩
        cases hv
      · intro hcon
        exfalso
        apply hall
        rw [List.all_eq_true]
        intro o ho
        exact Option.isSome_iff_exists.mpr ((StdMap.mem_keys_iff_find _ _).mp (hcon o ho))
  · intro l hl
    rw [hk] at hl
    by_cases hall : sel.all (fun o => (StdMap.find key (current o)).isSome) = true
    · simp only [hall, if_true, Option.some.injEq] at hl
      rw [← hl]
      rw [List.all_eq_true] at hall
      clear hl hk h
      induction sel with
      | nil => rfl
      | cons o rest ih =>
        have ho := hall o (List.mem_cons_self _ _)
        obtain ⟨e, he⟩ := Option.isSome_iff_exists.mp ho
        rw [List.filterMap_cons, he, List.map_cons, List.map_cons, he,
          ih (fun x hx => hall x (List.mem_cons_of_mem _ hx))]
    · simp [hall] at hl


/-! ## What an object enumerates -/

theorem enumerate_fold_keys (calls : List (Element × Int × Int)) (a : EnumerateElementArgs) :
    (∀ key, key ∈ StdMap.keys
        (calls.foldl (fun a c => a.EnumerateElement c.1 c.2.1 c.2.2) a).m_CurrentElements ↔
      key ∈ StdMap.keys a.m_CurrentElements ∨
        ∃ c ∈ calls, c.1.GetSymbolName = none ∧
          key = ElementTypeFlags.mk c.1.GetType c.2.1 c.2.2) ∧
    (∀ sym, sym ∈ StdMap.keys
        (calls.foldl (fun a c => a.EnumerateElement c.1 c.2.1 c.2.2) a).m_CurrentUDTInstances ↔
      sym ∈ StdMap.keys a.m_CurrentUDTInstances ∨
        ∃ c ∈ calls, c.1.GetSymbolName = some sym) := by
  induction calls generalizing a with
  | nil => simp
  | cons c rest ih =>
    rw [List.foldl_cons]
    obtain ⟨h1, h2⟩ := ih (a.EnumerateElement c.1 c.2.1 c.2.2)
    constructor
    · intro key
      rw [h1 key]
      unfold EnumerateElementArgs.EnumerateElement
      cases hsym : c.1.GetSymbolName with
      | none =>
        simp only [StdMap.mem_keys_insert, List.mem_cons, exists_eq_or_imp, hsym, true_and]
        tauto
      | some s =>
        simp only [List.mem_cons, exists_eq_or_imp, hsym, reduceCtorEq, false_and, false_or]
    · intro sym
      rw [h2 sym]
      unfold EnumerateElementArgs.EnumerateElement
      cases hsym : c.1.GetSymbolName with
      | none =>
        simp only [List.mem_cons, exists_eq_or_imp, hsym, reduceCtorEq, false_or]
      | some s =>
        simp only [StdMap.mem_keys_insert, List.mem_cons, exists_eq_or_imp, hsym,
          Option.some.injEq]
        constructor
        · rintro ((h | h) | h)
          · exact Or.inr (Or.inl h.symm)
          · exact Or.inl h
          · exact Or.inr (Or.inr h)
        · rintro (h | h | h)
          · exact Or.inl (Or.inr h)
          · exact Or.inl (Or.inl h.symm)
          · exact Or.inr h

/-- A key is in the per-object element map exactly when the object enumerated
an element that is not a UDT instance under that type and those flags. -/
theorem mem_keys_currentElementsOf (env : WorkerEnv) (obj : Nat) (key : ElementTypeFlags) :
    key ∈ StdMap.keys (currentElementsOf env obj) ↔
      ∃ c ∈ (env.objects obj).ConnectProperties, c.1.GetSymbolName = none ∧
        key = ElementTypeFlags.mk c.1.GetType c.2.1 c.2.2 := by
  unfold currentElementsOf connectProperties
  rw [(enumerate_fold_keys _ _).1 key]
  simp [StdMap.keys]

/-- A symbol name is in the per-object symbol map exactly when the object
enumerated a UDT instance of that symbol. -/
theorem mem_keys_currentUDTInstancesOf (env : WorkerEnv) (obj : Nat) (sym : StdString) :
    sym ∈ StdMap.keys (currentUDTInstancesOf env obj) ↔
      ∃ c ∈ (env.objects obj).ConnectProperties, c.1.GetSymbolName = some sym := by
  unfold currentUDTInstancesOf connectProperties
  rw [(enumerate_fold_keys _ _).2 sym]
  simp [StdMap.keys]


theorem pass1Init_WFCommon (args : PropertyThreadArgs) (env : WorkerEnv) :
    (pass1Init args env).WFCommon := ⟨StdMap.WF_nil, StdMap.WF_nil⟩

theorem allShared_iff (st : Pass1State) :
    allShared st = true ↔
      st.intersectingPanels = [] ∧ st.commonElements = [] ∧ st.commonUDTInstances = [] := by
  unfold allShared
  simp only [Bool.and_eq_true, List.isEmpty_iff]
  tauto


/-! ## The panel validation loop -/

/-- In a steady `Intersection` mode the panel loop only writes `currentPanels`. -/
theorem scan_intersection (env : WorkerEnv) (obj : Nat)
    (hset : SteadySetting env PropertySetting.Intersection)
    (ps : M_PanelCreators) (scan : PanelScan) :
    (ps.foldl (fun acc p => validatePanelStep env obj p acc) scan).currentPanels
        = ps.foldl (fun m p =>
            if (env.objects obj).ValidatePanel p.1 then StdMap.insert p.1 p.2 m else m)
            scan.currentPanels ∧
      (ps.foldl (fun acc p => validatePanelStep env obj p acc) scan).unionedPanels
        = scan.unionedPanels ∧
      (ps.foldl (fun acc p => validatePanelStep env obj p acc) scan).unionedSelections
        = scan.unionedSelections := by
  induction ps generalizing scan with
  | nil => exact ⟨rfl, rfl, rfl⟩
  | cons p rest ih =>
    rw [List.foldl_cons, List.foldl_cons]
    obtain ⟨h1, h2, h3⟩ := ih (validatePanelStep env obj p scan)
    rw [h1, h2, h3]
    unfold validatePanelStep
    by_cases ha : (env.objects obj).ValidatePanel p.1 = true
    · simp [ha, hset scan.settingReads]
    · simp [ha]

/-- In a steady `Union` mode the panel loop only writes the two union maps. -/
theorem scan_union (env : WorkerEnv) (obj : Nat)
    (hset : SteadySetting env PropertySetting.Union)
    (ps : M_PanelCreators) (scan : PanelScan) :
    (ps.foldl (fun acc p => validatePanelStep env obj p acc) scan).currentPanels
        = scan.currentPanels ∧
      (ps.foldl (fun acc p => validatePanelStep env obj p acc) scan).unionedPanels
        = ps.foldl (fun m p =>
            if (env.objects obj).ValidatePanel p.1 then StdMap.insert p.1 p.2 m else m)
            scan.unionedPanels ∧
      (ps.foldl (fun acc p => validatePanelStep env obj p acc) scan).unionedSelections
        = ps.foldl (fun m p =>
            if (env.objects obj).ValidatePanel p.1 then
              StdMap.insertThen p.1 [] (OrderedSet.Append obj) m
            else m)
            scan.unionedSelections := by
  induction ps generalizing scan with
  | nil => exact ⟨rfl, rfl, rfl⟩
  | cons p rest ih =>
    rw [List.foldl_cons, List.foldl_cons, List.foldl_cons]
    obtain ⟨h1, h2, h3⟩ := ih (validatePanelStep env obj p scan)
    rw [h1, h2, h3]
    unfold validatePanelStep
    by_cases ha : (env.objects obj).ValidatePanel p.1 = true
    · simp [ha, hset scan.settingReads]
    · simp [ha]

theorem accepted_fold_filter (accept : StdString → Bool) (ps : M_PanelCreators)
    (h : StdMap.WF ps) :
    ps.foldl (fun m p => if accept p.1 then StdMap.insert p.1 p.2 m else m) []
      = ps.filter (fun p => accept p.1) := by
  have e := StdMap.foldl_build
    (fun (p : StdString × PanelCreator) m => if accept p.1 then StdMap.insert p.1 p.2 m else m)
    (fun p => if accept p.1 then some p.2 else none)
    (fun c m hm => by
      by_cases ha : accept c.1 = true
      · simp only [ha, if_true]
        exact StdMap.insert_of_lt_all _ _ _ hm
      · simp only [ha, Bool.false_eq_true, if_false])
    ps h [] (by intro k hk; simp [StdMap.keys] at hk)
  rw [e, List.nil_append]
  clear e h
  induction ps with
  | nil => rfl
  | cons p rest ih =>
    rw [List.filterMap_cons, List.filter_cons]
    by_cases ha : accept p.1 = true
    · simp only [ha, if_true, Option.map_some']
      rw [ih]
    · simp only [ha, Bool.false_eq_true, if_false, Option.map_none']
      exact ih

theorem StdMap.WF_filter {K V : Type} [LinearOrder K] (f : K × V → Bool) (m : StdMap K V)
    (h : StdMap.WF m) : StdMap.WF (m.filter f) :=
  List.Pairwise.sublist ((List.filter_sublist m).map Prod.fst) h

/-- Under a steady `Intersection` mode one object narrows the running set to
the panels it accepts. -/
theorem nextState_intersection (args : PropertyThreadArgs) (env : WorkerEnv)
    (hm : args.m_Setting = PropertySetting.Intersection)
    (hset : SteadySetting env PropertySetting.Intersection) (index obj : Nat)
    (st : Pass1State) (hwf : StdMap.WF st.intersectingPanels) :
    (nextState args env index obj st).intersectingPanels
        = st.intersectingPanels.filter (fun p => (env.objects obj).ValidatePanel p.1) ∧
      (nextState args env index obj st).unionedPanels = st.unionedPanels ∧
      (nextState args env index obj st).unionedSelections = st.unionedSelections := by
  unfold nextState scanPanels
  simp only [hm, if_true, hset _]
  obtain ⟨h1, h2, h3⟩ := scan_intersection env obj hset st.intersectingPanels
    ⟨[], st.unionedPanels, st.unionedSelections, st.settingReads⟩
  rw [h1, h2, h3]
  exact ⟨accepted_fold_filter _ _ hwf, rfl, rfl⟩

theorem filter_all_append (env : WorkerEnv) (done more : List Nat) (ps : M_PanelCreators) :
    ps.filter (fun p => (done ++ more).all (fun o => (env.objects o).ValidatePanel p.1))
      = (ps.filter (fun p => done.all (fun o => (env.objects o).ValidatePanel p.1))).filter
          (fun p => more.all (fun o => (env.objects o).ValidatePanel p.1)) := by
  rw [List.filter_filter]
  congr 1
  funext p
  rw [List.all_append, Bool.and_comm]

theorem naiveIntersectStep_eq (env : WorkerEnv) (running : M_PanelCreators) (obj : Nat)
    (hsub : ∀ p ∈ running, p ∈ env.s_PanelCreators) :
    naiveIntersectStep env running obj
      = running.filter (fun p => (env.objects obj).ValidatePanel p.1) := by
  unfold naiveIntersectStep
  apply List.filter_congr
  intro p hp
  have hiff : p.1 ∈ StdMap.keys (acceptedPanels env obj)
      ↔ (env.objects obj).ValidatePanel p.1 = true := by
    unfold acceptedPanels StdMap.keys
    rw [List.mem_map]
    constructor
    · rintro ⟨q, hq, hqp⟩
      rw [List.mem_filter] at hq
      rw [← hqp]
      exact hq.2
    · intro ha
      exact ⟨p, List.mem_filter.mpr ⟨hsub p hp, ha⟩, rfl⟩
  by_cases ha : (env.objects obj).ValidatePanel p.1 = true
  · simp [ha, hiff.mpr ha]
  · have : p.1 ∉ StdMap.keys (acceptedPanels env obj) := fun hmem => ha (hiff.mp hmem)
    simp [ha, this]

theorem naive_fold_eq (env : WorkerEnv) (sel : List Nat) (running : M_PanelCreators)
    (hsub : ∀ p ∈ running, p ∈ env.s_PanelCreators) :
    sel.foldl (naiveIntersectStep env) running
      = running.filter (fun p => sel.all (fun o => (env.objects o).ValidatePanel p.1)) := by
  induction sel generalizing running with
  | nil => simp
  | cons o rest ih =>
    rw [List.foldl_cons, naiveIntersectStep_eq env running o hsub, ih]
    · rw [List.filter_filter]
      congr 1
      funext p
      simp [Bool.and_comm]
    · intro p hp
      exact hsub p (List.mem_filter.mp hp).1

theorem naiveIntersect_eq (env : WorkerEnv) (sel : List Nat) :
    naiveIntersect env sel
      = env.s_PanelCreators.filter
          (fun p => sel.all (fun o => (env.objects o).ValidatePanel p.1)) :=
  naive_fold_eq env sel _ (fun _ hp => hp)

/-- The pass-1 loop in a steady `Intersection` mode, over any duplicate-free
list of objects, started from the full registry. -/
theorem pass1Loop_intersection (args : PropertyThreadArgs) (env : WorkerEnv) (hs : Steady args)
    (hm : args.m_Setting = PropertySetting.Intersection)
    (hset : SteadySetting env PropertySetting.Intersection)
    (hreg : StdMap.WF env.s_PanelCreators) (sel : List Nat) (hnd : sel.Nodup)
    (st : Pass1State) (hst : st.intersectingPanels = env.s_PanelCreators)
    (hwf : st.WFCommon) (t : Nat) :
    ∃ x t1 st1, pass1Loop args env sel 0 st t = (x, t1) ∧
      (x = .completed st1 ∨ x = .broke st1) ∧
      st1.intersectingPanels
        = env.s_PanelCreators.filter
            (fun p => sel.all (fun o => (env.objects o).ValidatePanel p.1)) := by
  let P : List Nat → Pass1State → Prop := fun done s =>
    s.intersectingPanels
      = env.s_PanelCreators.filter
          (fun p => done.all (fun o => (env.objects o).ValidatePanel p.1))
  have hstep : ∀ done o s, o ∉ done → s.WFCommon → P done s →
      P (done ++ [o]) (nextState args env done.length o s) := by
    intro done o s _ _ hP
    have hwfs : StdMap.WF s.intersectingPanels := by
      rw [show s.intersectingPanels = _ from hP]; exact StdMap.WF_filter _ _ hreg
    show (nextState args env done.length o s).intersectingPanels = _
    rw [(nextState_intersection args env hm hset done.length o s hwfs).1, filter_all_append,
      show s.intersectingPanels = _ from hP]
    congr 1
    funext p
    simp
  have hbrk : ∀ done more s, done ≠ [] → P done s → allShared s = true →
      P (done ++ more) s := by
    intro done more s _ hP hall
    have hnil := ((allShared_iff s).mp hall).1
    show s.intersectingPanels = _
    rw [filter_all_append, ← show s.intersectingPanels = _ from hP, hnil]
    rfl
  have h0 : P [] st := by
    show st.intersectingPanels = _
    rw [hst]
    simp
  obtain ⟨x, t1, st1, h1, h2, h3⟩ := pass1Loop_steady args env hs P hstep hbrk sel [] st t
    (by simpa using hnd) hwf h0
  exact ⟨x, t1, st1, h1, h2, by simpa using h3⟩


theorem pass1Init_intersecting (args : PropertyThreadArgs) (env : WorkerEnv)
    (hne : workerSelection args ≠ []) :
    (pass1Init args env).intersectingPanels = env.s_PanelCreators := by
  unfold pass1Init
  have : (workerSelection args).isEmpty = false := by
    cases h : workerSelection args with
    | nil => exact absurd h hne
    | cons a l => rfl
  simp [this]


/-! ## Manager lemmas -/

theorem CreateProperties_frame (m : PropertiesManager) (canvas : CanvasView) :
    (m.CreateProperties canvas).1.m_SelectionId = m.m_SelectionId ∧
    (m.CreateProperties canvas).1.m_SelectionDirty = m.m_SelectionDirty ∧
    (m.CreateProperties canvas).1.m_Selection = m.m_Selection ∧
    (m.CreateProperties canvas).1.m_Setting = m.m_Setting ∧
    (m.CreateProperties canvas).1.m_PreviousScroll = canvas.GetScroll := by
  unfold PropertiesManager.CreateProperties PropertiesManager.FinalizeProperties
  simp only []
  split_ifs <;> simp

theorem SetSelection_fields (m : PropertiesManager) (canvas : CanvasView)
    (selection : OS_SelectableDumbPtr) :
    (m.SetSelection canvas selection).1.m_SelectionId = (m.m_SelectionId + 1) % u32Size ∧
    (m.SetSelection canvas selection).1.m_SelectionDirty = true ∧
    (m.SetSelection canvas selection).1.m_Selection = selection ∧
    (m.SetSelection canvas selection).1.m_Setting = m.m_Setting := by
  unfold PropertiesManager.SetSelection
  simp only []
  obtain ⟨h1, h2, h3, h4, -⟩ := CreateProperties_frame
    { m with m_Selection := selection, m_SelectionId := (m.m_SelectionId + 1) % u32Size,
             m_SelectionDirty := true } canvas
  exact ⟨h1, h2, h3, h4⟩

theorem SetProperties_fields (m : PropertiesManager) (canvas : CanvasView)
    (setting : PropertySetting) :
    (m.SetProperties canvas setting).1.m_SelectionId = (m.m_SelectionId + 1) % u32Size ∧
    (m.SetProperties canvas setting).1.m_SelectionDirty = true ∧
    (m.SetProperties canvas setting).1.m_Setting = setting ∧
    (m.SetProperties canvas setting).1.m_Selection = m.m_Selection := by
  unfold PropertiesManager.SetProperties
  simp only []
  obtain ⟨h1, h2, h3, h4, -⟩ := CreateProperties_frame
    { m with m_Setting := setting, m_SelectionId := (m.m_SelectionId + 1) % u32Size,
             m_SelectionDirty := true } canvas
  exact ⟨h1, h2, h4, h3⟩

theorem step_selectionId (m : PropertiesManager) (canvas : CanvasView) (op : ManagerOp) :
    (m.step canvas op).m_SelectionId =
      if op.bumps then (m.m_SelectionId + 1) % u32Size else m.m_SelectionId := by
  cases op with
  | SetSelection selection => simpa [PropertiesManager.step, ManagerOp.bumps] using
      (SetSelection_fields m canvas selection).1
  | SetProperties setting => simpa [PropertiesManager.step, ManagerOp.bumps] using
      (SetProperties_fields m canvas setting).1
  | Show =>
    simp only [PropertiesManager.step, ManagerOp.bumps, PropertiesManager.Show,
      Bool.false_eq_true, if_false]
    by_cases hd : m.m_SelectionDirty = true
    · simp only [hd, if_true]
      exact (CreateProperties_frame m canvas).1
    · simp [hd]
  | CreateProperties =>
    simp only [PropertiesManager.step, ManagerOp.bumps, Bool.false_eq_true, if_false]
    exact (CreateProperties_frame m canvas).1
  | FinalizeProperties selectionId controls =>
    simp only [PropertiesManager.step, ManagerOp.bumps, PropertiesManager.FinalizeProperties,
      Bool.false_eq_true, if_false]
    by_cases hs : selectionId = m.m_SelectionId <;> simp [hs]
  | ThreadsActive => rfl
  | WorkerExit => rfl

theorem countBumps_cons (c : CanvasView × ManagerOp) (ops : List (CanvasView × ManagerOp)) :
    countBumps (c :: ops) = (if c.2.bumps then 1 else 0) + countBumps ops := by
  unfold countBumps
  by_cases h : c.2.bumps = true
  · simp [List.filter_cons, h]; omega
  · simp [List.filter_cons, h]

theorem run_selectionId (ops : List (CanvasView × ManagerOp)) (m : PropertiesManager) :
    (m.run ops).m_SelectionId % u32Size = (m.m_SelectionId + countBumps ops) % u32Size := by
  induction ops generalizing m with
  | nil => simp [PropertiesManager.run, countBumps]
  | cons c rest ih =>
    obtain ⟨canvas, op⟩ := c
    rw [PropertiesManager.run, ih, step_selectionId, countBumps_cons]
    by_cases h : op.bumps = true
    · simp only [h, if_true]
      rw [Nat.add_mod, Nat.mod_mod, ← Nat.add_mod]
      congr 1; omega
    · simp [h]

theorem run_append (m : PropertiesManager) (a b : List (CanvasView × ManagerOp)) :
    m.run (a ++ b) = (m.run a).run b := by
  induction a generalizing m with
  | nil => rfl
  | cons c rest ih => obtain ⟨canvas, op⟩ := c; simp [PropertiesManager.run, ih]

theorem run_selectionId_lt (ops : List (CanvasView × ManagerOp)) (m : PropertiesManager)
    (h : m.m_SelectionId < u32Size) : (m.run ops).m_SelectionId < u32Size := by
  induction ops generalizing m with
  | nil => simpa [PropertiesManager.run] using h
  | cons c rest ih =>
    obtain ⟨canvas, op⟩ := c
    rw [PropertiesManager.run]
    apply ih
    rw [step_selectionId]
    split_ifs
    · exact Nat.mod_lt _ (by decide)
    · exact h

theorem constructed_run_selectionId (ops : List (CanvasView × ManagerOp)) :
    (PropertiesManager.constructed.run ops).m_SelectionId = countBumps ops % u32Size := by
  have h1 := run_selectionId ops PropertiesManager.constructed
  have h2 := run_selectionId_lt ops PropertiesManager.constructed (by decide)
  rw [Nat.mod_eq_of_lt h2] at h1
  simpa [PropertiesManager.constructed] using h1

theorem countBumps_replicate_setSelection (n : Nat) (canvas : CanvasView)
    (selection : OS_SelectableDumbPtr) :
    countBumps (List.replicate n (canvas, ManagerOp.SetSelection selection)) = n := by
  induction n with
  | zero => rfl
  | succ k ih => rw [List.replicate_succ, countBumps_cons, ih]; simp [ManagerOp.bumps]; omega


/-! ## The union maps -/

theorem union_panels_fold (accept : StdString → Bool) (ps up : M_PanelCreators)
    (hwf : StdMap.WF up) :
    StdMap.WF (ps.foldl (fun m p => if accept p.1 then StdMap.insert p.1 p.2 m else m) up) ∧
    ∀ name, StdMap.find name
        (ps.foldl (fun m p => if accept p.1 then StdMap.insert p.1 p.2 m else m) up)
      = (StdMap.find name up).orElse
          (fun _ => if accept name then StdMap.find name ps else none) := by
  induction ps generalizing up with
  | nil =>
    refine ⟨hwf, fun name => ?_⟩
    simp only [List.foldl_nil]
    cases StdMap.find name up <;> simp [StdMap.find]
  | cons p rest ih =>
    rw [List.foldl_cons]
    by_cases ha : accept p.1 = true
    · simp only [ha, if_true]
      obtain ⟨h1, h2⟩ := ih (StdMap.insert p.1 p.2 up) (StdMap.WF_insert _ _ _ hwf)
      refine ⟨h1, fun name => ?_⟩
      rw [h2 name]
      by_cases hn : name = p.1
      · subst hn
        rw [StdMap.find_insert_self _ _ _ hwf]
        cases StdMap.find p.1 up <;> simp [StdMap.find, ha]
      · rw [StdMap.find_insert_ne _ _ _ _ hn]
        have : ¬ p.1 = name := fun h => hn h.symm
        simp [StdMap.find, this]
    · simp only [ha, Bool.false_eq_true, if_false]
      obtain ⟨h1, h2⟩ := ih up hwf
      refine ⟨h1, fun name => ?_⟩
      rw [h2 name]
      by_cases hn : name = p.1
      · subst hn
        simp [ha]
      · have : ¬ p.1 = name := fun h => hn h.symm
        simp [StdMap.find, this]

theorem union_selections_fold (accept : StdString → Bool) (obj : Nat) (ps : M_PanelCreators)
    (hps : (StdMap.keys ps).Nodup) (us : M_UnionedSelections) (hwf : StdMap.WF us) :
    StdMap.WF (ps.foldl (fun m p =>
        if accept p.1 then StdMap.insertThen p.1 [] (OrderedSet.Append obj) m else m) us) ∧
    ∀ name, StdMap.find name (ps.foldl (fun m p =>
        if accept p.1 then StdMap.insertThen p.1 [] (OrderedSet.Append obj) m else m) us)
      = if accept name = true ∧ name ∈ StdMap.keys ps then
          some (OrderedSet.Append obj ((StdMap.find name us).getD []))
        else StdMap.find name us := by
  induction ps generalizing us with
  | nil =>
    refine ⟨hwf, fun name => ?_⟩
    simp [StdMap.keys]
  | cons p rest ih =>
    rw [StdMap.keys_cons, List.nodup_cons] at hps
    rw [List.foldl_cons]
    by_cases ha : accept p.1 = true
    · simp only [ha, if_true]
      obtain ⟨h1, h2⟩ := ih hps.2 (StdMap.insertThen p.1 [] (OrderedSet.Append obj) us)
        (StdMap.WF_insertThen _ _ _ _ hwf)
      refine ⟨h1, fun name => ?_⟩
      rw [h2 name, StdMap.find_insertThen _ _ _ _ _ hwf]
      by_cases hn : name = p.1
      · subst hn
        simp [ha, hps.1, StdMap.keys_cons]
      · simp [hn, StdMap.keys_cons]
    · simp only [ha, Bool.false_eq_true, if_false]
      obtain ⟨h1, h2⟩ := ih hps.2 us hwf
      refine ⟨h1, fun name => ?_⟩
      rw [h2 name]
      by_cases hn : name = p.1
      · subst hn
        simp [ha, hps.1, StdMap.keys_cons]
      · simp [hn, StdMap.keys_cons]

theorem StdMap.nodup_keys_of_WF {K V : Type} [LinearOrder K] (m : StdMap K V) (h : StdMap.WF m) :
    (StdMap.keys m).Nodup :=
  List.Pairwise.imp (fun hab => ne_of_lt hab) h

/-- Under a steady `Union` mode one object leaves the running intersecting set
alone and adds itself to the union maps for the panels it accepts. -/
theorem nextState_union (args : PropertyThreadArgs) (env : WorkerEnv)
    (hm : args.m_Setting = PropertySetting.Union)
    (hset : SteadySetting env PropertySetting.Union) (index obj : Nat) (st : Pass1State) :
    (nextState args env index obj st).intersectingPanels = st.intersectingPanels ∧
      (nextState args env index obj st).unionedPanels
        = env.s_PanelCreators.foldl (fun m p =>
            if (env.objects obj).ValidatePanel p.1 then StdMap.insert p.1 p.2 m else m)
            st.unionedPanels ∧
      (nextState args env index obj st).unionedSelections
        = env.s_PanelCreators.foldl (fun m p =>
            if (env.objects obj).ValidatePanel p.1 then
              StdMap.insertThen p.1 [] (OrderedSet.Append obj) m
            else m)
            st.unionedSelections := by
  unfold nextState scanPanels
  simp only [hm, hset _]
  obtain ⟨h1, h2, h3⟩ := scan_union env obj hset env.s_PanelCreators
    ⟨[], st.unionedPanels, st.unionedSelections, st.settingReads⟩
  simp only [reduceCtorEq, if_false]
  exact ⟨trivial, h2, h3⟩


theorem filter_eq_nil_of_any_false (f : Nat → Bool) (l : List Nat) (h : l.any f = false) :
    l.filter f = [] := by
  rw [List.filter_eq_nil_iff]
  intro a ha hfa
  have : l.any f = true := List.any_eq_true.mpr ⟨a, ha, hfa⟩
  rw [h] at this
  cases this

theorem Append_filter_new (f : Nat → Bool) (done : List Nat) (o : Nat) (ho : o ∉ done)
    (hf : f o = true) :
    OrderedSet.Append o (done.filter f) = (done ++ [o]).filter f := by
  unfold OrderedSet.Append
  have : o ∉ done.filter f := fun h => ho (List.mem_filter.mp h).1
  simp [this, List.filter_append, hf]

/-- The pass-1 loop in a steady `Union` mode over a non-empty selection. -/
theorem pass1Loop_union (args : PropertyThreadArgs) (env : WorkerEnv) (hs : Steady args)
    (hm : args.m_Setting = PropertySetting.Union)
    (hset : SteadySetting env PropertySetting.Union)
    (hreg : StdMap.WF env.s_PanelCreators) (sel : List Nat) (hnd : sel.Nodup)
    (st : Pass1State) (hst : st.intersectingPanels = env.s_PanelCreators)
    (hup : st.unionedPanels = []) (hus : st.unionedSelections = [])
    (hwf : st.WFCommon) (t : Nat) :
    ∃ x t1 st1, pass1Loop args env sel 0 st t = (x, t1) ∧
      (x = .completed st1 ∨ x = .broke st1) ∧
      (∀ name, StdMap.find name st1.unionedPanels
        = if sel.any (fun o => (env.objects o).ValidatePanel name) then
            StdMap.find name env.s_PanelCreators
          else none) ∧
      (∀ name, StdMap.find name st1.unionedSelections
        = if name ∈ StdMap.keys env.s_PanelCreators
              ∧ sel.any (fun o => (env.objects o).ValidatePanel name) = true then
            some (sel.filter (fun o => (env.objects o).ValidatePanel name))
          else none) := by
  let P : List Nat → Pass1State → Prop := fun done s =>
    s.intersectingPanels = env.s_PanelCreators ∧
    StdMap.WF s.unionedPanels ∧ StdMap.WF s.unionedSelections ∧
    (∀ name, StdMap.find name s.unionedPanels
      = if done.any (fun o => (env.objects o).ValidatePanel name) then
          StdMap.find name env.s_PanelCreators
        else none) ∧
    (∀ name, StdMap.find name s.unionedSelections
      = if name ∈ StdMap.keys env.s_PanelCreators
            ∧ done.any (fun o => (env.objects o).ValidatePanel name) = true then
          some (done.filter (fun o => (env.objects o).ValidatePanel name))
        else none)
  have hstep : ∀ done o s, o ∉ done → s.WFCommon → P done s →
      P (done ++ [o]) (nextState args env done.length o s) := by
    intro done o s ho _ hP
    obtain ⟨p1, p2, p3, p4, p5⟩ := hP
    obtain ⟨n1, n2, n3⟩ := nextState_union args env hm hset done.length o s
    obtain ⟨u1, u2⟩ := union_panels_fold (fun n => (env.objects o).ValidatePanel n)
      env.s_PanelCreators s.unionedPanels p2
    obtain ⟨v1, v2⟩ := union_selections_fold (fun n => (env.objects o).ValidatePanel n) o
      env.s_PanelCreators (StdMap.nodup_keys_of_WF _ hreg) s.unionedSelections p3
    refine ⟨n1.trans p1, by rw [n2]; exact u1, by rw [n3]; exact v1, ?_, ?_⟩
    · intro name
      rw [n2, u2 name, p4 name, List.any_append]
      by_cases hd : done.any (fun o => (env.objects o).ValidatePanel name) = true
      · cases hf : StdMap.find name env.s_PanelCreators <;> simp [hd, hf]
      · by_cases ha : (env.objects o).ValidatePanel name = true <;> simp [hd, ha]
    · intro name
      rw [n3, v2 name, p5 name, List.any_append]
      by_cases hk : name ∈ StdMap.keys env.s_PanelCreators
      · by_cases ha : (env.objects o).ValidatePanel name = true
        · simp only [ha, hk, and_self, if_true, true_and, List.any_cons, List.any_nil,
            Bool.or_false, Bool.or_true]
          by_cases hd : done.any (fun o => (env.objects o).ValidatePanel name) = true
          · simp only [hd, if_true, Option.getD_some]
            rw [Append_filter_new _ done o ho ha]
          · simp only [hd, Bool.false_eq_true, if_false, Option.getD_none]
            have hnil := filter_eq_nil_of_any_false _ done (Bool.not_eq_true _ ▸ hd)
            have e := Append_filter_new (fun o => (env.objects o).ValidatePanel name) done o ho ha
            rw [hnil] at e
            rw [e]
        · simp [ha, hk, List.filter_append]
      · simp [hk]
  have hbrk : ∀ done more s, done ≠ [] → P done s → allShared s = true →
      P (done ++ more) s := by
    intro done more s _ hP hall
    obtain ⟨p1, p2, p3, p4, p5⟩ := hP
    have hnil : env.s_PanelCreators = [] := by
      rw [← p1]; exact ((allShared_iff s).mp hall).1
    refine ⟨p1, p2, p3, ?_, ?_⟩
    · intro name
      rw [p4 name, hnil]
      simp [StdMap.find]
    · intro name
      rw [p5 name, hnil]
      simp [StdMap.keys]
  have h0 : P [] st := by
    refine ⟨hst, by rw [hup]; exact StdMap.WF_nil, by rw [hus]; exact StdMap.WF_nil, ?_, ?_⟩
    · intro name; rw [hup]; simp [StdMap.find]
    · intro name; rw [hus]; simp [StdMap.find]
  obtain ⟨x, t1, st1, h1, h2, h3⟩ := pass1Loop_steady args env hs P hstep hbrk sel [] st t
    (by simpa using hnd) hwf h0
  simp only [List.nil_append] at h3
  exact ⟨x, t1, st1, h1, h2, h3.2.2.2.1, h3.2.2.2.2⟩


/-! ## The early exit -/

theorem allShared_of_maps (st st1 : Pass1State) (h : st1.maps = st.maps)
    (hall : allShared st = true) : allShared st1 = true := by
  simp only [Pass1State.maps, Pass1Maps.mk.injEq] at h
  obtain ⟨h1, -, -, h4, h5⟩ := h
  rw [allShared_iff] at hall ⊢
  rw [h1, h4, h5]
  exact hall

/-- Once nothing is shared, a further object changes none of the five maps. -/
theorem nextState_after_allShared (args : PropertyThreadArgs) (env : WorkerEnv)
    (index obj : Nat) (st : Pass1State)
    (hall : allShared st = true) (hidx : index ≠ 0)
    (hreg : args.m_Setting = PropertySetting.Union → env.s_PanelCreators = []) :
    (nextState args env index obj st).maps = st.maps := by
  obtain ⟨h1, h2, h3⟩ := (allShared_iff st).mp hall
  have hpanels : (if args.m_Setting = PropertySetting.Intersection then st.intersectingPanels
      else env.s_PanelCreators) = [] := by
    cases hm : args.m_Setting with
    | Intersection => simp [h1]
    | Union => simp [hreg hm]
  have hmerge : ∀ {K E : Type} [LinearOrder K] (cur : StdMap K E),
      mergedCommon index cur ([] : StdMap K (List E)) = [] := by
    intro K E _ cur
    unfold mergedCommon
    simp [hidx, StdMap.build]
  unfold nextState scanPanels
  rw [hpanels]
  simp only [List.foldl_nil, Pass1State.maps, h1, h2, h3, hmerge, ite_self]

theorem pass1LoopNoBreak_after_allShared (args : PropertyThreadArgs) (env : WorkerEnv)
    (hs : Steady args)
    (hreg : args.m_Setting = PropertySetting.Union → env.s_PanelCreators = [])
    (rest : List Nat) (index : Nat) (st : Pass1State) (t : Nat)
    (hall : allShared st = true) (hidx : index ≠ 0) (hwf : st.WFCommon) :
    ∃ st2 t2, pass1LoopNoBreak args env rest index st t = (.completed st2, t2) ∧
      st2.maps = st.maps := by
  induction rest generalizing index st t with
  | nil => exact ⟨st, t, rfl, rfl⟩
  | cons o rest ih =>
    obtain ⟨t1, hp⟩ := processObject_steady args env hs index o st (t + 1) hwf
    have hmaps := nextState_after_allShared args env index o st hall hidx hreg
    obtain ⟨st2, t2, e1, e2⟩ := ih (index + 1) (nextState args env index o st) t1
      (allShared_of_maps _ _ hmaps hall) (by omega) (nextState_WFCommon args env index o st hwf)
    refine ⟨st2, t2, ?_, e2.trans hmaps⟩
    rw [pass1LoopNoBreak]
    simp only [ne_eq, hs t, not_true_eq_false, if_false, hp]
    exact e1

theorem nextState_keeps_union_seed (args : PropertyThreadArgs) (env : WorkerEnv)
    (hset : args.m_Setting = PropertySetting.Union → SteadySetting env PropertySetting.Union)
    (index obj : Nat) (st : Pass1State)
    (hJ : args.m_Setting = PropertySetting.Union → st.intersectingPanels = env.s_PanelCreators)
    (hm : args.m_Setting = PropertySetting.Union) :
    (nextState args env index obj st).intersectingPanels = env.s_PanelCreators := by
  rw [(nextState_union args env hm (hset hm) index obj st).1]
  exact hJ hm

theorem pass1Loop_vs_noBreak (args : PropertyThreadArgs) (env : WorkerEnv)
    (hs : Steady args)
    (hset : args.m_Setting = PropertySetting.Union → SteadySetting env PropertySetting.Union)
    (sel : List Nat) (index : Nat) (st : Pass1State) (t : Nat) (hwf : st.WFCommon)
    (hJ : args.m_Setting = PropertySetting.Union → st.intersectingPanels = env.s_PanelCreators) :
    ∃ x t1 st1 st2 t2, pass1Loop args env sel index st t = (x, t1) ∧
      (x = .completed st1 ∨ x = .broke st1) ∧
      pass1LoopNoBreak args env sel index st t = (.completed st2, t2) ∧
      st1.maps = st2.maps := by
  induction sel generalizing index st t with
  | nil => exact ⟨_, t, st, st, t, rfl, Or.inl rfl, rfl, rfl⟩
  | cons o rest ih =>
    obtain ⟨t1, hp⟩ := processObject_steady args env hs index o st (t + 1) hwf
    have hwf1 := nextState_WFCommon args env index o st hwf
    have hJ1 := nextState_keeps_union_seed args env hset index o st hJ
    rw [pass1Loop, pass1LoopNoBreak]
    simp only [ne_eq, hs t, not_true_eq_false, if_false, hp]
    by_cases hb : allShared (nextState args env index o st) = true
    · simp only [hb, if_true]
      have hreg : args.m_Setting = PropertySetting.Union → env.s_PanelCreators = [] := by
        intro hm
        rw [← hJ1 hm]
        exact ((allShared_iff _).mp hb).1
      obtain ⟨st2, t2, e1, e2⟩ := pass1LoopNoBreak_after_allShared args env hs hreg rest
        (index + 1) (nextState args env index o st) t1 hb (by omega) hwf1
      exact ⟨_, _, _, st2, t2, rfl, Or.inr rfl, e1, e2.symm⟩
    · simp only [hb, Bool.false_eq_true, if_false]
      exact ih (index + 1) (nextState args env index o st) t1 hwf1 hJ1


/-! ## Recomputation: `Show` and `CreateProperties` -/

theorem startedBy_append (a b : List ManagerCall) :
    startedBy (a ++ b) = startedBy a ++ startedBy b := by
  induction a with
  | nil => rfl
  | cons c rest ih => cases c <;> simp [startedBy, ih]

theorem startedBy_addControls (controls : List Nat) :
    startedBy (controls.map ManagerCall.AddControl) = [] := by
  induction controls with
  | nil => rfl
  | cons c rest ih => simpa [startedBy] using ih

theorem FinalizeProperties_starts_nothing (m : PropertiesManager) (selectionId : Nat)
    (controls : List Nat) :
    (m.FinalizeProperties selectionId controls).1 = m ∧
    startedBy (m.FinalizeProperties selectionId controls).2 = [] := by
  unfold PropertiesManager.FinalizeProperties
  split_ifs
  · exact ⟨rfl, rfl⟩
  · refine ⟨rfl, ?_⟩
    simp only []
    rw [startedBy_append, startedBy_addControls]
    rfl

theorem CreateProperties_hidden (m : PropertiesManager) (canvas : CanvasView)
    (h : canvas.IsShown = false) :
    m.CreateProperties canvas
      = ({ m with m_PreviousScroll := canvas.GetScroll },
          [ManagerCall.Reset, ManagerCall.GetScroll]) := by
  simp [PropertiesManager.CreateProperties, h]

theorem CreateProperties_shown_empty (m : PropertiesManager) (canvas : CanvasView)
    (h : canvas.IsShown = true) (hsel : m.m_Selection = []) :
    m.CreateProperties canvas
      = ({ m with m_PreviousScroll := canvas.GetScroll },
          [ManagerCall.Reset, ManagerCall.GetScroll, ManagerCall.Freeze, ManagerCall.Layout,
            ManagerCall.SetScroll canvas.GetScroll, ManagerCall.Read, ManagerCall.Thaw]) := by
  simp [PropertiesManager.CreateProperties, PropertiesManager.FinalizeProperties, h, hsel]

theorem CreateProperties_shown_nonempty (m : PropertiesManager) (canvas : CanvasView)
    (h : canvas.IsShown = true) (hsel : m.m_Selection ≠ []) :
    m.CreateProperties canvas
      = ({ m with m_PreviousScroll := canvas.GetScroll, m_ThreadCount := m.m_ThreadCount + 1 },
          [ManagerCall.Reset, ManagerCall.GetScroll, ManagerCall.CreateContainer,
            ManagerCall.CreateThread (copySelection m.m_Selection) m.m_SelectionId
              m.m_Setting]) := by
  have : m.m_Selection.isEmpty = false := by
    cases hm : m.m_Selection with
    | nil => exact absurd hm hsel
    | cons a l => rfl
  simp [PropertiesManager.CreateProperties, h, this]

theorem CreateProperties_threadCount (m : PropertiesManager) (canvas : CanvasView) :
    (m.CreateProperties canvas).1.m_ThreadCount
        = m.m_ThreadCount + (startedBy (m.CreateProperties canvas).2).length ∧
      (startedBy (m.CreateProperties canvas).2).length ≤ 1 := by
  cases hshown : canvas.IsShown with
  | false => rw [CreateProperties_hidden m canvas hshown]; simp [startedBy]
  | true =>
    by_cases hsel : m.m_Selection = []
    · rw [CreateProperties_shown_empty m canvas hshown hsel]; simp [startedBy]
    · rw [CreateProperties_shown_nonempty m canvas hshown hsel]; simp [startedBy]


/-! ## The thread counter -/

theorem Show_threadCount (m : PropertiesManager) (canvas : CanvasView) :
    (m.Show canvas).1.m_ThreadCount
      = m.m_ThreadCount + (startedBy (m.Show canvas).2).length := by
  unfold PropertiesManager.Show
  split_ifs
  · exact (CreateProperties_threadCount m canvas).1
  · simp [startedBy]

theorem SetSelection_threadCount (m : PropertiesManager) (canvas : CanvasView)
    (selection : OS_SelectableDumbPtr) :
    (m.SetSelection canvas selection).1.m_ThreadCount
      = m.m_ThreadCount + (startedBy (m.SetSelection canvas selection).2).length := by
  unfold PropertiesManager.SetSelection
  exact (CreateProperties_threadCount _ canvas).1

theorem SetProperties_threadCount (m : PropertiesManager) (canvas : CanvasView)
    (setting : PropertySetting) :
    (m.SetProperties canvas setting).1.m_ThreadCount
      = m.m_ThreadCount + (startedBy (m.SetProperties canvas setting).2).length := by
  unfold PropertiesManager.SetProperties
  exact (CreateProperties_threadCount _ canvas).1

theorem afterCall_threadCount (s : ManagerSystem) (r : PropertiesManager × List ManagerCall)
    (hs : s.manager.m_ThreadCount = s.workers.length)
    (hr : r.1.m_ThreadCount = s.manager.m_ThreadCount + (startedBy r.2).length) :
    (s.afterCall r).manager.m_ThreadCount = (s.afterCall r).workers.length := by
  simp only [ManagerSystem.afterCall, List.length_append, Nat.cast_add]
  rw [hr, hs]

/-- Every step of the system keeps the thread counter equal to the number of
worker threads in flight. -/
theorem step_threadCount (s : ManagerSystem) (e : SystemEvent)
    (hs : s.manager.m_ThreadCount = s.workers.length) :
    (s.step e).manager.m_ThreadCount = (s.step e).workers.length := by
  cases e with
  | SetSelection canvas selection =>
    exact afterCall_threadCount s _ hs (SetSelection_threadCount _ _ _)
  | SetProperties canvas setting =>
    exact afterCall_threadCount s _ hs (SetProperties_threadCount _ _ _)
  | Show canvas => exact afterCall_threadCount s _ hs (Show_threadCount _ _)
  | CreateProperties canvas =>
    exact afterCall_threadCount s _ hs (CreateProperties_threadCount _ _).1
  | ThreadsActive => exact hs
  | WorkerFinished worker env live controls =>
    simp only [ManagerSystem.step]
    cases hw : s.workers.get? worker with
    | none => exact hs
    | some w =>
      have hlt : worker < s.workers.length := by
        by_contra hge
        rw [List.get?_eq_none.mpr (not_lt.mp hge)] at hw
        cases hw
      simp only [PropertiesManager.workerThread, PropertiesManager.GeneratePropertiesThread]
      rw [List.length_eraseIdx, if_pos hlt, hs]
      have : 1 ≤ s.workers.length := by omega
      omega
  | Deliver result =>
    simp only [ManagerSystem.step]
    cases hr : s.raised.get? result with
    | none => exact hs
    | some res =>
      simp only [ManagerSystem.deliver]
      rw [(FinalizeProperties_starts_nothing s.manager res.1 res.2).1]
      exact hs

theorem run_threadCount (events : List SystemEvent) (s : ManagerSystem)
    (hs : s.manager.m_ThreadCount = s.workers.length) :
    (s.run events).manager.m_ThreadCount = (s.run events).workers.length := by
  induction events generalizing s with
  | nil => exact hs
  | cons e rest ih => exact ih (s.step e) (step_threadCount s e hs)


/-! ## The common maps, whatever the mode -/

theorem StdMap.ext_of_find {K V : Type} [LinearOrder K] (a b : StdMap K V)
    (ha : StdMap.WF a) (hb : StdMap.WF b)
    (h : ∀ k, StdMap.find k a = StdMap.find k b) : a = b := by
  induction a generalizing b with
  | nil =>
    cases b with
    | nil => rfl
    | cons q rest =>
      have := h q.1
      simp [StdMap.find] at this
  | cons p ra ih =>
    obtain ⟨k1, v1⟩ := p
    cases b with
    | nil =>
      have := h k1
      simp [StdMap.find] at this
    | cons q rb =>
      obtain ⟨k2, v2⟩ := q
      rw [StdMap.WF_cons] at ha hb
      have hna : StdMap.find k1 ra = none := by
        rw [StdMap.find_eq_none_iff]
        exact fun hm => lt_irrefl _ (ha.1 k1 hm)
      have hnb : StdMap.find k2 rb = none := by
        rw [StdMap.find_eq_none_iff]
        exact fun hm => lt_irrefl _ (hb.1 k2 hm)
      have hk : k1 = k2 := by
        by_contra hne
        rcases lt_or_gt_of_ne hne with hlt | hgt
        · have h1 := h k1
          have hnot : StdMap.find k1 rb = none := by
            rw [StdMap.find_eq_none_iff]
            exact fun hm => lt_irrefl _ (lt_trans hlt (hb.1 k1 hm))
          simp [StdMap.find, Ne.symm hne, hnot] at h1
        · have h2 := h k2
          have hnot : StdMap.find k2 ra = none := by
            rw [StdMap.find_eq_none_iff]
            exact fun hm => lt_irrefl _ (lt_trans hgt (ha.1 k2 hm))
          simp [StdMap.find, hne, hnot] at h2
      subst hk
      have hv : v1 = v2 := by
        have h1 := h k1
        simpa [StdMap.find] using h1
      subst hv
      have htail : ∀ k, StdMap.find k ra = StdMap.find k rb := by
        intro k
        by_cases hkk : k1 = k
        · subst hkk
          rw [hna, hnb]
        · have hk' := h k
          simpa [StdMap.find, hkk] using hk'
      rw [ih rb ha.2 hb.2 htail]

/-- In an uncancelled run over a non-empty selection both common maps end
well-formed and hold, under every key, the entry `expectedCommon` names. -/
theorem pass1_common_expected (args : PropertyThreadArgs) (env : WorkerEnv)
    (hs : Steady args) (hne : workerSelection args ≠ []) :
    ∃ m, (pass1 args env).1.maps = some m ∧
      StdMap.WF m.commonElements ∧ StdMap.WF m.commonUDTInstances ∧
      (∀ k, StdMap.find k m.commonElements
        = expectedCommon (currentElementsOf env) (workerSelection args) k) ∧
      (∀ k, StdMap.find k m.commonUDTInstances
        = expectedCommon (currentUDTInstancesOf env) (workerSelection args) k) := by
  let P : List Nat → Pass1State → Prop := fun done st =>
    st.WFCommon ∧
    (done = [] → st.commonElements = [] ∧ st.commonUDTInstances = []) ∧
    (done ≠ [] →
      (∀ k, StdMap.find k st.commonElements
        = expectedCommon (currentElementsOf env) done k) ∧
      (∀ k, StdMap.find k st.commonUDTInstances
        = expectedCommon (currentUDTInstancesOf env) done k))
  have hstep : ∀ done o st, o ∉ done → st.WFCommon → P done st →
      P (done ++ [o]) (nextState args env done.length o st) := by
    intro done o st _ hwf hP
    obtain ⟨hce, hcu⟩ := connectProperties_WF (env.objects o)
    refine ⟨nextState_WFCommon args env done.length o st hwf,
      fun h => absurd h (by simp), fun _ => ⟨?_, ?_⟩⟩
    · exact expectedCommon_step (currentElementsOf env) done o st.commonElements hce hwf.1
        (fun h => (hP.2.1 h).1) (fun h => (hP.2.2 h).1)
    · exact expectedCommon_step (currentUDTInstancesOf env) done o st.commonUDTInstances hcu
        hwf.2 (fun h => (hP.2.1 h).2) (fun h => (hP.2.2 h).2)
  have hbrk : ∀ done more st, done ≠ [] → P done st → allShared st = true →
      P (done ++ more) st := by
    intro done more st hd hP hall
    obtain ⟨-, h2, h3⟩ := (allShared_iff st).mp hall
    obtain ⟨i1, i2⟩ := hP.2.2 hd
    refine ⟨hP.1, fun h => absurd h (by simp [hd]), fun _ => ⟨?_, ?_⟩⟩
    · rw [h2] at i1 ⊢
      exact expectedCommon_break _ done more i1
    · rw [h3] at i2 ⊢
      exact expectedCommon_break _ done more i2
  obtain ⟨x, t1, st1, hrun, hx, hfin⟩ := pass1Loop_steady args env hs P hstep hbrk
    (workerSelection args) [] (pass1Init args env) 0
    (by simpa using workerSelection_nodup args) (pass1Init_WFCommon args env)
    ⟨pass1Init_WFCommon args env, fun _ => ⟨rfl, rfl⟩, fun h => absurd rfl h⟩
  have hpass : pass1 args env = (x, t1) := hrun
  simp only [List.nil_append] at hfin
  obtain ⟨f1, f2⟩ := hfin.2.2 hne
  refine ⟨st1.maps, ?_, hfin.1.1, hfin.1.2, f1, f2⟩
  rw [hpass]
  rcases hx with rfl | rfl <;> rfl

/-- The common maps of an uncancelled run depend on the selection and on what
the objects enumerate, and on nothing else. -/
theorem pass1_common_determined (args1 args2 : PropertyThreadArgs) (env1 env2 : WorkerEnv)
    (hs1 : Steady args1) (hs2 : Steady args2)
    (hsel : args1.m_Selection = args2.m_Selection) (hobj : env1.objects = env2.objects) :
    ∃ m1 m2, (pass1 args1 env1).1.maps = some m1 ∧ (pass1 args2 env2).1.maps = some m2 ∧
      m1.commonElements = m2.commonElements ∧
      m1.commonUDTInstances = m2.commonUDTInstances := by
  have hw : workerSelection args1 = workerSelection args2 := by
    unfold workerSelection; rw [hsel]
  have hce : currentElementsOf env1 = currentElementsOf env2 := by
    funext o; unfold currentElementsOf; rw [hobj]
  have hcu : currentUDTInstancesOf env1 = currentUDTInstancesOf env2 := by
    funext o; unfold currentUDTInstancesOf; rw [hobj]
  by_cases hne : workerSelection args1 = []
  · have hne2 : workerSelection args2 = [] := by rw [← hw]; exact hne
    refine ⟨(pass1Init args1 env1).maps, (pass1Init args2 env2).maps, ?_, ?_, rfl, rfl⟩
    · unfold pass1; rw [hne]; rfl
    · unfold pass1; rw [hne2]; rfl
  · obtain ⟨m1, e1, w1, w1', f1, f1'⟩ := pass1_common_expected args1 env1 hs1 hne
    obtain ⟨m2, e2, w2, w2', f2, f2'⟩ := pass1_common_expected args2 env2 hs2
      (by rw [← hw]; exact hne)
    refine ⟨m1, m2, e1, e2, ?_, ?_⟩
    · apply StdMap.ext_of_find _ _ w1 w2
      intro k
      rw [f1 k, f2 k, hce, hw]
    · apply StdMap.ext_of_find _ _ w1' w2'
      intro k
      rw [f1' k, f2' k, hcu, hw]


/-! ## Runs that return at a checkpoint -/

theorem mergeCommon_returned {K E : Type} [LinearOrder K] (args : PropertyThreadArgs)
    (index : Nat) (current : StdMap K E) (common : StdMap K (List E)) (t : Nat)
    (r : StdMap K (List E)) (t1 : Nat)
    (h : mergeCommon args index current common t = .returned r t1) :
    t < t1 ∧ args.m_CurrentSelectionId (t1 - 1) ≠ args.m_SelectionId := by
  unfold mergeCommon at h
  split_ifs at h
  · exact forEachChecked_returned _ _ _ _ _ _ _ h
  · exact forEachChecked_returned _ _ _ _ _ _ _ h

theorem processObject_none (args : PropertyThreadArgs) (env : WorkerEnv) (index obj : Nat)
    (st : Pass1State) (t : Nat) (t1 : Nat)
    (h : processObject args env index obj st t = (none, t1)) :
    t < t1 ∧ args.m_CurrentSelectionId (t1 - 1) ≠ args.m_SelectionId := by
  unfold processObject at h
  simp only [] at h
  split at h
  · rename_i sc ta hscan
    simp only [Prod.mk.injEq, true_and] at h
    subst h
    exact forEachChecked_returned _ _ _ _ _ _ _ hscan
  · rename_i scan ta hscan
    obtain ⟨-, ea, -⟩ := forEachChecked_done _ _ _ _ _ _ _ hscan
    split at h
    · rename_i ce tb hce
      simp only [Prod.mk.injEq, true_and] at h
      subst h
      split_ifs at hce
      obtain ⟨e1, e2⟩ := mergeCommon_returned _ _ _ _ _ _ _ hce
      exact ⟨by omega, e2⟩
    · rename_i ce tb hce
      have hb : ta ≤ tb := by
        split_ifs at hce
        · simp only [Checked.done.injEq] at hce
          omega
        · exact (mergeCommon_done _ _ _ _ _ _ _ hce).1
      split at h
      · rename_i cu tc hcu
        simp only [Prod.mk.injEq, true_and] at h
        subst h
        obtain ⟨e1, e2⟩ := mergeCommon_returned _ _ _ _ _ _ _ hcu
        exact ⟨by omega, e2⟩
      · simp at h

theorem pass1Loop_returned (args : PropertyThreadArgs) (env : WorkerEnv) (sel : List Nat)
    (index : Nat) (st : Pass1State) (t : Nat) (t1 : Nat)
    (h : pass1Loop args env sel index st t = (.returned, t1)) :
    t < t1 ∧ args.m_CurrentSelectionId (t1 - 1) ≠ args.m_SelectionId := by
  induction sel generalizing index st t with
  | nil => simp [pass1Loop] at h
  | cons obj rest ih =>
    rw [pass1Loop] at h
    by_cases hc : args.m_CurrentSelectionId t = args.m_SelectionId
    · simp only [ne_eq, hc, not_true_eq_false, if_false] at h
      split at h
      · rename_i ta hp
        simp only [Prod.mk.injEq, true_and] at h
        subst h
        obtain ⟨e1, e2⟩ := processObject_none _ _ _ _ _ _ _ hp
        exact ⟨by omega, e2⟩
      · rename_i st1 ta hp
        obtain ⟨e1, -⟩ := processObject_some _ _ _ _ _ _ _ _ hp
        split_ifs at h
        · simp at h
        · obtain ⟨e2, e3⟩ := ih _ _ _ h
          exact ⟨by omega, e3⟩
    · simp only [ne_eq, hc, not_false_eq_true, if_true, Prod.mk.injEq, true_and] at h
      subst h
      exact ⟨by omega, by simpa using hc⟩

theorem pass23_not_raised (args : PropertyThreadArgs) (st : Pass1State) (t : Nat)
    (h : (pass23 args st t).raised = none) :
    t < (pass23 args st t).idReads ∧
      args.m_CurrentSelectionId ((pass23 args st t).idReads - 1) ≠ args.m_SelectionId := by
  unfold pass23 at h ⊢
  simp only [] at h ⊢
  split
  · rename_i c1 t1 h1
    exact forEachChecked_returned _ _ _ _ _ _ _ h1
  · rename_i c1 t1 h1
    simp only [h1] at h
    obtain ⟨-, e1, -⟩ := forEachChecked_done _ _ _ _ _ _ _ h1
    split
    · rename_i c2 t2 h2
      obtain ⟨a, b⟩ := forEachChecked_returned _ _ _ _ _ _ _ h2
      exact ⟨by simp only []; omega, b⟩
    · rename_i c2 t2 h2
      simp only [h2] at h
      obtain ⟨-, e2, -⟩ := forEachChecked_done _ _ _ _ _ _ _ h2
      split
      · rename_i c3 t3 h3
        obtain ⟨a, b⟩ := forEachChecked_returned _ _ _ _ _ _ _ h3
        exact ⟨by simp only []; omega, b⟩
      · rename_i c3 t3 h3
        simp [h3] at h

theorem pass23_raised_id (args : PropertyThreadArgs) (st : Pass1State) (t : Nat) :
    (pass23 args st t).raised = none ∨
      (pass23 args st t).raised = some args.m_SelectionId := by
  unfold pass23
  simp only []
  split
  · exact Or.inl rfl
  · split
    · exact Or.inl rfl
    · split
      · exact Or.inl rfl
      · exact Or.inr rfl

theorem GenerateProperties_raised_id (args : PropertyThreadArgs) (env : WorkerEnv) :
    (GenerateProperties args env).raised = none ∨
      (GenerateProperties args env).raised = some args.m_SelectionId := by
  unfold GenerateProperties
  split
  · exact Or.inl rfl
  · exact pass23_raised_id _ _ _
  · exact pass23_raised_id _ _ _

theorem GenerateProperties_not_raised (args : PropertyThreadArgs) (env : WorkerEnv)
    (h : (GenerateProperties args env).raised = none) :
    ∃ n, n < (GenerateProperties args env).idReads ∧
      args.m_CurrentSelectionId n ≠ args.m_SelectionId := by
  unfold GenerateProperties at h ⊢
  split
  · rename_i t hp
    obtain ⟨e1, e2⟩ := pass1Loop_returned _ _ _ _ _ _ _ hp
    exact ⟨t - 1, by simp only []; omega, e2⟩
  · rename_i st t hp
    simp only [hp] at h
    obtain ⟨e1, e2⟩ := pass23_not_raised _ _ _ h
    exact ⟨_, by omega, e2⟩
  · rename_i st t hp
    simp only [hp] at h
    obtain ⟨e1, e2⟩ := pass23_not_raised _ _ _ h
    exact ⟨_, by omega, e2⟩


/-! ## Lemmas on the integer helpers -/

namespace Lunar

theorem and_pred_mod_two (n : Nat) (h : 1 ≤ n) : (n &&& (n - 1)) % 2 = 0 := by
  rcases Nat.mod_two_eq_zero_or_one (n &&& (n - 1)) with h0 | h1
  · exact h0
  · rw [Nat.and_mod_two_eq_one] at h1
    omega

theorem and_pred_eq_zero_iff (n : Nat) (h : 1 ≤ n) :
    n &&& (n - 1) = 0 ↔ ∃ k : Nat, n = 2 ^ k := by
  induction n using Nat.strong_induction_on with
  | _ n ih =>
    have hm := and_pred_mod_two n h
    have hd : (n &&& (n - 1)) / 2 = n / 2 &&& (n - 1) / 2 := Nat.and_div_two
    have key : n &&& (n - 1) = 0 ↔ n / 2 &&& (n - 1) / 2 = 0 := by
      rw [← hd]; omega
    rw [key]
    rcases Nat.mod_two_eq_zero_or_one n with he | ho
    · have e1 : (n - 1) / 2 = n / 2 - 1 := by omega
      rw [e1, ih (n / 2) (by omega) (by omega)]
      constructor
      · rintro ⟨k, hk⟩
        exact ⟨k + 1, by rw [pow_succ]; omega⟩
      · rintro ⟨k, hk⟩
        cases k with
        | zero => simp at hk; omega
        | succ k => exact ⟨k, by rw [pow_succ] at hk; omega⟩
    · have e1 : (n - 1) / 2 = n / 2 := by omega
      rw [e1, Nat.and_self]
      constructor
      · intro h0
        exact ⟨0, by simp; omega⟩
      · rintro ⟨k, hk⟩
        cases k with
        | zero => simp at hk; omega
        | succ k => rw [pow_succ] at hk; omega

theorem IsPowerOfTwoUnsigned_spec (bits v : Nat) (h1 : 1 ≤ v) (h2 : v < 2 ^ bits) :
    IsPowerOfTwoUnsigned bits v = true ↔ ∃ k : Nat, v = 2 ^ k := by
  unfold IsPowerOfTwoUnsigned
  have e : (v + 2 ^ bits - 1) % 2 ^ bits = v - 1 := by
    have : v + 2 ^ bits - 1 = (v - 1) + 2 ^ bits := by omega
    rw [this, Nat.add_mod_right, Nat.mod_eq_of_lt (by omega)]
  rw [e, beq_iff_eq, and_pred_eq_zero_iff v h1]

theorem IsPowerOfTwoSigned_spec (bits : Nat) (v : Int) (h0 : v ≠ 0)
    (hmin : v ≠ -(2 : Int) ^ (bits - 1)) (hlt : v.natAbs < 2 ^ bits) :
    ∃ b, IsPowerOfTwoSigned bits v = some b ∧ (b = true ↔ ∃ k : Nat, v.natAbs = 2 ^ k) := by
  unfold IsPowerOfTwoSigned
  rw [if_neg hmin]
  exact ⟨_, rfl, IsPowerOfTwoUnsigned_spec bits v.natAbs (by omega) hlt⟩

theorem and_two_pow_eq_zero_iff (v b : Nat) : v &&& 2 ^ b = 0 ↔ v.testBit b = false := by
  constructor
  · intro h
    have := congrArg (fun x => Nat.testBit x b) h
    simpa [Nat.testBit_and, Nat.testBit_two_pow] using this
  · intro h
    apply Nat.eq_of_testBit_eq
    intro i
    rw [Nat.testBit_and, Nat.testBit_two_pow, Nat.zero_testBit]
    by_cases hb : b = i
    · subst hb; simp [h]
    · simp [hb]

theorem Log2Scan_spec (value : Nat) (h0 : value ≠ 0) :
    ∀ (bitIndex : Nat), value < 2 ^ (bitIndex + 1) →
      2 ^ Log2Scan value bitIndex (2 ^ bitIndex) ≤ value ∧
      value < 2 ^ (Log2Scan value bitIndex (2 ^ bitIndex) + 1) ∧
      Log2Scan value bitIndex (2 ^ bitIndex) ≤ bitIndex := by
  intro bitIndex
  induction bitIndex with
  | zero =>
    intro h
    simp [Log2Scan] at h ⊢
    omega
  | succ b ih =>
    intro h
    rw [Log2Scan]
    by_cases hb : value &&& 2 ^ (b + 1) = 0
    · rw [if_pos hb]
      have hs : 2 ^ (b + 1) >>> 1 = 2 ^ b := by
        rw [Nat.shiftRight_eq_div_pow, pow_succ]; simp
      rw [hs]
      have hlt : value < 2 ^ (b + 1) := by
        apply Nat.lt_pow_two_of_testBit
        intro i hi
        rcases Nat.eq_or_lt_of_le hi with e | l
        · rw [← e]; exact (and_two_pow_eq_zero_iff _ _).1 hb
        · apply Nat.testBit_lt_two_pow
          exact lt_of_lt_of_le h (Nat.pow_le_pow_right (by decide) l)
      obtain ⟨a1, a2, a3⟩ := ih hlt
      exact ⟨a1, a2, by omega⟩
    · rw [if_neg hb]
      refine ⟨?_, h, le_refl _⟩
      apply Nat.testBit_implies_ge
      rw [and_two_pow_eq_zero_iff] at hb
      simpa using hb

end Lunar

/-! ## The running panel set after any number of objects -/

/-- The running panel set after `k` objects in a steady `Intersection` mode. -/
theorem pass1Upto_intersecting (args : PropertyThreadArgs) (env : WorkerEnv)
    (hs : Steady args) (hm : args.m_Setting = PropertySetting.Intersection)
    (hset : SteadySetting env PropertySetting.Intersection)
    (hreg : StdMap.WF env.s_PanelCreators) (k : Nat) :
    ∃ m, (pass1Upto args env k).1.maps = some m ∧
      ∀ p, p ∈ m.intersectingPanels ↔
        (workerSelection args ≠ [] ∧ p ∈ env.s_PanelCreators ∧
          ∀ o ∈ (workerSelection args).take k, (env.objects o).ValidatePanel p.1 = true) := by
  by_cases hne : workerSelection args = []
  · refine ⟨(pass1Init args env).maps, ?_, ?_⟩
    · unfold pass1Upto
      rw [hne]
      simp [pass1Loop, Pass1Exit.maps]
    · intro p
      simp [Pass1State.maps, pass1Init, hne]
  · obtain ⟨x, t1, st1, h1, h2, h3⟩ := pass1Loop_intersection args env hs hm hset hreg
      ((workerSelection args).take k)
      (List.Nodup.sublist (List.take_sublist k _) (workerSelection_nodup args))
      (pass1Init args env) (pass1Init_intersecting args env hne) (pass1Init_WFCommon args env) 0
    have hpass : pass1Upto args env k = (x, t1) := h1
    refine ⟨st1.maps, ?_, ?_⟩
    · rw [hpass]
      rcases h2 with rfl | rfl <;> rfl
    · intro p
      show p ∈ st1.intersectingPanels ↔ _
      rw [h3, List.mem_filter, List.all_eq_true]
      simp [hne]


/-! ## The panel maps stay well-formed, the union maps stay together -/

theorem forEachChecked_invariant {α σ : Type} (args : PropertyThreadArgs) (body : α → σ → σ)
    (P : σ → Prop) (xs : List α) (hstep : ∀ x ∈ xs, ∀ s, P s → P (body x s))
    (s : σ) (t : Nat) (hP : P s) :
    ∀ s1 t1, (forEachChecked args body xs s t = .done s1 t1 ∨
      forEachChecked args body xs s t = .returned s1 t1) → P s1 := by
  induction xs generalizing s t with
  | nil =>
    intro s1 t1 h
    simp only [forEachChecked, Checked.done.injEq, reduceCtorEq, or_false] at h
    rw [← h.1]; exact hP
  | cons x xs ih =>
    intro s1 t1 h
    rw [forEachChecked] at h
    by_cases hc : args.m_CurrentSelectionId t = args.m_SelectionId
    · simp only [ne_eq, hc, not_true_eq_false, if_false] at h
      exact ih (fun y hy => hstep y (List.mem_cons_of_mem _ hy)) _ _
        (hstep x (List.mem_cons_self _ _) s hP) s1 t1 h
    · simp only [ne_eq, hc, not_false_eq_true, if_true, reduceCtorEq, Checked.returned.injEq,
        false_or] at h
      rw [← h.1]; exact hP

theorem OrderedSet.Append_ne_nil (x : Nat) (s : OS_SelectableDumbPtr) :
    OrderedSet.Append x s ≠ [] := by
  unfold OrderedSet.Append
  split_ifs with h
  · intro e; rw [e] at h; simp at h
  · simp

theorem validatePanelStep_WFPanels (env : WorkerEnv) (obj : Nat) (p : StdString × PanelCreator)
    (s : PanelScan)
    (h : StdMap.WF s.currentPanels ∧ UnionAgree s.unionedPanels s.unionedSelections) :
    StdMap.WF (validatePanelStep env obj p s).currentPanels ∧
      UnionAgree (validatePanelStep env obj p s).unionedPanels
        (validatePanelStep env obj p s).unionedSelections := by
  obtain ⟨hc, hup, hus, hk, hne⟩ := h
  unfold validatePanelStep
  by_cases ha : (env.objects obj).ValidatePanel p.1 = true
  · simp only [ha, if_true]
    cases env.m_Setting s.settingReads with
    | Intersection => exact ⟨StdMap.WF_insert _ _ _ hc, hup, hus, hk, hne⟩
    | Union =>
      refine ⟨hc, StdMap.WF_insert _ _ _ hup, StdMap.WF_insertThen _ _ _ _ hus, ?_, ?_⟩
      · intro name
        simp only []
        rw [StdMap.mem_keys_insert, StdMap.mem_keys_insertThen, hk name]
      · intro name sel hf
        simp only [] at hf
        rw [StdMap.find_insertThen _ _ _ _ _ hus] at hf
        by_cases hn : name = p.1
        · simp only [hn, if_true, Option.some.injEq] at hf
          rw [← hf]
          exact OrderedSet.Append_ne_nil _ _
        · simp only [hn, if_false] at hf
          exact hne name sel hf
  · simp only [ha, Bool.false_eq_true, if_false]
    exact ⟨hc, hup, hus, hk, hne⟩

theorem processObject_WFPanels (args : PropertyThreadArgs) (env : WorkerEnv) (index obj : Nat)
    (st : Pass1State) (t : Nat) (st1 : Pass1State) (t1 : Nat)
    (h : processObject args env index obj st t = (some st1, t1)) (hst : st.WFPanels) :
    st1.WFPanels := by
  unfold processObject at h
  simp only [] at h
  split at h
  · simp at h
  · rename_i scan ta hscan
    have hinv := forEachChecked_invariant args (validatePanelStep env obj)
      (fun s => StdMap.WF s.currentPanels ∧ UnionAgree s.unionedPanels s.unionedSelections)
      _ (fun p _ s hs => validatePanelStep_WFPanels env obj p s hs) _ t
      ⟨StdMap.WF_nil, hst.2⟩ scan ta (Or.inl hscan)
    split at h
    · simp at h
    · split at h
      · simp at h
      · simp only [Prod.mk.injEq, Option.some.injEq] at h
        obtain ⟨rfl, -⟩ := h
        refine ⟨?_, hinv.2⟩
        show StdMap.WF (if _ then _ else _)
        split_ifs
        · exact hinv.1
        · exact hst.1

theorem pass1Loop_WFPanels (args : PropertyThreadArgs) (env : WorkerEnv) (sel : List Nat)
    (index : Nat) (st : Pass1State) (t : Nat) (x : Pass1Exit) (t1 : Nat)
    (h : pass1Loop args env sel index st t = (x, t1)) (hst : st.WFPanels) :
    ∀ st1, (x = .completed st1 ∨ x = .broke st1) → st1.WFPanels := by
  induction sel generalizing index st t with
  | nil =>
    simp only [pass1Loop, Prod.mk.injEq] at h
    obtain ⟨rfl, -⟩ := h
    intro st1 hx
    simp only [Pass1Exit.completed.injEq, reduceCtorEq, or_false] at hx
    rw [← hx]; exact hst
  | cons obj rest ih =>
    rw [pass1Loop] at h
    by_cases hc : args.m_CurrentSelectionId t = args.m_SelectionId
    · simp only [ne_eq, hc, not_true_eq_false, if_false] at h
      split at h
      · simp only [Prod.mk.injEq] at h
        obtain ⟨rfl, -⟩ := h
        intro st1 hx
        simp at hx
      · rename_i st2 ta hp
        have h2 := processObject_WFPanels _ _ _ _ _ _ _ _ hp hst
        split_ifs at h
        · simp only [Prod.mk.injEq] at h
          obtain ⟨rfl, -⟩ := h
          intro st1 hx
          simp only [reduceCtorEq, Pass1Exit.broke.injEq, false_or] at hx
          rw [← hx]; exact h2
        · exact ih _ _ _ h h2
    · simp only [ne_eq, hc, not_false_eq_true, if_true, Prod.mk.injEq] at h
      obtain ⟨rfl, -⟩ := h
      intro st1 hx
      simp at hx

theorem pass1Init_WFPanels (args : PropertyThreadArgs) (env : WorkerEnv)
    (hreg : StdMap.WF env.s_PanelCreators) : (pass1Init args env).WFPanels := by
  unfold pass1Init Pass1State.WFPanels UnionAgree
  refine ⟨?_, StdMap.WF_nil, StdMap.WF_nil, fun _ => Iff.rfl, ?_⟩
  · show StdMap.WF (if _ then _ else _)
    split_ifs
    · exact StdMap.WF_nil
    · exact hreg
  · intro name s hf
    simp [StdMap.find] at hf

theorem pass1_WFPanels (args : PropertyThreadArgs) (env : WorkerEnv)
    (hreg : StdMap.WF env.s_PanelCreators) (st : Pass1State)
    (h : (pass1 args env).1 = .completed st ∨ (pass1 args env).1 = .broke st) :
    st.WFPanels :=
  pass1Loop_WFPanels args env (workerSelection args) 0 (pass1Init args env) 0
    (pass1 args env).1 (pass1 args env).2 rfl (pass1Init_WFPanels args env hreg) st h


/-! ## Pass 2 -/

theorem createPanelStep_no_break (args : PropertyThreadArgs) (selection : OS_SelectableDumbPtr)
    (us : M_UnionedSelections) (p : StdString × PanelCreator) (calls : List WorkerCall)
    (hfind : args.m_Setting = PropertySetting.Union → ∃ s, StdMap.find p.1 us = some s)
    (h : WorkerCall.NocBreak ∉ calls) :
    WorkerCall.NocBreak ∉ createPanelStep args selection us p calls := by
  unfold createPanelStep
  cases hm : args.m_Setting with
  | Intersection => simp [h]
  | Union =>
    obtain ⟨s, hs⟩ := hfind hm
    simp [hs, h]

theorem UnionAgree.lookup_succeeds {up : M_PanelCreators} {us : M_UnionedSelections}
    (h : UnionAgree up us) (p : StdString × PanelCreator) (hp : p ∈ up) :
    ∃ s, StdMap.find p.1 us = some s ∧ s ≠ [] := by
  have hk : p.1 ∈ StdMap.keys up := List.mem_map_of_mem Prod.fst hp
  rw [h.2.2.1 p.1, StdMap.mem_keys_iff_find] at hk
  obtain ⟨s, hs⟩ := hk
  exact ⟨s, hs, h.2.2.2 p.1 s hs⟩

theorem pass23_no_break (args : PropertyThreadArgs) (st : Pass1State) (t : Nat)
    (hst : st.WFPanels) : WorkerCall.NocBreak ∉ (pass23 args st t).calls := by
  have h1 := forEachChecked_invariant args
    (createPanelStep args (workerSelection args) st.unionedSelections)
    (fun calls => WorkerCall.NocBreak ∉ calls)
    (if args.m_Setting = PropertySetting.Intersection then st.intersectingPanels
      else st.unionedPanels)
    (fun p hp calls hc => createPanelStep_no_break args _ _ p calls
      (fun hm => by
        rw [hm] at hp
        simp only [reduceCtorEq, if_false] at hp
        obtain ⟨s, hs, -⟩ := hst.2.lookup_succeeds p hp
        exact ⟨s, hs⟩) hc)
    [] t (by simp)
  unfold pass23
  simp only []
  split
  · rename_i c1 t1 e1
    exact h1 c1 t1 (Or.inr e1)
  · rename_i c1 t1 e1
    have h2 := forEachChecked_invariant args interpretElementStep
      (fun calls => WorkerCall.NocBreak ∉ calls) st.commonElements
      (fun c _ calls hc => by simp [interpretElementStep, hc]) c1 t1 (h1 c1 t1 (Or.inl e1))
    split
    · rename_i c2 t2 e2
      exact h2 c2 t2 (Or.inr e2)
    · rename_i c2 t2 e2
      have h3 := forEachChecked_invariant args interpretSymbolStep
        (fun calls => WorkerCall.NocBreak ∉ calls) st.commonUDTInstances
        (fun c _ calls hc => by simp [interpretSymbolStep, hc]) c2 t2 (h2 c2 t2 (Or.inl e2))
      split
      · rename_i c3 t3 e3
        exact h3 c3 t3 (Or.inr e3)
      · rename_i c3 t3 e3
        exact h3 c3 t3 (Or.inl e3)

theorem GenerateProperties_no_break (args : PropertyThreadArgs) (env : WorkerEnv)
    (hreg : StdMap.WF env.s_PanelCreators) :
    WorkerCall.NocBreak ∉ (GenerateProperties args env).calls := by
  unfold GenerateProperties
  split
  · simp
  · rename_i st t hp
    exact pass23_no_break args st t (pass1_WFPanels args env hreg st (Or.inl (by rw [hp])))
  · rename_i st t hp
    exact pass23_no_break args st t (pass1_WFPanels args env hreg st (Or.inr (by rw [hp])))

theorem foldl_append_flatMap {α β : Type} (f : α → List β) (xs : List α) (init : List β) :
    xs.foldl (fun acc x => acc ++ f x) init = init ++ xs.flatMap f := by
  induction xs generalizing init with
  | nil => simp
  | cons x xs ih => rw [List.foldl_cons, ih, List.flatMap_cons, List.append_assoc]


theorem createPanel_fold (args : PropertyThreadArgs) (sel : OS_SelectableDumbPtr)
    (us : M_UnionedSelections) (xs : M_PanelCreators)
    (hfind : args.m_Setting = PropertySetting.Union →
      ∀ p ∈ xs, ∃ s, StdMap.find p.1 us = some s) (init : List WorkerCall) :
    xs.foldl (fun acc p => createPanelStep args sel us p acc) init
      = init ++ xs.flatMap (fun p =>
          [WorkerCall.Push,
            WorkerCall.Invoke p.2
              (if args.m_Setting = PropertySetting.Intersection then sel
                else (StdMap.find p.1 us).getD []),
            WorkerCall.Pop]) := by
  induction xs generalizing init with
  | nil => simp
  | cons p rest ih =>
    rw [List.foldl_cons, ih (fun hm q hq => hfind hm q (List.mem_cons_of_mem _ hq)),
      List.flatMap_cons, ← List.append_assoc]
    congr 1
    unfold createPanelStep
    cases hm : args.m_Setting with
    | Intersection => simp
    | Union =>
      obtain ⟨s, hs⟩ := hfind hm p (List.mem_cons_self _ _)
      simp [hs]

theorem foldl_append_map {α β : Type} (f : α → β) (xs : List α) (init : List β) :
    xs.foldl (fun acc x => acc ++ [f x]) init = init ++ xs.map f := by
  induction xs generalizing init with
  | nil => simp
  | cons x xs ih => rw [List.foldl_cons, ih, List.map_cons]; simp

/-- The calls of an uncancelled pass 2 and pass 3. -/
theorem pass23_steady (args : PropertyThreadArgs) (hs : Steady args) (st : Pass1State)
    (t : Nat) (hst : st.WFPanels) :
    (pass23 args st t).calls
      = (if args.m_Setting = PropertySetting.Intersection then st.intersectingPanels
          else st.unionedPanels).flatMap (fun p =>
          [WorkerCall.Push,
            WorkerCall.Invoke p.2
              (if args.m_Setting = PropertySetting.Intersection then workerSelection args
                else (StdMap.find p.1 st.unionedSelections).getD []),
            WorkerCall.Pop])
        ++ st.commonElements.map
            (fun c => WorkerCall.InterpretReflect c.2 c.1.m_IncludeFlags c.1.m_ExcludeFlags)
        ++ st.commonUDTInstances.map (fun c => WorkerCall.InterpretSymbol c.2) := by
  unfold pass23
  simp only []
  rw [forEachChecked_fresh _ _ _ _ _ (hs.fresh _ _)]
  simp only []
  rw [forEachChecked_fresh _ _ _ _ _ (hs.fresh _ _)]
  simp only []
  rw [forEachChecked_fresh _ _ _ _ _ (hs.fresh _ _)]
  simp only []
  rw [createPanel_fold args _ _ _ (fun hm p hp => by
    rw [hm] at hp
    simp only [reduceCtorEq, if_false] at hp
    obtain ⟨s, hs, -⟩ := hst.2.lookup_succeeds p hp
    exact ⟨s, hs⟩)]
  unfold interpretElementStep interpretSymbolStep
  rw [foldl_append_map, foldl_append_map, List.nil_append]


/-! ## The uncancelled run as a whole -/

theorem pass1_steady_exit (args : PropertyThreadArgs) (env : WorkerEnv) (hs : Steady args) :
    ∃ st t, pass1 args env = (.completed st, t) ∨ pass1 args env = (.broke st, t) := by
  obtain ⟨x, t1, st1, h1, h2, -⟩ := pass1Loop_steady args env hs (fun _ _ => True)
    (fun _ _ _ _ _ _ => trivial) (fun _ _ _ _ _ _ => trivial) (workerSelection args) []
    (pass1Init args env) 0 (by simpa using workerSelection_nodup args)
    (pass1Init_WFCommon args env) trivial
  have hp : pass1 args env = (x, t1) := h1
  rcases h2 with rfl | rfl
  · exact ⟨st1, t1, Or.inl hp⟩
  · exact ⟨st1, t1, Or.inr hp⟩

theorem pass1_maps_state (args : PropertyThreadArgs) (env : WorkerEnv) (m : Pass1Maps)
    (h : (pass1 args env).1.maps = some m) :
    ∃ st, ((pass1 args env).1 = .completed st ∨ (pass1 args env).1 = .broke st) ∧
      m = st.maps := by
  cases hx : (pass1 args env).1 with
  | completed st =>
    rw [hx] at h
    simp only [Pass1Exit.maps, Option.some.injEq] at h
    exact ⟨st, Or.inl rfl, h.symm⟩
  | broke st =>
    rw [hx] at h
    simp only [Pass1Exit.maps, Option.some.injEq] at h
    exact ⟨st, Or.inr rfl, h.symm⟩
  | returned =>
    rw [hx] at h
    simp [Pass1Exit.maps] at h

theorem GenerateProperties_steady (args : PropertyThreadArgs) (env : WorkerEnv)
    (hs : Steady args) (hreg : StdMap.WF env.s_PanelCreators) :
    ∃ st t, (pass1 args env).1.maps = some st.maps ∧ st.WFPanels ∧
      GenerateProperties args env = pass23 args st t := by
  obtain ⟨st, t, h | h⟩ := pass1_steady_exit args env hs
  · refine ⟨st, t, by rw [h]; rfl, pass1_WFPanels args env hreg st (Or.inl (by rw [h])), ?_⟩
    unfold GenerateProperties
    rw [h]
  · refine ⟨st, t, by rw [h]; rfl, pass1_WFPanels args env hreg st (Or.inr (by rw [h])), ?_⟩
    unfold GenerateProperties
    rw [h]


/-! ## The first element enumerated under a key stays -/

theorem EnumerateElement_WF (a : EnumerateElementArgs) (element : Element)
    (includeFlags excludeFlags : Int)
    (hwf : StdMap.WF a.m_CurrentElements ∧ StdMap.WF a.m_CurrentUDTInstances) :
    StdMap.WF (a.EnumerateElement element includeFlags excludeFlags).m_CurrentElements ∧
      StdMap.WF (a.EnumerateElement element includeFlags excludeFlags).m_CurrentUDTInstances := by
  unfold EnumerateElementArgs.EnumerateElement
  cases element.GetSymbolName with
  | none => exact ⟨StdMap.WF_insert _ _ _ hwf.1, hwf.2⟩
  | some sym => exact ⟨hwf.1, StdMap.WF_insert _ _ _ hwf.2⟩

theorem StdMap.find_insert {K V : Type} [LinearOrder K] (k k1 : K) (v : V) (m : StdMap K V)
    (hwf : StdMap.WF m) :
    StdMap.find k1 (StdMap.insert k v m)
      = if k1 = k then some ((StdMap.find k m).getD v) else StdMap.find k1 m := by
  by_cases h : k1 = k
  · rw [if_pos h, h]
    exact StdMap.find_insert_self k v m hwf
  · rw [if_neg h]
    exact StdMap.find_insert_ne k k1 v m h

/-- What the per-object maps hold under a key after a sequence of
`EnumerateElement` calls: the entry that was there, else the first element
enumerated under that key. -/
theorem enumerate_fold_first (calls : List (Element × Int × Int)) (a : EnumerateElementArgs)
    (hwf : StdMap.WF a.m_CurrentElements ∧ StdMap.WF a.m_CurrentUDTInstances) :
    (∀ key, StdMap.find key
        (calls.foldl (fun a c => a.EnumerateElement c.1 c.2.1 c.2.2) a).m_CurrentElements
      = (StdMap.find key a.m_CurrentElements).or
          ((calls.find? (fun c => c.1.GetSymbolName.isNone &&
              decide (ElementTypeFlags.mk c.1.GetType c.2.1 c.2.2 = key))).map (fun c => c.1))) ∧
    (∀ sym, StdMap.find sym
        (calls.foldl (fun a c => a.EnumerateElement c.1 c.2.1 c.2.2) a).m_CurrentUDTInstances
      = (StdMap.find sym a.m_CurrentUDTInstances).or
          ((calls.find? (fun c => decide (c.1.GetSymbolName = some sym))).map
            (fun c => c.1))) := by
  induction calls generalizing a with
  | nil => simp
  | cons c rest ih =>
    have hwf1 := EnumerateElement_WF a c.1 c.2.1 c.2.2 hwf
    obtain ⟨ih1, ih2⟩ := ih (a.EnumerateElement c.1 c.2.1 c.2.2) hwf1
    constructor
    · intro key
      rw [List.foldl_cons, ih1 key, List.find?_cons]
      unfold EnumerateElementArgs.EnumerateElement
      cases hsym : c.1.GetSymbolName with
      | some sym => simp
      | none =>
        simp only [Option.isNone_none, Bool.true_and]
        rw [StdMap.find_insert _ _ _ _ hwf.1]
        by_cases hk : key = ElementTypeFlags.mk c.1.GetType c.2.1 c.2.2
        · subst hk
          cases StdMap.find (ElementTypeFlags.mk c.1.GetType c.2.1 c.2.2) a.m_CurrentElements
            <;> simp
        · have hk2 : ¬ ElementTypeFlags.mk c.1.GetType c.2.1 c.2.2 = key := fun e => hk e.symm
          simp [hk, hk2]
    · intro sym
      rw [List.foldl_cons, ih2 sym, List.find?_cons]
      unfold EnumerateElementArgs.EnumerateElement
      cases hsym : c.1.GetSymbolName with
      | none => simp
      | some s =>
        simp only []
        rw [StdMap.find_insert _ _ _ _ hwf.2]
        by_cases hk : sym = s
        · subst hk
          cases StdMap.find sym a.m_CurrentUDTInstances <;> simp
        · have hk2 : ¬ s = sym := fun e => hk e.symm
          simp [hk, hk2]

theorem find_currentElementsOf (env : WorkerEnv) (obj : Nat) (key : ElementTypeFlags) :
    StdMap.find key (currentElementsOf env obj)
      = ((env.objects obj).ConnectProperties.find? (fun c => c.1.GetSymbolName.isNone &&
          decide (ElementTypeFlags.mk c.1.GetType c.2.1 c.2.2 = key))).map (fun c => c.1) := by
  unfold currentElementsOf connectProperties
  rw [(enumerate_fold_first _ _ ⟨StdMap.WF_nil, StdMap.WF_nil⟩).1 key]
  simp [StdMap.find]

theorem find_currentUDTInstancesOf (env : WorkerEnv) (obj : Nat) (sym : StdString) :
    StdMap.find sym (currentUDTInstancesOf env obj)
      = ((env.objects obj).ConnectProperties.find?
          (fun c => decide (c.1.GetSymbolName = some sym))).map (fun c => c.1) := by
  unfold currentUDTInstancesOf connectProperties
  rw [(enumerate_fold_first _ _ ⟨StdMap.WF_nil, StdMap.WF_nil⟩).2 sym]
  simp [StdMap.find]


/-! ## One comparison before every iteration step -/

theorem forEachChecked_stale_at {α σ : Type} (args : PropertyThreadArgs) (body : α → σ → σ)
    (xs : List α) (s : σ) (t n : Nat) (h1 : t ≤ n) (h2 : n < t + xs.length)
    (hf : Fresh args t n) (hst : args.m_CurrentSelectionId n ≠ args.m_SelectionId) :
    forEachChecked args body xs s t
      = .returned ((xs.take (n - t)).foldl (fun acc x => body x acc) s) (n + 1) := by
  induction xs generalizing s t with
  | nil => simp at h2; omega
  | cons x xs ih =>
    rw [forEachChecked]
    by_cases hn : n = t
    · subst hn
      simp [hst]
    · have hc : args.m_CurrentSelectionId t = args.m_SelectionId := hf t le_rfl (by omega)
      simp only [ne_eq, hc, not_true_eq_false, if_false]
      rw [ih (body x s) (t + 1) (by omega) (by rw [List.length_cons] at h2; omega)
        (hf.mono (by omega) le_rfl)]
      have e : n - t = (n - (t + 1)) + 1 := by omega
      rw [e, List.take_succ_cons, List.foldl_cons]

theorem forEachChecked_map {α β σ : Type} (args : PropertyThreadArgs) (f : α → β)
    (body : β → σ → σ) (xs : List α) (s : σ) (t : Nat) :
    forEachChecked args (fun x acc => body (f x) acc) xs s t
      = forEachChecked args body (xs.map f) s t := by
  induction xs generalizing s t with
  | nil => rfl
  | cons x xs ih =>
    rw [List.map_cons, forEachChecked, forEachChecked, ih]

theorem forEachChecked_append {α σ : Type} (args : PropertyThreadArgs) (body : α → σ → σ)
    (xs ys : List α) (s : σ) (t : Nat) :
    forEachChecked args body (xs ++ ys) s t
      = match forEachChecked args body xs s t with
        | .returned s1 t1 => .returned s1 t1
        | .done s1 t1 => forEachChecked args body ys s1 t1 := by
  induction xs generalizing s t with
  | nil => rfl
  | cons x xs ih =>
    rw [List.cons_append, forEachChecked, forEachChecked]
    split_ifs
    · rfl
    · exact ih _ _

theorem foldl_append_flatten {β : Type} (gs : List (List β)) (init : List β) :
    gs.foldl (fun acc g => acc ++ g) init = init ++ gs.flatten := by
  induction gs generalizing init with
  | nil => simp
  | cons g gs ih => rw [List.foldl_cons, ih, List.flatten_cons, List.append_assoc]

theorem createPanelStep_eq (args : PropertyThreadArgs) (selection : OS_SelectableDumbPtr)
    (us : M_UnionedSelections) (p : StdString × PanelCreator) (calls : List WorkerCall) :
    createPanelStep args selection us p calls
      = calls ++ createPanelCalls args selection us p := by
  unfold createPanelStep createPanelCalls
  cases args.m_Setting with
  | Intersection => rfl
  | Union => cases StdMap.find p.1 us <;> rfl

/-- Passes 2 and 3 are one checkpointed walk over their iterations. -/
theorem pass23_single_loop (args : PropertyThreadArgs) (st : Pass1State) (t : Nat) :
    pass23 args st t
      = match forEachChecked args (fun (g : List WorkerCall) calls => calls ++ g)
          (pass23Steps args st) [] t with
        | .returned calls t1 => ⟨calls, none, t1⟩
        | .done calls t1 => ⟨calls, some args.m_SelectionId, t1⟩ := by
  have hA : ∀ (panels : M_PanelCreators) (c : List WorkerCall) (t : Nat),
      forEachChecked args (createPanelStep args (workerSelection args) st.unionedSelections)
          panels c t
        = forEachChecked args (fun (g : List WorkerCall) calls => calls ++ g)
            (panels.map (createPanelCalls args (workerSelection args) st.unionedSelections))
            c t := by
    intro panels c t
    rw [← forEachChecked_map]
    congr 1
    funext p calls
    exact createPanelStep_eq _ _ _ _ _
  have hB : ∀ (c : List WorkerCall) (t : Nat),
      forEachChecked args interpretElementStep st.commonElements c t
        = forEachChecked args (fun (g : List WorkerCall) calls => calls ++ g)
            (st.commonElements.map (fun c =>
              [WorkerCall.InterpretReflect c.2 c.1.m_IncludeFlags c.1.m_ExcludeFlags])) c t := by
    intro c t
    rw [← forEachChecked_map]
    rfl
  have hC : ∀ (c : List WorkerCall) (t : Nat),
      forEachChecked args interpretSymbolStep st.commonUDTInstances c t
        = forEachChecked args (fun (g : List WorkerCall) calls => calls ++ g)
            (st.commonUDTInstances.map (fun c => [WorkerCall.InterpretSymbol c.2])) c t := by
    intro c t
    rw [← forEachChecked_map]
    rfl
  unfold pass23 pass23Steps
  simp only []
  rw [forEachChecked_append, forEachChecked_append, hA]
  cases forEachChecked args (fun (g : List WorkerCall) calls => calls ++ g)
      (List.map (createPanelCalls args (workerSelection args) st.unionedSelections)
        (if args.m_Setting = PropertySetting.Intersection then st.intersectingPanels
          else st.unionedPanels)) [] t with
  | returned c1 t1 => rfl
  | done c1 t1 =>
    simp only []
    rw [hB]
    cases forEachChecked args (fun (g : List WorkerCall) calls => calls ++ g)
        (List.map (fun (c : ElementTypeFlags × List Element) =>
          [WorkerCall.InterpretReflect c.2 c.1.m_IncludeFlags c.1.m_ExcludeFlags])
          st.commonElements) c1 t1 with
    | returned c2 t2 => rfl
    | done c2 t2 =>
      simp only [hC]

theorem pass23_fresh_count (args : PropertyThreadArgs) (st : Pass1State) (t : Nat)
    (hf : Fresh args t (t + (pass23Steps args st).length)) :
    pass23 args st t
      = ⟨(pass23Steps args st).flatten, some args.m_SelectionId,
          t + (pass23Steps args st).length⟩ := by
  rw [pass23_single_loop, forEachChecked_fresh _ _ _ _ _ hf]
  simp only []
  rw [foldl_append_flatten, List.nil_append]

theorem pass23_stale_at (args : PropertyThreadArgs) (st : Pass1State) (t n : Nat)
    (h1 : t ≤ n) (h2 : n < t + (pass23Steps args st).length) (hf : Fresh args t n)
    (hst : args.m_CurrentSelectionId n ≠ args.m_SelectionId) :
    pass23 args st t = ⟨((pass23Steps args st).take (n - t)).flatten, none, n + 1⟩ := by
  rw [pass23_single_loop, forEachChecked_stale_at _ _ _ _ _ _ h1 h2 hf hst]
  simp only []
  rw [foldl_append_flatten, List.nil_append]

theorem mergeCommon_fresh_count {K E : Type} [LinearOrder K] (args : PropertyThreadArgs)
    (index : Nat) (current : StdMap K E) (common : StdMap K (List E)) (t : Nat)
    (hcur : StdMap.WF current) (hcom : StdMap.WF common)
    (hf : Fresh args t (t + mergeSteps index current common)) :
    mergeCommon args index current common t
      = .done (mergedCommon index current common) (t + mergeSteps index current common) := by
  unfold mergeCommon mergedCommon
  unfold mergeSteps at hf ⊢
  split_ifs with h
  · rw [if_pos h] at hf
    rw [forEachChecked_fresh _ _ _ _ _ hf, seed_fold current hcur]
  · rw [if_neg h] at hf
    rw [forEachChecked_fresh _ _ _ _ _ hf, cull_fold current common hcom]

theorem mergeCommon_stale_at {K E : Type} [LinearOrder K] (args : PropertyThreadArgs)
    (index : Nat) (current : StdMap K E) (common : StdMap K (List E)) (t n : Nat)
    (h1 : t ≤ n) (h2 : n < t + mergeSteps index current common) (hf : Fresh args t n)
    (hst : args.m_CurrentSelectionId n ≠ args.m_SelectionId) :
    ∃ s, mergeCommon args index current common t = .returned s (n + 1) := by
  unfold mergeCommon
  unfold mergeSteps at h2
  split_ifs with h
  · rw [if_pos h] at h2
    exact ⟨_, forEachChecked_stale_at _ _ _ _ _ _ h1 h2 hf hst⟩
  · rw [if_neg h] at h2
    exact ⟨_, forEachChecked_stale_at _ _ _ _ _ _ h1 h2 hf hst⟩

theorem processObject_fresh_count (args : PropertyThreadArgs) (env : WorkerEnv)
    (index obj : Nat) (st : Pass1State) (t : Nat) (hwf : st.WFCommon)
    (hf : Fresh args t (t + objectSteps args env index obj st)) :
    processObject args env index obj st t
      = (some (nextState args env index obj st), t + objectSteps args env index obj st) := by
  obtain ⟨hce, hcu⟩ := connectProperties_WF (env.objects obj)
  unfold objectSteps currentElementsOf currentUDTInstancesOf at hf ⊢
  unfold processObject
  simp only []
  generalize hpan : (if args.m_Setting = PropertySetting.Intersection then st.intersectingPanels
    else env.s_PanelCreators) = panels at hf ⊢
  rw [forEachChecked_fresh _ _ _ _ _ (hf.mono le_rfl (by omega))]
  simp only []
  by_cases hemp : (connectProperties (env.objects obj)).m_CurrentElements.isEmpty = true
  · simp only [hemp, if_true, Nat.add_zero] at hf ⊢
    rw [mergeCommon_fresh_count args index _ _ (t + panels.length) hcu hwf.2
      (hf.mono (by omega) (by omega))]
    have hnil : (connectProperties (env.objects obj)).m_CurrentElements = [] :=
      List.isEmpty_iff.mp hemp
    simp only [nextState, scanPanels, currentElementsOf, currentUDTInstancesOf, hnil,
      mergedCommon_nil, hpan, Nat.add_assoc]
  · simp only [hemp, Bool.false_eq_true, if_false] at hf ⊢
    rw [mergeCommon_fresh_count args index _ _ (t + panels.length) hce hwf.1
      (hf.mono (by omega) (by omega))]
    simp only []
    rw [mergeCommon_fresh_count args index _ _ _ hcu hwf.2 (hf.mono (by omega) (by omega))]
    simp only [nextState, scanPanels, currentElementsOf, currentUDTInstancesOf, hpan,
      Nat.add_assoc]

theorem processObject_stale_at (args : PropertyThreadArgs) (env : WorkerEnv)
    (index obj : Nat) (st : Pass1State) (t n : Nat) (hwf : st.WFCommon)
    (h1 : t ≤ n) (h2 : n < t + objectSteps args env index obj st) (hf : Fresh args t n)
    (hst : args.m_CurrentSelectionId n ≠ args.m_SelectionId) :
    processObject args env index obj st t = (none, n + 1) := by
  obtain ⟨hce, hcu⟩ := connectProperties_WF (env.objects obj)
  unfold objectSteps currentElementsOf currentUDTInstancesOf at h2
  unfold processObject
  simp only []
  generalize hpan : (if args.m_Setting = PropertySetting.Intersection then st.intersectingPanels
    else env.s_PanelCreators) = panels at h2 ⊢
  by_cases ha : n < t + panels.length
  · rw [forEachChecked_stale_at _ _ _ _ _ _ h1 ha hf hst]
  · rw [forEachChecked_fresh _ _ _ _ _ (hf.mono le_rfl (by omega))]
    simp only []
    by_cases hemp : (connectProperties (env.objects obj)).m_CurrentElements.isEmpty = true
    · simp only [hemp, if_true, Nat.add_zero] at h2 ⊢
      obtain ⟨s, hs⟩ := mergeCommon_stale_at args index
        (connectProperties (env.objects obj)).m_CurrentUDTInstances st.commonUDTInstances
        (t + panels.length) n (by omega) (by omega) (hf.mono (by omega) le_rfl) hst
      rw [hs]
    · simp only [hemp, Bool.false_eq_true, if_false] at h2 ⊢
      by_cases hb : n < t + panels.length
          + mergeSteps index (connectProperties (env.objects obj)).m_CurrentElements
              st.commonElements
      · obtain ⟨s, hs⟩ := mergeCommon_stale_at args index
          (connectProperties (env.objects obj)).m_CurrentElements st.commonElements
          (t + panels.length) n (by omega) hb (hf.mono (by omega) le_rfl) hst
        rw [hs]
      · rw [mergeCommon_fresh_count args index _ _ (t + panels.length) hce hwf.1
          (hf.mono (by omega) (by omega))]
        simp only []
        obtain ⟨s, hs⟩ := mergeCommon_stale_at args index
          (connectProperties (env.objects obj)).m_CurrentUDTInstances st.commonUDTInstances
          (t + panels.length
            + mergeSteps index (connectProperties (env.objects obj)).m_CurrentElements
                st.commonElements) n (by omega) (by omega) (hf.mono (by omega) le_rfl) hst
        rw [hs]

theorem pass1Loop_fresh_count (args : PropertyThreadArgs) (env : WorkerEnv) (sel : List Nat)
    (index : Nat) (st : Pass1State) (t : Nat) (hwf : st.WFCommon)
    (hf : Fresh args t (t + pass1Steps args env sel index st)) :
    pass1Loop args env sel index st t
      = (pass1End args env sel index st, t + pass1Steps args env sel index st) := by
  induction sel generalizing index st t with
  | nil => rfl
  | cons o rest ih =>
    rw [pass1Steps] at hf ⊢
    rw [pass1Loop, pass1End]
    have hc : args.m_CurrentSelectionId t = args.m_SelectionId := hf t le_rfl (by omega)
    simp only [ne_eq, hc, not_true_eq_false, if_false]
    rw [processObject_fresh_count args env index o st (t + 1) hwf (hf.mono (by omega) (by omega))]
    simp only []
    by_cases hb : allShared (nextState args env index o st) = true
    · simp only [hb, if_true, Nat.add_zero]
      congr 1
      omega
    · simp only [hb, Bool.false_eq_true, if_false] at hf ⊢
      rw [ih (index + 1) (nextState args env index o st) _
        (nextState_WFCommon args env index o st hwf) (hf.mono (by omega) (by omega))]
      congr 1
      omega

theorem pass1Loop_stale_at (args : PropertyThreadArgs) (env : WorkerEnv) (sel : List Nat)
    (index : Nat) (st : Pass1State) (t n : Nat) (hwf : st.WFCommon)
    (h1 : t ≤ n) (h2 : n < t + pass1Steps args env sel index st) (hf : Fresh args t n)
    (hst : args.m_CurrentSelectionId n ≠ args.m_SelectionId) :
    pass1Loop args env sel index st t = (.returned, n + 1) := by
  induction sel generalizing index st t with
  | nil => simp [pass1Steps] at h2; omega
  | cons o rest ih =>
    rw [pass1Steps] at h2
    rw [pass1Loop]
    by_cases hn : n = t
    · subst hn
      simp [hst]
    · have hc : args.m_CurrentSelectionId t = args.m_SelectionId := hf t le_rfl (by omega)
      simp only [ne_eq, hc, not_true_eq_false, if_false]
      by_cases ha : n < t + 1 + objectSteps args env index o st
      · rw [processObject_stale_at args env index o st (t + 1) n hwf (by omega) ha
          (hf.mono (by omega) le_rfl) hst]
      · rw [processObject_fresh_count args env index o st (t + 1) hwf
          (hf.mono (by omega) (by omega))]
        simp only []
        by_cases hb : allShared (nextState args env index o st) = true
        · simp only [hb, if_true, Nat.add_zero] at h2
          omega
        · simp only [hb, Bool.false_eq_true, if_false] at h2 ⊢
          exact ih (index + 1) (nextState args env index o st) _
            (nextState_WFCommon args env index o st hwf) (by omega) (by omega)
            (hf.mono (by omega) le_rfl)

theorem pass1End_state (args : PropertyThreadArgs) (env : WorkerEnv) (sel : List Nat)
    (index : Nat) (st init : Pass1State) :
    pass1End args env sel index st = .completed ((pass1End args env sel index st).state init) ∨
      pass1End args env sel index st = .broke ((pass1End args env sel index st).state init) := by
  induction sel generalizing index st with
  | nil => exact Or.inl rfl
  | cons o rest ih =>
    rw [pass1End]
    split_ifs
    · exact Or.inr rfl
    · exact ih _ _

theorem pass1_fresh_count (args : PropertyThreadArgs) (env : WorkerEnv)
    (hf : Fresh args 0 (pass1StepCount args env)) :
    pass1 args env = (.completed (pass1EndState args env), pass1StepCount args env) ∨
      pass1 args env = (.broke (pass1EndState args env), pass1StepCount args env) := by
  have h := pass1Loop_fresh_count args env (workerSelection args) 0 (pass1Init args env) 0
    (pass1Init_WFCommon args env) (by simpa [pass1StepCount] using hf)
  have e : pass1 args env
      = (pass1End args env (workerSelection args) 0 (pass1Init args env),
          pass1StepCount args env) := by
    unfold pass1 pass1StepCount
    rw [h, Nat.zero_add]
  rw [e]
  unfold pass1EndState
  rcases pass1End_state args env (workerSelection args) 0 (pass1Init args env)
    (pass1Init args env) with h1 | h1
  · left; rw [← h1]
  · right; rw [← h1]

/-- A run whose first `stepCount` reads of the live id all find the captured id
goes through every iteration of passes 1 to 3, makes no further read, and
raises. -/
theorem GenerateProperties_fresh_run (args : PropertyThreadArgs) (env : WorkerEnv)
    (hf : Fresh args 0 (stepCount args env)) :
    GenerateProperties args env
      = ⟨(laterSteps args env).flatten, some args.m_SelectionId, stepCount args env⟩ := by
  unfold stepCount at hf ⊢
  have h23 := pass23_fresh_count args (pass1EndState args env) (pass1StepCount args env)
    (hf.mono (Nat.zero_le _) le_rfl)
  unfold GenerateProperties
  rcases pass1_fresh_count args env (hf.mono le_rfl (Nat.le_add_right _ _)) with h1 | h1
  · rw [h1]; exact h23
  · rw [h1]; exact h23

/-- A run whose read number `n` (counted from 0) is the first to find another
id, `n` being below the number of iterations, returns at that read: it has gone
through `n` iterations and no more. -/
theorem GenerateProperties_stale_run (args : PropertyThreadArgs) (env : WorkerEnv) (n : Nat)
    (hn : n < stepCount args env) (hf : Fresh args 0 n)
    (hst : args.m_CurrentSelectionId n ≠ args.m_SelectionId) :
    GenerateProperties args env
      = ⟨((laterSteps args env).take (n - pass1StepCount args env)).flatten, none, n + 1⟩ := by
  unfold stepCount at hn
  by_cases h1 : n < pass1StepCount args env
  · have hp : pass1 args env = (.returned, n + 1) :=
      pass1Loop_stale_at args env (workerSelection args) 0 (pass1Init args env) 0 n
        (pass1Init_WFCommon args env) (Nat.zero_le _)
        (by simpa [pass1StepCount] using h1) hf hst
    have e : n - pass1StepCount args env = 0 := by omega
    unfold GenerateProperties
    rw [hp, e]
    simp
  · have h23 := pass23_stale_at args (pass1EndState args env) (pass1StepCount args env) n
      (by omega) hn (hf.mono (Nat.zero_le _) le_rfl) hst
    unfold GenerateProperties
    rcases pass1_fresh_count args env (hf.mono le_rfl (by omega)) with hp | hp
    · rw [hp]; exact h23
    · rw [hp]; exact h23

/-- The first read below `b` that finds another id than the captured one. -/
theorem first_stale_read (args : PropertyThreadArgs) (b : Nat)
    (h : ∃ n, n < b ∧ args.m_CurrentSelectionId n ≠ args.m_SelectionId) :
    ∃ n, n < b ∧ Fresh args 0 n ∧ args.m_CurrentSelectionId n ≠ args.m_SelectionId := by
  induction b with
  | zero => obtain ⟨n, hn, -⟩ := h; omega
  | succ b ih =>
    by_cases hb : ∃ n, n < b ∧ args.m_CurrentSelectionId n ≠ args.m_SelectionId
    · obtain ⟨n, hn, hf, hs⟩ := ih hb
      exact ⟨n, by omega, hf, hs⟩
    · obtain ⟨n, hn, hs⟩ := h
      have hnb : n = b := by
        by_contra hne
        exact hb ⟨n, by omega, hs⟩
      subst hnb
      refine ⟨n, by omega, ?_, hs⟩
      intro k _ hk
      by_contra hk2
      exact hb ⟨k, hk, hk2⟩

/-- C1: in an uncancelled run over a non-empty selection, in either mode, a key
is in the final `commonElements` (or a symbol name in `commonUDTInstances`)
exactly when every object of the selection has it in its per-object map, and
the list stored under it holds, position by position, the instance of each
object of the selection under that key. (By `mem_keys_currentElementsOf` and
`mem_keys_currentUDTInstancesOf` a key is in a per-object map exactly when the
object enumerated it.) -/
theorem common_maps_are_the_intersection (args : PropertyThreadArgs) (env : WorkerEnv)
    (hs : Steady args) (hne : workerSelection args ≠ []) :
    ∃ m, (pass1 args env).1.maps = some m ∧
      (∀ key : ElementTypeFlags,
        (key ∈ StdMap.keys m.commonElements ↔
          ∀ o ∈ workerSelection args, key ∈ StdMap.keys (currentElementsOf env o)) ∧
        (∀ l, StdMap.find key m.commonElements = some l →
          l.map some
            = (workerSelection args).map
                (fun o => StdMap.find key (currentElementsOf env o)))) ∧
      (∀ sym : StdString,
        (sym ∈ StdMap.keys m.commonUDTInstances ↔
          ∀ o ∈ workerSelection args, sym ∈ StdMap.keys (currentUDTInstancesOf env o)) ∧
        (∀ l, StdMap.find sym m.commonUDTInstances = some l →
          l.map some
            = (workerSelection args).map
                (fun o => StdMap.find sym (currentUDTInstancesOf env o)))) := by
  let P : List Nat → Pass1State → Prop := fun done st =>
    (done = [] → st.commonElements = [] ∧ st.commonUDTInstances = []) ∧
    (done ≠ [] →
      (∀ k, StdMap.find k st.commonElements
        = expectedCommon (currentElementsOf env) done k) ∧
      (∀ k, StdMap.find k st.commonUDTInstances
        = expectedCommon (currentUDTInstancesOf env) done k))
  have hstep : ∀ done o st, o ∉ done → st.WFCommon → P done st →
      P (done ++ [o]) (nextState args env done.length o st) := by
    intro done o st _ hwf hP
    obtain ⟨hce, hcu⟩ := connectProperties_WF (env.objects o)
    refine ⟨fun h => absurd h (by simp), fun _ => ⟨?_, ?_⟩⟩
    · exact expectedCommon_step (currentElementsOf env) done o st.commonElements hce hwf.1
        (fun h => (hP.1 h).1) (fun h => (hP.2 h).1)
    · exact expectedCommon_step (currentUDTInstancesOf env) done o st.commonUDTInstances hcu
        hwf.2 (fun h => (hP.1 h).2) (fun h => (hP.2 h).2)
  have hbrk : ∀ done more st, done ≠ [] → P done st → allShared st = true →
      P (done ++ more) st := by
    intro done more st hd hP hall
    obtain ⟨-, h2, h3⟩ := (allShared_iff st).mp hall
    obtain ⟨i1, i2⟩ := hP.2 hd
    refine ⟨fun h => absurd h (by simp [hd]), fun _ => ⟨?_, ?_⟩⟩
    · rw [h2] at i1 ⊢
      exact expectedCommon_break _ done more i1
    · rw [h3] at i2 ⊢
      exact expectedCommon_break _ done more i2
  obtain ⟨x, t1, st1, hrun, hx, hfin⟩ := pass1Loop_steady args env hs P hstep hbrk
    (workerSelection args) [] (pass1Init args env) 0
    (by simpa using workerSelection_nodup args) (pass1Init_WFCommon args env)
    ⟨fun _ => ⟨rfl, rfl⟩, fun h => absurd rfl h⟩
  have hpass : pass1 args env = (x, t1) := hrun
  simp only [List.nil_append] at hfin
  obtain ⟨f1, f2⟩ := hfin.2 hne
  refine ⟨st1.maps, ?_, ?_, ?_⟩
  · rw [hpass]
    rcases hx with rfl | rfl <;> rfl
  · exact fun key => expectedCommon_spec (currentElementsOf env) _ _ f1 key
  · exact fun sym => expectedCommon_spec (currentUDTInstancesOf env) _ _ f2 sym

/-- Witness for C1: A enumerates {x, y}, B enumerates {y, z}; the final map is
{y: [A.y, B.y]}. -/
theorem common_maps_are_the_intersection_witness :
    (Steady (Scenario.steadyArgs [100, 200] .Intersection) ∧
      workerSelection (Scenario.steadyArgs [100, 200] .Intersection) ≠ []) ∧
    ((pass1 (Scenario.steadyArgs [100, 200] .Intersection)
        (Scenario.env .Intersection)).1.maps.map (fun m => m.commonElements)
      = some [(Scenario.keyY, [Scenario.Ay, Scenario.By])]) ∧
    ∃ m, (pass1 (Scenario.steadyArgs [100, 200] .Intersection)
        (Scenario.env .Intersection)).1.maps = some m ∧
      (∀ key : ElementTypeFlags,
        (key ∈ StdMap.keys m.commonElements ↔
          ∀ o ∈ workerSelection (Scenario.steadyArgs [100, 200] .Intersection),
            key ∈ StdMap.keys (currentElementsOf (Scenario.env .Intersection) o)) ∧
        (∀ l, StdMap.find key m.commonElements = some l →
          l.map some
            = (workerSelection (Scenario.steadyArgs [100, 200] .Intersection)).map
                (fun o => StdMap.find key (currentElementsOf (Scenario.env .Intersection) o)))) ∧
      (∀ sym : StdString,
        (sym ∈ StdMap.keys m.commonUDTInstances ↔
          ∀ o ∈ workerSelection (Scenario.steadyArgs [100, 200] .Intersection),
            sym ∈ StdMap.keys (currentUDTInstancesOf (Scenario.env .Intersection) o)) ∧
        (∀ l, StdMap.find sym m.commonUDTInstances = some l →
          l.map some
            = (workerSelection (Scenario.steadyArgs [100, 200] .Intersection)).map
                (fun o =>
                  StdMap.find sym (currentUDTInstancesOf (Scenario.env .Intersection) o)))) :=
  ⟨⟨fun _ => rfl, by decide⟩, by decide,
    common_maps_are_the_intersection (Scenario.steadyArgs [100, 200] .Intersection)
      (Scenario.env .Intersection) (fun _ => rfl) (by decide)⟩


/-- C2: in an uncancelled run in Union mode, a panel name is a key of
`unionedPanels`, and of `unionedSelections`, exactly when it is in the registry
and some selected object accepts it; the sub-selection stored under it is the
selection restricted to the objects that accept it, in selection order and
without repetition, and the creator stored under it is the registry's. -/
theorem union_maps_hold_accepting_objects (args : PropertyThreadArgs) (env : WorkerEnv)
    (hs : Steady args) (hm : args.m_Setting = PropertySetting.Union)
    (hset : SteadySetting env PropertySetting.Union)
    (hreg : StdMap.WF env.s_PanelCreators) :
    ∃ m, (pass1 args env).1.maps = some m ∧ ∀ name : StdString,
      (name ∈ StdMap.keys m.unionedPanels ↔
        name ∈ StdMap.keys env.s_PanelCreators ∧
          ∃ o ∈ workerSelection args, (env.objects o).ValidatePanel name = true) ∧
      (name ∈ StdMap.keys m.unionedSelections ↔
        name ∈ StdMap.keys env.s_PanelCreators ∧
          ∃ o ∈ workerSelection args, (env.objects o).ValidatePanel name = true) ∧
      (∀ s, StdMap.find name m.unionedSelections = some s →
        s = (workerSelection args).filter (fun o => (env.objects o).ValidatePanel name) ∧
          s.Nodup) ∧
      (∀ c, StdMap.find name m.unionedPanels = some c →
        StdMap.find name env.s_PanelCreators = some c) := by
  by_cases hne : workerSelection args = []
  · refine ⟨(pass1Init args env).maps, ?_, ?_⟩
    · unfold pass1
      rw [hne]
      rfl
    · intro name
      simp [Pass1State.maps, pass1Init, hne, StdMap.keys, StdMap.find]
  · obtain ⟨x, t1, st1, h1, h2, h3, h4⟩ := pass1Loop_union args env hs hm hset hreg
      (workerSelection args) (workerSelection_nodup args) (pass1Init args env)
      (pass1Init_intersecting args env hne) rfl rfl (pass1Init_WFCommon args env) 0
    have hpass : pass1 args env = (x, t1) := h1
    refine ⟨st1.maps, ?_, ?_⟩
    · rw [hpass]
      rcases h2 with rfl | rfl <;> rfl
    · intro name
      have e3 := h3 name
      have e4 := h4 name
      simp only [Pass1State.maps]
      by_cases hany : (workerSelection args).any (fun o => (env.objects o).ValidatePanel name)
          = true
      · have hex : ∃ o ∈ workerSelection args, (env.objects o).ValidatePanel name = true :=
          List.any_eq_true.mp hany
        simp only [hany, if_true, and_true] at e3 e4
        refine ⟨?_, ?_, ?_, ?_⟩
        · rw [StdMap.mem_keys_iff_find, e3, ← StdMap.mem_keys_iff_find]
          exact ⟨fun h => ⟨h, hex⟩, fun h => h.1⟩
        · rw [StdMap.mem_keys_iff_find, e4]
          by_cases hk : name ∈ StdMap.keys env.s_PanelCreators
          · simp [hk, hex]
          · simp [hk]
        · intro s hsome
          rw [e4] at hsome
          by_cases hk : name ∈ StdMap.keys env.s_PanelCreators
          · simp only [hk, if_true, Option.some.injEq] at hsome
            rw [← hsome]
            exact ⟨rfl, List.Nodup.filter _ (workerSelection_nodup args)⟩
          · simp [hk] at hsome
        · intro c hc
          rw [e3] at hc
          exact hc
      · have hnex : ¬ ∃ o ∈ workerSelection args, (env.objects o).ValidatePanel name = true :=
          fun h => hany (List.any_eq_true.mpr h)
        simp only [hany, Bool.false_eq_true, if_false, and_false] at e3 e4
        refine ⟨?_, ?_, ?_, ?_⟩
        · rw [StdMap.mem_keys_iff_find, e3]
          simp [hnex]
        · rw [StdMap.mem_keys_iff_find, e4]
          simp [hnex]
        · intro s hsome
          rw [e4] at hsome
          cases hsome
        · intro c hc
          rw [e3] at hc
          cases hc

/-- Witness for C2: A accepts {P1, P2}, B accepts {P2, P3}; the union maps are
{P1: {A}, P2: {A, B}, P3: {B}}. -/
theorem union_maps_hold_accepting_objects_witness :
    (Steady (Scenario.steadyArgs [100, 200] .Union) ∧
      (Scenario.steadyArgs [100, 200] .Union).m_Setting = PropertySetting.Union ∧
      SteadySetting (Scenario.env .Union) PropertySetting.Union ∧
      StdMap.WF (Scenario.env .Union).s_PanelCreators) ∧
    ((pass1 (Scenario.steadyArgs [100, 200] .Union)
        (Scenario.env .Union)).1.maps.map (fun m => m.unionedSelections)
      = some [(Scenario.P1, [100]), (Scenario.P2, [100, 200]), (Scenario.P3, [200])]) ∧
    ∃ m, (pass1 (Scenario.steadyArgs [100, 200] .Union) (Scenario.env .Union)).1.maps = some m ∧
      ∀ name : StdString,
      (name ∈ StdMap.keys m.unionedPanels ↔
        name ∈ StdMap.keys (Scenario.env .Union).s_PanelCreators ∧
          ∃ o ∈ workerSelection (Scenario.steadyArgs [100, 200] .Union),
            ((Scenario.env .Union).objects o).ValidatePanel name = true) ∧
      (name ∈ StdMap.keys m.unionedSelections ↔
        name ∈ StdMap.keys (Scenario.env .Union).s_PanelCreators ∧
          ∃ o ∈ workerSelection (Scenario.steadyArgs [100, 200] .Union),
            ((Scenario.env .Union).objects o).ValidatePanel name = true) ∧
      (∀ s, StdMap.find name m.unionedSelections = some s →
        s = (workerSelection (Scenario.steadyArgs [100, 200] .Union)).filter
              (fun o => ((Scenario.env .Union).objects o).ValidatePanel name) ∧
          s.Nodup) ∧
      (∀ c, StdMap.find name m.unionedPanels = some c →
        StdMap.find name (Scenario.env .Union).s_PanelCreators = some c) :=
  ⟨⟨fun _ => rfl, rfl, fun _ => rfl, by decide⟩, by decide,
    union_maps_hold_accepting_objects (Scenario.steadyArgs [100, 200] .Union)
      (Scenario.env .Union) (fun _ => rfl) rfl (fun _ => rfl) (by decide)⟩


/-- C3: in an uncancelled run in Intersection mode over a non-empty selection,
the final `intersectingPanels` is the registry restricted to the panels every
selected object accepts; it equals what the naive rule (intersect the running
set with the object's accepted part of the full registry) computes, for the
whole selection and after every number `k` of objects processed. -/
theorem intersecting_panels_match_naive_rule (args : PropertyThreadArgs) (env : WorkerEnv)
    (hs : Steady args) (hm : args.m_Setting = PropertySetting.Intersection)
    (hset : SteadySetting env PropertySetting.Intersection)
    (hreg : StdMap.WF env.s_PanelCreators) (hne : workerSelection args ≠ []) :
    (∃ m, (pass1 args env).1.maps = some m ∧
      m.intersectingPanels
        = env.s_PanelCreators.filter
            (fun p => (workerSelection args).all (fun o => (env.objects o).ValidatePanel p.1)) ∧
      m.intersectingPanels = naiveIntersect env (workerSelection args)) ∧
    (∀ k, ∃ m, (pass1Upto args env k).1.maps = some m ∧
      m.intersectingPanels = naiveIntersect env ((workerSelection args).take k)) := by
  have hinit := pass1Init_intersecting args env hne
  have hwf := pass1Init_WFCommon args env
  constructor
  · obtain ⟨x, t1, st1, h1, h2, h3⟩ := pass1Loop_intersection args env hs hm hset hreg
      (workerSelection args) (workerSelection_nodup args) (pass1Init args env) hinit hwf 0
    have hpass : pass1 args env = (x, t1) := h1
    refine ⟨st1.maps, ?_, h3, ?_⟩
    · rw [hpass]
      rcases h2 with rfl | rfl <;> rfl
    · rw [naiveIntersect_eq]
      exact h3
  · intro k
    obtain ⟨x, t1, st1, h1, h2, h3⟩ := pass1Loop_intersection args env hs hm hset hreg
      ((workerSelection args).take k)
      (List.Nodup.sublist (List.take_sublist k _) (workerSelection_nodup args))
      (pass1Init args env) hinit hwf 0
    have hpass : pass1Upto args env k = (x, t1) := h1
    refine ⟨st1.maps, ?_, ?_⟩
    · rw [hpass]
      rcases h2 with rfl | rfl <;> rfl
    · rw [naiveIntersect_eq]
      exact h3

/-- Witness for C3: A accepts {P1, P2}, B accepts {P2, P3}; the final set is
{P2}. -/
theorem intersecting_panels_match_naive_rule_witness :
    (Steady (Scenario.steadyArgs [100, 200] .Intersection) ∧
      (Scenario.steadyArgs [100, 200] .Intersection).m_Setting = PropertySetting.Intersection ∧
      SteadySetting (Scenario.env .Intersection) PropertySetting.Intersection ∧
      StdMap.WF (Scenario.env .Intersection).s_PanelCreators ∧
      workerSelection (Scenario.steadyArgs [100, 200] .Intersection) ≠ []) ∧
    ((pass1 (Scenario.steadyArgs [100, 200] .Intersection)
        (Scenario.env .Intersection)).1.maps.map (fun m => m.intersectingPanels)
      = some [(Scenario.P2, 2)]) ∧
    ((∃ m, (pass1 (Scenario.steadyArgs [100, 200] .Intersection)
          (Scenario.env .Intersection)).1.maps = some m ∧
        m.intersectingPanels
          = (Scenario.env .Intersection).s_PanelCreators.filter
              (fun p => (workerSelection (Scenario.steadyArgs [100, 200] .Intersection)).all
                (fun o => ((Scenario.env .Intersection).objects o).ValidatePanel p.1)) ∧
        m.intersectingPanels
          = naiveIntersect (Scenario.env .Intersection)
              (workerSelection (Scenario.steadyArgs [100, 200] .Intersection))) ∧
      (∀ k, ∃ m, (pass1Upto (Scenario.steadyArgs [100, 200] .Intersection)
          (Scenario.env .Intersection) k).1.maps = some m ∧
        m.intersectingPanels
          = naiveIntersect (Scenario.env .Intersection)
              ((workerSelection (Scenario.steadyArgs [100, 200] .Intersection)).take k))) :=
  ⟨⟨fun _ => rfl, rfl, fun _ => rfl, by decide, by decide⟩, by decide,
    intersecting_panels_match_naive_rule (Scenario.steadyArgs [100, 200] .Intersection)
      (Scenario.env .Intersection) (fun _ => rfl) rfl (fun _ => rfl) (by decide) (by decide)⟩

/-- Where the early exit changes nothing: in an uncancelled run whose captured
mode is Intersection, or whose captured mode is Union with the manager field
`m_Setting` reading Union as well, the pass-1 loop with the early-exit `break`
ends with the same `intersectingPanels`, `unionedPanels`, `unionedSelections`,
`commonElements` and `commonUDTInstances` as the loop without it, and does end
with them. -/
theorem early_exit_keeps_pass1_maps (args : PropertyThreadArgs) (env : WorkerEnv)
    (hs : Steady args)
    (hset : args.m_Setting = PropertySetting.Union →
      SteadySetting env PropertySetting.Union) :
    (pass1 args env).1.maps = (pass1NoBreak args env).1.maps ∧
    (pass1 args env).1.maps ≠ none := by
  by_cases hne : workerSelection args = []
  · unfold pass1 pass1NoBreak
    rw [hne]
    simp [pass1Loop, pass1LoopNoBreak, Pass1Exit.maps]
  · obtain ⟨x, t1, st1, st2, t2, h1, h2, h3, h4⟩ := pass1Loop_vs_noBreak args env hs hset
      (workerSelection args) 0 (pass1Init args env) 0 (pass1Init_WFCommon args env)
      (fun _ => pass1Init_intersecting args env hne)
    have e1 : pass1 args env = (x, t1) := h1
    have e2 : pass1NoBreak args env = (.completed st2, t2) := h3
    rw [e1, e2]
    rcases h2 with rfl | rfl <;> simp [Pass1Exit.maps, h4]

/-- The selection [C, A] in Intersection mode with the registry P1, P2, P3:
object C accepts no panel and enumerates nothing, the loop breaks after C, the
loop without the early exit goes on to A, and both end with the same maps. -/
theorem early_exit_keeps_pass1_maps_witness :
    (Steady (Scenario.steadyArgs [300, 100] .Intersection) ∧
      ((Scenario.steadyArgs [300, 100] .Intersection).m_Setting = PropertySetting.Union →
        SteadySetting (Scenario.env .Intersection) PropertySetting.Union)) ∧
    (pass1 (Scenario.steadyArgs [300, 100] .Intersection)
        (Scenario.env .Intersection)).1.isBroke = true ∧
    (pass1NoBreak (Scenario.steadyArgs [300, 100] .Intersection)
        (Scenario.env .Intersection)).1.isCompleted = true ∧
    (pass1 (Scenario.steadyArgs [300, 100] .Intersection) (Scenario.env .Intersection)).1.maps
      = (pass1NoBreak (Scenario.steadyArgs [300, 100] .Intersection)
          (Scenario.env .Intersection)).1.maps ∧
    (pass1 (Scenario.steadyArgs [300, 100] .Intersection)
        (Scenario.env .Intersection)).1.maps ≠ none :=
  ⟨⟨fun _ => rfl, fun h => absurd h (by decide)⟩, by decide, by decide,
    early_exit_keeps_pass1_maps (Scenario.steadyArgs [300, 100] .Intersection)
      (Scenario.env .Intersection) (fun _ => rfl) (fun h => absurd h (by decide))⟩

/-- C5: a result tagged with a generation id other than the current one is
dropped by `FinalizeProperties` with no call on the container or the canvas
and no change of the manager; after three `SetSelection` calls the results of
the first two generations are dropped in this way. -/
theorem FinalizeProperties_stale_is_noop (m : PropertiesManager) (selectionId : Nat)
    (controls : List Nat) (c1 c2 c3 : CanvasView) (s1 s2 s3 : OS_SelectableDumbPtr)
    (h : selectionId ≠ m.m_SelectionId) :
    m.FinalizeProperties selectionId controls = (m, []) ∧
    (((m.SetSelection c1 s1).1.SetSelection c2 s2).1.SetSelection c3 s3).1.FinalizeProperties
        (m.SetSelection c1 s1).1.m_SelectionId controls
      = ((((m.SetSelection c1 s1).1.SetSelection c2 s2).1.SetSelection c3 s3).1, []) ∧
    (((m.SetSelection c1 s1).1.SetSelection c2 s2).1.SetSelection c3 s3).1.FinalizeProperties
        ((m.SetSelection c1 s1).1.SetSelection c2 s2).1.m_SelectionId controls
      = ((((m.SetSelection c1 s1).1.SetSelection c2 s2).1.SetSelection c3 s3).1, []) := by
  have stale : ∀ (x : PropertiesManager) (i : Nat), i ≠ x.m_SelectionId →
      x.FinalizeProperties i controls = (x, []) := by
    intro x i hi
    simp [PropertiesManager.FinalizeProperties, hi]
  have e1 := (SetSelection_fields m c1 s1).1
  have e2 := (SetSelection_fields (m.SetSelection c1 s1).1 c2 s2).1
  have e3 := (SetSelection_fields ((m.SetSelection c1 s1).1.SetSelection c2 s2).1 c3 s3).1
  have hlt : (m.m_SelectionId + 1) % u32Size < u32Size := Nat.mod_lt _ (by decide)
  refine ⟨stale m selectionId h, stale _ _ ?_, stale _ _ ?_⟩
  · rw [e3, e2, e1]
    generalize (m.m_SelectionId + 1) % u32Size = g at hlt
    unfold u32Size at *
    omega
  · rw [e3, e2, e1]
    generalize (m.m_SelectionId + 1) % u32Size = g at hlt
    unfold u32Size at *
    omega

/-- Witness for C5: with current generation 3, a result tagged 2 is dropped. -/
theorem FinalizeProperties_stale_is_noop_witness :
    (2 : Nat) ≠ (PropertiesManager.mk .Intersection true 3 0 [1] (0, 0)).m_SelectionId ∧
    (PropertiesManager.mk .Intersection true 3 0 [1] (0, 0)).FinalizeProperties 2 [10, 11]
      = (PropertiesManager.mk .Intersection true 3 0 [1] (0, 0), []) :=
  ⟨by decide,
    (FinalizeProperties_stale_is_noop (PropertiesManager.mk .Intersection true 3 0 [1] (0, 0))
      2 [10, 11] ⟨(0, 0), true⟩ ⟨(0, 0), true⟩ ⟨(0, 0), true⟩ [1] [2] [3] (by decide)).1⟩

/-- C6: with the current generation id, `FinalizeProperties` adds each control
to the owning container in list order, then calls `Freeze`, `Layout`,
`SetScroll( m_PreviousScroll )`, `Read`, `Thaw`, and nothing else; the offset
is the one `CreateProperties` captured from the canvas. -/
theorem FinalizeProperties_current_calls (m : PropertiesManager) (controls : List Nat)
    (canvas : CanvasView) :
    m.FinalizeProperties m.m_SelectionId controls
      = (m, controls.map ManagerCall.AddControl ++
          [ManagerCall.Freeze, ManagerCall.Layout, ManagerCall.SetScroll m.m_PreviousScroll,
            ManagerCall.Read, ManagerCall.Thaw]) ∧
    (m.CreateProperties canvas).1.m_PreviousScroll = canvas.GetScroll ∧
    ((m.CreateProperties canvas).1.FinalizeProperties m.m_SelectionId controls).2
      = controls.map ManagerCall.AddControl ++
          [ManagerCall.Freeze, ManagerCall.Layout, ManagerCall.SetScroll canvas.GetScroll,
            ManagerCall.Read, ManagerCall.Thaw] := by
  obtain ⟨h1, -, -, -, h5⟩ := CreateProperties_frame m canvas
  refine ⟨by simp [PropertiesManager.FinalizeProperties], h5, ?_⟩
  simp [PropertiesManager.FinalizeProperties, h1, h5]


/-- C7, as stated, fails: with the selection [C, A] in Intersection mode,
object C shares nothing, so the loop leaves through the early-exit `break`
after object 1; the live id changes right then (from the fifth read on), no
checkpoint is left to see it, and `PropertiesCreated` is raised with the
captured id 7. -/
theorem stale_after_break_still_raises :
    1 ≤ 1 ∧ 1 < (workerSelection (Scenario.args [300, 100] .Intersection 4)).length ∧
    (pass1Upto (Scenario.args [300, 100] .Intersection 4)
        (Scenario.env .Intersection) 1).1.isBroke = true ∧
    Fresh (Scenario.args [300, 100] .Intersection 4) 0
      (pass1Upto (Scenario.args [300, 100] .Intersection 4) (Scenario.env .Intersection) 1).2 ∧
    (Scenario.args [300, 100] .Intersection 4).m_CurrentSelectionId
        (pass1Upto (Scenario.args [300, 100] .Intersection 4) (Scenario.env .Intersection) 1).2
      ≠ (Scenario.args [300, 100] .Intersection 4).m_SelectionId ∧
    (GenerateProperties (Scenario.args [300, 100] .Intersection 4)
        (Scenario.env .Intersection)).raised = some 7 := by
  refine ⟨by decide, by decide, by decide, ?_, by decide, by decide⟩
  have e : (pass1Upto (Scenario.args [300, 100] .Intersection 4)
      (Scenario.env .Intersection) 1).2 = 4 := by decide
  rw [e]
  intro n _ hn
  simp only [Scenario.args]
  rw [if_pos hn]

/-- C7, amended: when the worker has gone through the first `k` objects of an
`N`-object selection (`k < N`) and the early-exit `break` was not taken, and
the live id differs from the captured one at the next read, then
`GenerateProperties` returns at the checkpoint of object `k+1`: it does not
raise `PropertiesCreated` and has made no call on the enumerator or on any
container. -/
theorem stale_before_next_object_returns (args : PropertyThreadArgs) (env : WorkerEnv)
    (k : Nat) (hkN : k < (workerSelection args).length)
    (hdone : (pass1Upto args env k).1.isCompleted = true)
    (hstale : args.m_CurrentSelectionId (pass1Upto args env k).2 ≠ args.m_SelectionId) :
    (GenerateProperties args env).raised = none ∧
    (GenerateProperties args env).calls = [] ∧
    (GenerateProperties args env).idReads = (pass1Upto args env k).2 + 1 := by
  rcases hp : pass1Upto args env k with ⟨x, t⟩
  rw [hp] at hdone hstale
  cases x with
  | broke st => simp [Pass1Exit.isCompleted] at hdone
  | returned => simp [Pass1Exit.isCompleted] at hdone
  | completed st =>
    have hsplit : workerSelection args
        = (workerSelection args).take k ++ (workerSelection args).drop k :=
      (List.take_append_drop k _).symm
    obtain ⟨obj, rest, hdrop⟩ : ∃ obj rest, (workerSelection args).drop k = obj :: rest := by
      cases hd : (workerSelection args).drop k with
      | nil =>
        have := congrArg List.length hd
        simp at this
        omega
      | cons obj rest => exact ⟨obj, rest, rfl⟩
    have hrun : pass1 args env = (.returned, t + 1) := by
      unfold pass1
      rw [hsplit, pass1Loop_append args env _ _ 0 _ 0 st t hp, hdrop, pass1Loop]
      simp only [] at hstale
      simp [hstale]
    simp [GenerateProperties, hrun]

/-- Witness for C7 amended: selection [A, B] in Intersection mode, the live id
changing once object A has been processed (six reads). -/
theorem stale_before_next_object_returns_witness :
    (GenerateProperties (Scenario.args [100, 200] .Intersection 6)
        (Scenario.env .Intersection)).raised = none ∧
    (GenerateProperties (Scenario.args [100, 200] .Intersection 6)
        (Scenario.env .Intersection)).calls = [] ∧
    (GenerateProperties (Scenario.args [100, 200] .Intersection 6)
        (Scenario.env .Intersection)).idReads
      = (pass1Upto (Scenario.args [100, 200] .Intersection 6)
          (Scenario.env .Intersection) 1).2 + 1 :=
  stale_before_next_object_returns (Scenario.args [100, 200] .Intersection 6)
    (Scenario.env .Intersection) 1 (by decide) (by decide) (by decide)

/-- C8, as stated, fails: the worker has no checkpoint after its last
iteration step. With the selection [A, B] in Intersection mode the run makes 13
reads of the live id, all finding 7; the id is 8 once the last step has
finished (what a further read would find), and `PropertiesCreated` is raised
all the same. -/
theorem stale_after_last_step_still_raises :
    (GenerateProperties (Scenario.args [100, 200] .Intersection 13)
        (Scenario.env .Intersection)).idReads = 13 ∧
    (Scenario.args [100, 200] .Intersection 13).m_CurrentSelectionId
        (GenerateProperties (Scenario.args [100, 200] .Intersection 13)
          (Scenario.env .Intersection)).idReads
      ≠ (Scenario.args [100, 200] .Intersection 13).m_SelectionId ∧
    (GenerateProperties (Scenario.args [100, 200] .Intersection 13)
        (Scenario.env .Intersection)).raised = some 7 := by
  decide

/-- C8, amended: the worker compares the two ids once per iteration step of
passes 1 to 3, before the step, and nowhere else. `stepCount` counts the
iterations of an uncancelled run from the maps the loops walk. A run whose
first `stepCount` comparisons all find the captured id goes through every
iteration, has then made exactly `stepCount` reads, and raises with the
captured id. A run whose comparison number `n` (from 0, below `stepCount`) is
the first to find another id returns at that comparison: it has made `n + 1`
reads, its calls are those of the iterations of passes 2 and 3 that came before
it (none while in pass 1) and it does not raise. So a run in which any of these
comparisons finds another id does not raise. Last conjunct: in every loop of
the shape of the inner loops (`forEachChecked`) a comparison that finds another
id ends the loop with the state the steps before it left; the step after the
comparison is not run. -/
theorem checkpoint_before_every_step (args : PropertyThreadArgs) (env : WorkerEnv) :
    (Fresh args 0 (stepCount args env) →
      GenerateProperties args env
        = ⟨(laterSteps args env).flatten, some args.m_SelectionId, stepCount args env⟩) ∧
    (∀ n, n < stepCount args env → Fresh args 0 n →
      args.m_CurrentSelectionId n ≠ args.m_SelectionId →
      GenerateProperties args env
        = ⟨((laterSteps args env).take (n - pass1StepCount args env)).flatten, none, n + 1⟩) ∧
    ((∃ n, n < stepCount args env ∧ args.m_CurrentSelectionId n ≠ args.m_SelectionId) →
      (GenerateProperties args env).raised = none) ∧
    (∀ (α σ : Type) (body : α → σ → σ) (xs : List α) (s : σ) (t n : Nat),
      t ≤ n → n < t + xs.length → Fresh args t n →
      args.m_CurrentSelectionId n ≠ args.m_SelectionId →
      forEachChecked args body xs s t
        = .returned ((xs.take (n - t)).foldl (fun acc x => body x acc) s) (n + 1)) := by
  refine ⟨GenerateProperties_fresh_run args env, GenerateProperties_stale_run args env, ?_,
    fun α σ body xs s t n h1 h2 hf hs => forEachChecked_stale_at args body xs s t n h1 h2 hf hs⟩
  intro h
  obtain ⟨n, hn, hf, hs⟩ := first_stale_read args _ h
  rw [GenerateProperties_stale_run args env n hn hf hs]

/-- Witness for C8 amended: selection [A, B] in Intersection mode: 11
iterations in pass 1, one in pass 2 (panel P2), one in pass 3 (key y). With the
live id changing at read 11 the worker returns at the comparison of pass 2
before any call; changing at read 12 it returns at the comparison of pass 3
with the calls of pass 2 made; changing at read 3 it returns inside pass 1. -/
theorem checkpoint_before_every_step_witness :
    (stepCount (Scenario.args [100, 200] .Intersection 11) (Scenario.env .Intersection) = 13 ∧
      pass1StepCount (Scenario.args [100, 200] .Intersection 11)
        (Scenario.env .Intersection) = 11 ∧
      laterSteps (Scenario.args [100, 200] .Intersection 11) (Scenario.env .Intersection)
        = [[.Push, .Invoke 2 [100, 200], .Pop],
            [.InterpretReflect [Scenario.Ay, Scenario.By] 0 0]]) ∧
    (GenerateProperties (Scenario.args [100, 200] .Intersection 11) (Scenario.env .Intersection)
        = ⟨[], none, 12⟩ ∧
      GenerateProperties (Scenario.args [100, 200] .Intersection 12) (Scenario.env .Intersection)
        = ⟨[.Push, .Invoke 2 [100, 200], .Pop], none, 13⟩ ∧
      GenerateProperties (Scenario.args [100, 200] .Intersection 3) (Scenario.env .Intersection)
        = ⟨[], none, 4⟩) ∧
    ((11 < stepCount (Scenario.args [100, 200] .Intersection 11) (Scenario.env .Intersection) ∧
        Fresh (Scenario.args [100, 200] .Intersection 11) 0 11 ∧
        (Scenario.args [100, 200] .Intersection 11).m_CurrentSelectionId 11
          ≠ (Scenario.args [100, 200] .Intersection 11).m_SelectionId) ∧
      GenerateProperties (Scenario.args [100, 200] .Intersection 11) (Scenario.env .Intersection)
        = ⟨((laterSteps (Scenario.args [100, 200] .Intersection 11)
              (Scenario.env .Intersection)).take
              (11 - pass1StepCount (Scenario.args [100, 200] .Intersection 11)
                (Scenario.env .Intersection))).flatten, none, 11 + 1⟩) ∧
    ((12 < stepCount (Scenario.args [100, 200] .Intersection 12) (Scenario.env .Intersection) ∧
        Fresh (Scenario.args [100, 200] .Intersection 12) 0 12 ∧
        (Scenario.args [100, 200] .Intersection 12).m_CurrentSelectionId 12
          ≠ (Scenario.args [100, 200] .Intersection 12).m_SelectionId) ∧
      GenerateProperties (Scenario.args [100, 200] .Intersection 12) (Scenario.env .Intersection)
        = ⟨((laterSteps (Scenario.args [100, 200] .Intersection 12)
              (Scenario.env .Intersection)).take
              (12 - pass1StepCount (Scenario.args [100, 200] .Intersection 12)
                (Scenario.env .Intersection))).flatten, none, 12 + 1⟩) :=
  ⟨by decide, by decide,
    ⟨⟨by decide, fun n _ hn => by simp only [Scenario.args]; rw [if_pos hn], by decide⟩,
      (checkpoint_before_every_step (Scenario.args [100, 200] .Intersection 11)
        (Scenario.env .Intersection)).2.1 11 (by decide)
        (fun n _ hn => by simp only [Scenario.args]; rw [if_pos hn]) (by decide)⟩,
    ⟨⟨by decide, fun n _ hn => by simp only [Scenario.args]; rw [if_pos hn], by decide⟩,
      (checkpoint_before_every_step (Scenario.args [100, 200] .Intersection 12)
        (Scenario.env .Intersection)).2.1 12 (by decide)
        (fun n _ hn => by simp only [Scenario.args]; rw [if_pos hn]) (by decide)⟩⟩

/-- C9: `SetSelection` and `SetProperties` each add one to `m_SelectionId`
modulo 2^32 and leave `m_SelectionDirty` true, whatever the argument;
`SetSelection` stores the selection and keeps the mode, `SetProperties` stores
the mode and keeps the selection. -/
theorem SetSelection_SetProperties_bump (m : PropertiesManager) (canvas : CanvasView)
    (selection : OS_SelectableDumbPtr) (setting : PropertySetting) :
    ((m.SetSelection canvas selection).1.m_SelectionId = (m.m_SelectionId + 1) % 2 ^ 32 ∧
      (m.SetSelection canvas selection).1.m_SelectionDirty = true ∧
      (m.SetSelection canvas selection).1.m_Selection = selection ∧
      (m.SetSelection canvas selection).1.m_Setting = m.m_Setting) ∧
    ((m.SetProperties canvas setting).1.m_SelectionId = (m.m_SelectionId + 1) % 2 ^ 32 ∧
      (m.SetProperties canvas setting).1.m_SelectionDirty = true ∧
      (m.SetProperties canvas setting).1.m_Setting = setting ∧
      (m.SetProperties canvas setting).1.m_Selection = m.m_Selection) := by
  have e : (2 : Nat) ^ 32 = u32Size := by decide
  rw [e]
  exact ⟨SetSelection_fields m canvas selection, SetProperties_fields m canvas setting⟩

/-- C10, as stated, fails: after 4294967295 selection changes from the
constructed state the generation id is 4294967295, and the next `SetSelection`
takes it to 0. -/
theorem selectionId_decreases_at_wrap :
    ((PropertiesManager.constructed.run
        (List.replicate 4294967295 (⟨(0, 0), true⟩, ManagerOp.SetSelection []))).step
        ⟨(0, 0), true⟩ (ManagerOp.SetSelection [])).m_SelectionId
      < (PropertiesManager.constructed.run
        (List.replicate 4294967295 (⟨(0, 0), true⟩, ManagerOp.SetSelection []))).m_SelectionId := by
  rw [step_selectionId, constructed_run_selectionId, countBumps_replicate_setSelection]
  simp only [ManagerOp.bumps, if_true]
  decide

/-- C10, amended: from the constructed state, as long as fewer than 2^32
selection and mode changes have been made in all, no operation decreases
`m_SelectionId`; `SetSelection` and `SetProperties` add one modulo 2^32 and
every other operation leaves it unchanged (in any state). -/
theorem selectionId_monotone_before_wrap (ops : List (CanvasView × ManagerOp))
    (canvas : CanvasView) (op : ManagerOp)
    (h : countBumps (ops ++ [(canvas, op)]) < 2 ^ 32) :
    (PropertiesManager.constructed.run ops).m_SelectionId
      ≤ ((PropertiesManager.constructed.run ops).step canvas op).m_SelectionId ∧
    (∀ m : PropertiesManager, (m.step canvas op).m_SelectionId =
      if op.bumps then (m.m_SelectionId + 1) % 2 ^ 32 else m.m_SelectionId) := by
  have e : (2 : Nat) ^ 32 = u32Size := by decide
  rw [e] at h
  refine ⟨?_, fun m => by rw [e]; exact step_selectionId m canvas op⟩
  rw [step_selectionId, constructed_run_selectionId]
  have hc : countBumps (ops ++ [(canvas, op)]) = countBumps ops + (if op.bumps then 1 else 0) := by
    unfold countBumps
    by_cases hb : op.bumps = true <;> simp [List.filter_append, hb]
  rw [hc] at h
  by_cases hb : op.bumps = true
  · simp only [hb, if_true] at h ⊢
    rw [Nat.mod_eq_of_lt (by omega), Nat.mod_eq_of_lt h]
    omega
  · simp [hb]

/-- Witness for C10 amended: a selection change followed by a mode change. -/
theorem selectionId_monotone_before_wrap_witness :
    countBumps ([(⟨(0, 0), true⟩, ManagerOp.SetSelection [1])] ++
        [(⟨(0, 0), true⟩, ManagerOp.SetProperties .Union)]) < 2 ^ 32 ∧
    (PropertiesManager.constructed.run [(⟨(0, 0), true⟩, ManagerOp.SetSelection [1])]).m_SelectionId
      ≤ ((PropertiesManager.constructed.run
          [(⟨(0, 0), true⟩, ManagerOp.SetSelection [1])]).step ⟨(0, 0), true⟩
          (ManagerOp.SetProperties .Union)).m_SelectionId :=
  ⟨by decide,
    (selectionId_monotone_before_wrap [(⟨(0, 0), true⟩, ManagerOp.SetSelection [1])]
      ⟨(0, 0), true⟩ (ManagerOp.SetProperties .Union) (by decide)).1⟩


/-- C11: `Show` with the dirty flag clear does nothing at all (no call, manager
unchanged); with the flag set it makes the calls of exactly one
`CreateProperties` and then clears the flag; on a shown canvas that
`CreateProperties` finalizes an empty result when the selection is empty and
otherwise creates one worker thread, bound to the current generation id. -/
theorem Show_recomputes_when_dirty (m : PropertiesManager) (canvas : CanvasView) :
    (m.m_SelectionDirty = false → m.Show canvas = (m, [])) ∧
    (m.m_SelectionDirty = true →
      (m.Show canvas).2 = (m.CreateProperties canvas).2 ∧
      (m.Show canvas).1 = { (m.CreateProperties canvas).1 with m_SelectionDirty := false }) ∧
    (canvas.IsShown = true → m.m_Selection = [] →
      m.CreateProperties canvas
        = ({ m with m_PreviousScroll := canvas.GetScroll },
            [ManagerCall.Reset, ManagerCall.GetScroll] ++
              (({ m with m_PreviousScroll := canvas.GetScroll } :
                PropertiesManager).FinalizeProperties m.m_SelectionId []).2) ∧
      startedBy (m.CreateProperties canvas).2 = []) ∧
    (canvas.IsShown = true → m.m_Selection ≠ [] →
      m.CreateProperties canvas
        = ({ m with m_PreviousScroll := canvas.GetScroll,
                    m_ThreadCount := m.m_ThreadCount + 1 },
            [ManagerCall.Reset, ManagerCall.GetScroll, ManagerCall.CreateContainer,
              ManagerCall.CreateThread (copySelection m.m_Selection) m.m_SelectionId
                m.m_Setting]) ∧
      startedBy (m.CreateProperties canvas).2
        = [⟨copySelection m.m_Selection, m.m_SelectionId, m.m_Setting⟩]) := by
  refine ⟨?_, ?_, ?_, ?_⟩
  · intro h
    simp [PropertiesManager.Show, h]
  · intro h
    simp [PropertiesManager.Show, h]
  · intro hshown hsel
    rw [CreateProperties_shown_empty m canvas hshown hsel]
    simp [PropertiesManager.FinalizeProperties, startedBy]
  · intro hshown hsel
    rw [CreateProperties_shown_nonempty m canvas hshown hsel]
    simp [startedBy]

/-- Witness for C11: a dirty manager tracking the selection [100] at generation
3, shown: `Show` creates one worker thread bound to generation 3. -/
theorem Show_recomputes_when_dirty_witness :
    (PropertiesManager.mk .Intersection true 3 0 [100] (0, 0)).m_SelectionDirty = true ∧
    ((PropertiesManager.mk .Intersection true 3 0 [100] (0, 0)).Show ⟨(5, 7), true⟩).2
      = [ManagerCall.Reset, ManagerCall.GetScroll, ManagerCall.CreateContainer,
          ManagerCall.CreateThread [100] 3 .Intersection] ∧
    ((PropertiesManager.mk .Intersection true 3 0 [100] (0, 0)).Show ⟨(5, 7), true⟩).2
      = ((PropertiesManager.mk .Intersection true 3 0 [100] (0, 0)).CreateProperties
          ⟨(5, 7), true⟩).2 :=
  ⟨rfl, by decide,
    ((Show_recomputes_when_dirty (PropertiesManager.mk .Intersection true 3 0 [100] (0, 0))
      ⟨(5, 7), true⟩).2.1 rfl).1⟩


/-- C12: in every state the system reaches from the constructed manager,
`m_ThreadCount` is the number of worker threads that were started and have not
yet left `GeneratePropertiesThread`, hence never negative; `CreateProperties`
adds one to it for each thread it creates (at most one), and a worker thread
takes one off when it ends, whatever `GenerateProperties` did (returned at a
checkpoint or raised `PropertiesCreated`). -/
theorem threadCount_counts_running_workers (events : List SystemEvent)
    (m : PropertiesManager) (canvas : CanvasView) (args : PropertyThreadArgs)
    (env : WorkerEnv) :
    ((ManagerSystem.initial.run events).manager.m_ThreadCount
        = (ManagerSystem.initial.run events).workers.length ∧
      0 ≤ (ManagerSystem.initial.run events).manager.m_ThreadCount) ∧
    ((m.CreateProperties canvas).1.m_ThreadCount
        = m.m_ThreadCount + (startedBy (m.CreateProperties canvas).2).length ∧
      (startedBy (m.CreateProperties canvas).2).length ≤ 1) ∧
    ((m.workerThread args env).1.m_ThreadCount = m.m_ThreadCount - 1 ∧
      (m.workerThread args env).2 = GenerateProperties args env) := by
  have h := run_threadCount events ManagerSystem.initial rfl
  refine ⟨⟨h, ?_⟩, CreateProperties_threadCount m canvas, rfl, rfl⟩
  rw [h]
  exact Int.natCast_nonneg _


/-- C13: `ThreadsActive()` answers true exactly when `m_ThreadCount > 0`; the
call changes no field of the manager and makes no call on a collaborator. -/
theorem ThreadsActive_is_pure_observation (m : PropertiesManager) (canvas : CanvasView)
    (s : ManagerSystem) :
    (m.ThreadsActive = true ↔ m.m_ThreadCount > 0) ∧
    m.step canvas ManagerOp.ThreadsActive = m ∧
    s.step SystemEvent.ThreadsActive = s := by
  refine ⟨?_, rfl, rfl⟩
  simp [PropertiesManager.ThreadsActive]


/-- C14, as stated, fails: with an empty tracked selection and a canvas window
that is not shown, `SetSelection` with an empty selection only resets the
enumerator and reads the scroll offset; none of the calls of
`FinalizeProperties` is made. -/
theorem empty_selection_not_finalized_when_hidden :
    (PropertiesManager.constructed.SetSelection ⟨(0, 0), false⟩ []).1.m_Selection = [] ∧
    (PropertiesManager.constructed.SetSelection ⟨(0, 0), false⟩ []).2
      = [ManagerCall.Reset, ManagerCall.GetScroll] ∧
    ((PropertiesManager.constructed.SetSelection ⟨(0, 0), false⟩ []).1.FinalizeProperties
        (PropertiesManager.constructed.SetSelection ⟨(0, 0), false⟩ []).1.m_SelectionId []).2
      = [ManagerCall.Freeze, ManagerCall.Layout, ManagerCall.SetScroll (0, 0),
          ManagerCall.Read, ManagerCall.Thaw] := by
  decide

/-- C14, amended: with an empty tracked selection `CreateProperties` (also as
run by `SetSelection` with an empty selection) creates no worker thread and
leaves `m_ThreadCount` as it is, so `ThreadsActive()` stays false; when the
canvas window is shown, the result is finalized at once: the calls are those
of `FinalizeProperties` with the current generation id and no control, which
passes its check and adds no control. -/
theorem empty_selection_finalized_when_shown (m : PropertiesManager) (canvas : CanvasView)
    (hsel : m.m_Selection = []) :
    (startedBy (m.CreateProperties canvas).2 = [] ∧
      (m.CreateProperties canvas).1.m_ThreadCount = m.m_ThreadCount ∧
      (m.ThreadsActive = false → (m.CreateProperties canvas).1.ThreadsActive = false)) ∧
    (startedBy (m.SetSelection canvas []).2 = [] ∧
      (m.SetSelection canvas []).1.m_ThreadCount = m.m_ThreadCount) ∧
    (canvas.IsShown = true →
      (m.CreateProperties canvas).2
          = [ManagerCall.Reset, ManagerCall.GetScroll] ++
            ((m.CreateProperties canvas).1.FinalizeProperties m.m_SelectionId []).2 ∧
        ((m.CreateProperties canvas).1.FinalizeProperties m.m_SelectionId []).2
          = [ManagerCall.Freeze, ManagerCall.Layout, ManagerCall.SetScroll canvas.GetScroll,
              ManagerCall.Read, ManagerCall.Thaw] ∧
        (m.SetSelection canvas []).2
          = [ManagerCall.Reset, ManagerCall.GetScroll, ManagerCall.Freeze, ManagerCall.Layout,
              ManagerCall.SetScroll canvas.GetScroll, ManagerCall.Read, ManagerCall.Thaw]) := by
  have key : ∀ x : PropertiesManager, x.m_Selection = [] →
      startedBy (x.CreateProperties canvas).2 = [] ∧
        (x.CreateProperties canvas).1.m_ThreadCount = x.m_ThreadCount := by
    intro x hx
    cases hshown : canvas.IsShown with
    | false => rw [CreateProperties_hidden x canvas hshown]; simp [startedBy]
    | true => rw [CreateProperties_shown_empty x canvas hshown hx]; simp [startedBy]
  refine ⟨⟨(key m hsel).1, (key m hsel).2, ?_⟩, ?_, ?_⟩
  · intro h
    simp only [PropertiesManager.ThreadsActive, (key m hsel).2] at h ⊢
    exact h
  · unfold PropertiesManager.SetSelection
    exact key _ rfl
  · intro hshown
    refine ⟨?_, ?_, ?_⟩
    · rw [CreateProperties_shown_empty m canvas hshown hsel]
      simp [PropertiesManager.FinalizeProperties]
    · rw [CreateProperties_shown_empty m canvas hshown hsel]
      simp [PropertiesManager.FinalizeProperties]
    · unfold PropertiesManager.SetSelection
      simp only []
      rw [CreateProperties_shown_empty _ canvas hshown rfl]

/-- Witness for C14 amended: the constructed manager (empty selection) on a
shown canvas. -/
theorem empty_selection_finalized_when_shown_witness :
    PropertiesManager.constructed.m_Selection = [] ∧
    (PropertiesManager.constructed.SetSelection ⟨(4, 2), true⟩ []).2
      = [ManagerCall.Reset, ManagerCall.GetScroll, ManagerCall.Freeze, ManagerCall.Layout,
          ManagerCall.SetScroll (4, 2), ManagerCall.Read, ManagerCall.Thaw] :=
  ⟨rfl,
    ((empty_selection_finalized_when_shown PropertiesManager.constructed ⟨(4, 2), true⟩
      rfl).2.2 rfl).2.2⟩


/-- The failing run of C15: on a shown canvas, `SetSelection` starts a worker
for generation 1 and leaves the dirty flag set; a following `Show` starts a
second worker for the same generation; both run uncancelled, both results pass
the check of `FinalizeProperties`, and the controls 10 and 20 are added one
after the other with no `Reset` in between. -/
theorem show_after_visible_selection_attaches_twice :
    (ManagerSystem.initial.run
        [SystemEvent.SetSelection ⟨(0, 0), true⟩ [100],
          SystemEvent.Show ⟨(0, 0), true⟩,
          SystemEvent.WorkerFinished 0 (Scenario.env .Intersection) (fun _ => 1) [10],
          SystemEvent.WorkerFinished 0 (Scenario.env .Intersection) (fun _ => 1) [20],
          SystemEvent.Deliver 0,
          SystemEvent.Deliver 0]).attached = [(1, [10]), (1, [20])] ∧
    (ManagerSystem.initial.run
        [SystemEvent.SetSelection ⟨(0, 0), true⟩ [100],
          SystemEvent.Show ⟨(0, 0), true⟩,
          SystemEvent.WorkerFinished 0 (Scenario.env .Intersection) (fun _ => 1) [10],
          SystemEvent.WorkerFinished 0 (Scenario.env .Intersection) (fun _ => 1) [20],
          SystemEvent.Deliver 0,
          SystemEvent.Deliver 0]).log
      = [ManagerCall.Reset, ManagerCall.GetScroll, ManagerCall.CreateContainer,
          ManagerCall.CreateThread [100] 1 .Intersection,
          ManagerCall.Reset, ManagerCall.GetScroll, ManagerCall.CreateContainer,
          ManagerCall.CreateThread [100] 1 .Intersection,
          ManagerCall.AddControl 10, ManagerCall.Freeze, ManagerCall.Layout,
          ManagerCall.SetScroll (0, 0), ManagerCall.Read, ManagerCall.Thaw,
          ManagerCall.AddControl 20, ManagerCall.Freeze, ManagerCall.Layout,
          ManagerCall.SetScroll (0, 0), ManagerCall.Read, ManagerCall.Thaw] := by
  decide


/-- C16, as stated, fails: in Union mode, with A enumerating {x, y} and B
enumerating {y, z}, the final `commonElements` holds the key y alone, with the
instances of A and B; the keys x and z, each enumerated by one object, are not
in it. -/
theorem union_mode_common_map_is_not_the_union :
    Scenario.keyX ∈ StdMap.keys (currentElementsOf (Scenario.env .Union) 100) ∧
    Scenario.keyZ ∈ StdMap.keys (currentElementsOf (Scenario.env .Union) 200) ∧
    (pass1 (Scenario.steadyArgs [100, 200] .Union) (Scenario.env .Union)).1.maps.map
        (fun m => m.commonElements)
      = some [(Scenario.keyY, [Scenario.Ay, Scenario.By])] := by
  decide

/-- C16, amended: in an uncancelled run in Union mode over a non-empty
selection, the final common maps are the same intersection as in Intersection
mode: a key is in `commonElements` (a symbol name in `commonUDTInstances`)
exactly when every selected object has it in its per-object map, and the list
under it holds the instance of each selected object, in selection order. -/
theorem union_mode_common_map_is_the_intersection (selection : List Nat) (selectionId : Nat)
    (registry : M_PanelCreators) (objects : Nat → Selectable)
    (hne : workerSelection ⟨selection, selectionId, fun _ => selectionId, .Union⟩ ≠ []) :
    ∃ m, (pass1 ⟨selection, selectionId, fun _ => selectionId, .Union⟩
        ⟨registry, objects, fun _ => .Union⟩).1.maps = some m ∧
      (∀ key : ElementTypeFlags,
        (key ∈ StdMap.keys m.commonElements ↔
          ∀ o ∈ copySelection selection,
            key ∈ StdMap.keys (connectProperties (objects o)).m_CurrentElements) ∧
        (∀ l, StdMap.find key m.commonElements = some l →
          l.map some = (copySelection selection).map
            (fun o => StdMap.find key (connectProperties (objects o)).m_CurrentElements))) ∧
      (∀ sym : StdString,
        (sym ∈ StdMap.keys m.commonUDTInstances ↔
          ∀ o ∈ copySelection selection,
            sym ∈ StdMap.keys (connectProperties (objects o)).m_CurrentUDTInstances) ∧
        (∀ l, StdMap.find sym m.commonUDTInstances = some l →
          l.map some = (copySelection selection).map
            (fun o =>
              StdMap.find sym (connectProperties (objects o)).m_CurrentUDTInstances))) := by
  obtain ⟨m, e, -, -, f1, f2⟩ := pass1_common_expected
    ⟨selection, selectionId, fun _ => selectionId, .Union⟩
    ⟨registry, objects, fun _ => .Union⟩ (fun _ => rfl) hne
  refine ⟨m, e, ?_, ?_⟩
  · exact fun key => expectedCommon_spec _ _ _ f1 key
  · exact fun sym => expectedCommon_spec _ _ _ f2 sym

/-- Witness for C16 amended: A enumerates {x, y}, B enumerates {y, z}, Union
mode. -/
theorem union_mode_common_map_is_the_intersection_witness :
    workerSelection ⟨[100, 200], 7, fun _ => 7, .Union⟩ ≠ [] ∧
    ∃ m, (pass1 ⟨[100, 200], 7, fun _ => 7, .Union⟩
        ⟨Scenario.registry, Scenario.objects, fun _ => .Union⟩).1.maps = some m ∧
      (∀ key : ElementTypeFlags,
        (key ∈ StdMap.keys m.commonElements ↔
          ∀ o ∈ copySelection [100, 200],
            key ∈ StdMap.keys (connectProperties (Scenario.objects o)).m_CurrentElements) ∧
        (∀ l, StdMap.find key m.commonElements = some l →
          l.map some = (copySelection [100, 200]).map
            (fun o =>
              StdMap.find key (connectProperties (Scenario.objects o)).m_CurrentElements))) ∧
      (∀ sym : StdString,
        (sym ∈ StdMap.keys m.commonUDTInstances ↔
          ∀ o ∈ copySelection [100, 200],
            sym ∈ StdMap.keys (connectProperties (Scenario.objects o)).m_CurrentUDTInstances) ∧
        (∀ l, StdMap.find sym m.commonUDTInstances = some l →
          l.map some = (copySelection [100, 200]).map
            (fun o =>
              StdMap.find sym
                (connectProperties (Scenario.objects o)).m_CurrentUDTInstances))) :=
  ⟨by decide,
    union_mode_common_map_is_the_intersection [100, 200] 7 Scenario.registry Scenario.objects
      (by decide)⟩


/-- C17: for every selection, registry and set of objects, an uncancelled run
in Union mode and an uncancelled run in Intersection mode end pass 1 with the
same `commonElements` and the same `commonUDTInstances`. -/
theorem common_maps_do_not_depend_on_mode (selection : List Nat) (selectionId : Nat)
    (registry : M_PanelCreators) (objects : Nat → Selectable) :
    ∃ mU mI,
      (pass1 ⟨selection, selectionId, fun _ => selectionId, .Union⟩
        ⟨registry, objects, fun _ => .Union⟩).1.maps = some mU ∧
      (pass1 ⟨selection, selectionId, fun _ => selectionId, .Intersection⟩
        ⟨registry, objects, fun _ => .Intersection⟩).1.maps = some mI ∧
      mU.commonElements = mI.commonElements ∧
      mU.commonUDTInstances = mI.commonUDTInstances := by
  have hU : Steady ⟨selection, selectionId, fun _ => selectionId, .Union⟩ := fun _ => rfl
  have hI : Steady ⟨selection, selectionId, fun _ => selectionId, .Intersection⟩ :=
    fun _ => rfl
  obtain ⟨mU, mI, eU, eI, h1, h2⟩ := pass1_common_determined _ _
    ⟨registry, objects, fun _ => .Union⟩ ⟨registry, objects, fun _ => .Intersection⟩
    hU hI rfl rfl
  exact ⟨mU, mI, eU, eI, h1, h2⟩


/-- C18: a run of `GenerateProperties` in which every checkpoint (the
comparison before each of the `stepCount` iterations of passes 1 to 3) finds
the live id equal to the captured one makes every call of passes 2 and 3 and
then raises `PropertiesCreated` once, as its last event, with the captured id
`args.m_SelectionId` and the controls its own container holds after all those
calls. A run in which some checkpoint finds another id returns at the first
such checkpoint: its events are the calls made before it and no raise. In terms
of the reads the run makes: it raises with the captured id when every read
finds the captured id, and raises nothing when some read finds another. -/
theorem PropertiesCreated_raised_once_at_end (args : PropertyThreadArgs) (env : WorkerEnv)
    (container : WorkerContainer) :
    (Fresh args 0 (stepCount args env) →
      GeneratePropertiesEvents args env container
        = (laterSteps args env).flatten.map WorkerEvent.Call ++
            [WorkerEvent.Raise
              ⟨args.m_SelectionId, container.GetControls (laterSteps args env).flatten⟩]) ∧
    (∀ n, n < stepCount args env → Fresh args 0 n →
      args.m_CurrentSelectionId n ≠ args.m_SelectionId →
      GeneratePropertiesEvents args env container
        = (((laterSteps args env).take (n - pass1StepCount args env)).flatten).map
            WorkerEvent.Call) ∧
    ((∃ n, n < stepCount args env ∧ args.m_CurrentSelectionId n ≠ args.m_SelectionId) →
      ∀ raised, WorkerEvent.Raise raised ∉ GeneratePropertiesEvents args env container) ∧
    ((∀ n, n < (GenerateProperties args env).idReads →
        args.m_CurrentSelectionId n = args.m_SelectionId) →
      (GenerateProperties args env).raised = some args.m_SelectionId) ∧
    ((∃ n, n < (GenerateProperties args env).idReads ∧
        args.m_CurrentSelectionId n ≠ args.m_SelectionId) →
      (GenerateProperties args env).raised = none) := by
  have part1 : (∀ n, n < (GenerateProperties args env).idReads →
      args.m_CurrentSelectionId n = args.m_SelectionId) →
      (GenerateProperties args env).raised = some args.m_SelectionId := by
    intro hall
    rcases GenerateProperties_raised_id args env with hnone | hsome
    · obtain ⟨n, hn, hne⟩ := GenerateProperties_not_raised args env hnone
      exact absurd (hall n hn) hne
    · exact hsome
  refine ⟨?_, ?_, ?_, part1, ?_⟩
  · intro hf
    unfold GeneratePropertiesEvents
    rw [GenerateProperties_fresh_run args env hf]
  · intro n hn hf hs
    unfold GeneratePropertiesEvents
    rw [GenerateProperties_stale_run args env n hn hf hs]
    simp
  · intro h raised hmem
    obtain ⟨n, hn, hf, hs⟩ := first_stale_read args _ h
    unfold GeneratePropertiesEvents at hmem
    rw [GenerateProperties_stale_run args env n hn hf hs] at hmem
    simp only [List.append_nil, List.mem_map] at hmem
    obtain ⟨c, -, hc⟩ := hmem
    cases hc
  · rintro ⟨n, hn, hne⟩
    rcases GenerateProperties_raised_id args env with hnone | hsome
    · exact hnone
    · exact absurd (GenerateProperties_raised args env _ hsome n (Nat.zero_le n) hn) hne

/-- Witness for C18: selection [A, B] in Union mode. With a live id that stays
7 the run invokes the creators of P1, P2, P3, interprets the key y and then
raises generation 7 with the controls 1, 2, 3, 0 of its container; with a live
id that changes at read 13 (the comparison before the second panel of pass 2)
the events are the calls of the first panel and nothing is raised. -/
theorem PropertiesCreated_raised_once_at_end_witness :
    (Fresh (Scenario.steadyArgs [100, 200] .Union) 0
        (stepCount (Scenario.steadyArgs [100, 200] .Union) (Scenario.env .Union)) ∧
      GeneratePropertiesEvents (Scenario.steadyArgs [100, 200] .Union) (Scenario.env .Union)
          Scenario.container
        = [.Call .Push, .Call (.Invoke 1 [100]), .Call .Pop,
            .Call .Push, .Call (.Invoke 2 [100, 200]), .Call .Pop,
            .Call .Push, .Call (.Invoke 3 [200]), .Call .Pop,
            .Call (.InterpretReflect [Scenario.Ay, Scenario.By] 0 0),
            .Raise ⟨7, [1, 2, 3, 0]⟩] ∧
      GeneratePropertiesEvents (Scenario.steadyArgs [100, 200] .Union) (Scenario.env .Union)
          Scenario.container
        = (laterSteps (Scenario.steadyArgs [100, 200] .Union)
              (Scenario.env .Union)).flatten.map WorkerEvent.Call ++
            [WorkerEvent.Raise
              ⟨(Scenario.steadyArgs [100, 200] .Union).m_SelectionId,
                Scenario.container.GetControls
                  (laterSteps (Scenario.steadyArgs [100, 200] .Union)
                    (Scenario.env .Union)).flatten⟩]) ∧
    ((13 < stepCount (Scenario.args [100, 200] .Union 13) (Scenario.env .Union) ∧
        Fresh (Scenario.args [100, 200] .Union 13) 0 13 ∧
        (Scenario.args [100, 200] .Union 13).m_CurrentSelectionId 13
          ≠ (Scenario.args [100, 200] .Union 13).m_SelectionId) ∧
      GeneratePropertiesEvents (Scenario.args [100, 200] .Union 13) (Scenario.env .Union)
          Scenario.container
        = [.Call .Push, .Call (.Invoke 1 [100]), .Call .Pop] ∧
      GeneratePropertiesEvents (Scenario.args [100, 200] .Union 13) (Scenario.env .Union)
          Scenario.container
        = (((laterSteps (Scenario.args [100, 200] .Union 13) (Scenario.env .Union)).take
              (13 - pass1StepCount (Scenario.args [100, 200] .Union 13)
                (Scenario.env .Union))).flatten).map WorkerEvent.Call) :=
  ⟨⟨fun _ _ _ => rfl, by decide,
      (PropertiesCreated_raised_once_at_end (Scenario.steadyArgs [100, 200] .Union)
        (Scenario.env .Union) Scenario.container).1 (fun _ _ _ => rfl)⟩,
    ⟨⟨by decide, fun n _ hn => by simp only [Scenario.args]; rw [if_pos hn], by decide⟩,
      by decide,
      (PropertiesCreated_raised_once_at_end (Scenario.args [100, 200] .Union 13)
        (Scenario.env .Union) Scenario.container).2.1 13 (by decide)
        (fun n _ hn => by simp only [Scenario.args]; rw [if_pos hn]) (by decide)⟩⟩

/-! ## The edit handlers of the scene editor -/

/-- C19: while `ThreadsActive()` of the selection properties manager answers
true, `OnDelete` only shows the error message: it calls neither
`DeleteSelected` nor `Push`; when it answers false and there is a current
scene, `OnDelete` calls `DeleteSelected` and pushes its result. -/
theorem OnDelete_refuses_while_threads_active (e : SceneEditor) :
    (e.m_SelectionPropertiesManager.ThreadsActive = true →
      e.OnDelete = [EditorCall.ErrorMessageBox] ∧
      EditorCall.DeleteSelected ∉ e.OnDelete ∧ EditorCall.Push ∉ e.OnDelete) ∧
    (e.m_SelectionPropertiesManager.ThreadsActive = false →
      e.m_SceneManager.HasCurrentScene = true →
      e.OnDelete = [EditorCall.DeleteSelected, EditorCall.Push]) := by
  constructor
  · intro h
    simp [SceneEditor.OnDelete, h]
  · intro h hscene
    simp [SceneEditor.OnDelete, h, hscene]

/-- Witness for C19: one worker thread in flight, a current scene. -/
theorem OnDelete_refuses_while_threads_active_witness :
    (SceneEditor.mk (PropertiesManager.mk .Intersection true 1 1 [100] (0, 0))
        ⟨true, true, true⟩).m_SelectionPropertiesManager.ThreadsActive = true ∧
    (SceneEditor.mk (PropertiesManager.mk .Intersection true 1 1 [100] (0, 0))
        ⟨true, true, true⟩).OnDelete = [EditorCall.ErrorMessageBox] :=
  ⟨by decide,
    ((OnDelete_refuses_while_threads_active
      (SceneEditor.mk (PropertiesManager.mk .Intersection true 1 1 [100] (0, 0))
        ⟨true, true, true⟩)).1 (by decide)).1⟩

/-- The failing input of C20: with one worker thread in flight
(`ThreadsActive()` true) and something to undo, `OnUndo` calls
`m_SceneManager.Undo()` all the same, while `OnDelete` in the same state only
shows its error message. -/
theorem OnUndo_ignores_threads_active :
    (SceneEditor.mk (PropertiesManager.mk .Intersection true 1 1 [100] (0, 0))
        ⟨true, true, true⟩).m_SelectionPropertiesManager.ThreadsActive = true ∧
    (SceneEditor.mk (PropertiesManager.mk .Intersection true 1 1 [100] (0, 0))
        ⟨true, true, true⟩).OnUndo
      = [EditorCall.Undo, EditorCall.ToolPropertiesRead, EditorCall.Execute false] ∧
    (SceneEditor.mk (PropertiesManager.mk .Intersection true 1 1 [100] (0, 0))
        ⟨true, true, true⟩).OnDelete = [EditorCall.ErrorMessageBox] := by
  decide


/-! ## C21: `IsPowerOfTwo` -/

namespace Lunar

/-- C21 (counterexample): for the signed 32-bit value -4 `IsPowerOfTwo` returns
true, since the signed overload tests the absolute value, although -4 is no
power of two. -/
theorem IsPowerOfTwo_true_for_minus_four :
    IsPowerOfTwo ⟨true, 32⟩ (-4) = some true ∧ ¬ ∃ k : Nat, (-4 : Int) = 2 ^ k := by
  refine ⟨by decide, ?_⟩
  rintro ⟨k, hk⟩
  have : (0 : Int) < 2 ^ k := by positivity
  omega

/-- The value zero: both overloads return true for 0, which is no power of
two (`0 & ( 0 - 1 )` is 0). -/
theorem IsPowerOfTwo_true_for_zero :
    IsPowerOfTwo ⟨false, 32⟩ 0 = some true ∧ IsPowerOfTwo ⟨true, 32⟩ 0 = some true ∧
      ¬ ∃ k : Nat, (0 : Int) = 2 ^ k := by
  refine ⟨by decide, by decide, ?_⟩
  rintro ⟨k, hk⟩
  have : (0 : Int) < 2 ^ k := by positivity
  omega

/-- C21 (amended): for every non-zero value `v` of a signed or unsigned integer
type whose absolute value the type can hold, `IsPowerOfTwo` returns a result,
and the result is true exactly when the absolute value of `v` is a power of
two (for an unsigned type: when `v` is). -/
theorem IsPowerOfTwo_tests_absolute_value (T : IntegerType) (v : Int) (hv : v ≠ 0)
    (hr : T.HasAbs v) :
    ∃ b, IsPowerOfTwo T v = some b ∧ (b = true ↔ ∃ k : Nat, v.natAbs = 2 ^ k) := by
  unfold IsPowerOfTwo
  unfold IntegerType.HasAbs at hr
  by_cases hs : T.isSigned = true
  · rw [if_pos hs] at hr ⊢
    have hlt : v.natAbs < 2 ^ T.bits := by
      have h1 : ((v.natAbs : Nat) : Int) < (2 : Int) ^ (T.bits - 1) := by omega
      have h2 : v.natAbs < 2 ^ (T.bits - 1) := by exact_mod_cast h1
      exact lt_of_lt_of_le h2 (Nat.pow_le_pow_right (by decide) (Nat.sub_le _ _))
    exact IsPowerOfTwoSigned_spec T.bits v hv (by omega) hlt
  · rw [if_neg hs] at hr ⊢
    refine ⟨_, rfl, ?_⟩
    have e : v.natAbs = v.toNat := by omega
    have hlt : v.toNat < 2 ^ T.bits := by
      have h1 : ((v.toNat : Nat) : Int) = v := Int.toNat_of_nonneg hr.1
      have h2 : ((v.toNat : Nat) : Int) < ((2 ^ T.bits : Nat) : Int) := by
        rw [h1]; push_cast; exact hr.2
      exact_mod_cast h2
    rw [e]
    exact IsPowerOfTwoUnsigned_spec T.bits v.toNat (by omega) hlt

/-- C21 (witness): the signed 32-bit value -4 and the unsigned 32-bit value 6. -/
theorem IsPowerOfTwo_tests_absolute_value_witness :
    ((-4 : Int) ≠ 0 ∧ IntegerType.HasAbs ⟨true, 32⟩ (-4) ∧
      ∃ b, IsPowerOfTwo ⟨true, 32⟩ (-4) = some b ∧
        (b = true ↔ ∃ k : Nat, (-4 : Int).natAbs = 2 ^ k)) ∧
    ((6 : Int) ≠ 0 ∧ IntegerType.HasAbs ⟨false, 32⟩ 6 ∧
      ∃ b, IsPowerOfTwo ⟨false, 32⟩ 6 = some b ∧
        (b = true ↔ ∃ k : Nat, (6 : Int).natAbs = 2 ^ k)) :=
  ⟨⟨by decide, by decide, IsPowerOfTwo_tests_absolute_value ⟨true, 32⟩ (-4) (by decide) (by decide)⟩,
   ⟨by decide, by decide, IsPowerOfTwo_tests_absolute_value ⟨false, 32⟩ 6 (by decide) (by decide)⟩⟩

end Lunar

/-! ## C22: `Log2` -/

namespace Lunar

/-- C22: for every non-zero unsigned 32-bit value `v`, `Log2 v` (a total
function: the scan is a recursion on the bit index) is the index `b` of the
highest set bit: `2 ^ b ≤ v < 2 ^ (b + 1)` and `b ≤ 31`. -/
theorem Log2_is_index_of_highest_bit (value : Nat) (h0 : value ≠ 0) (h : value < 2 ^ 32) :
    2 ^ Log2 value ≤ value ∧ value < 2 ^ (Log2 value + 1) ∧ Log2 value ≤ 31 := by
  have e : (1 <<< 31 : Nat) = 2 ^ 31 := by decide
  unfold Log2
  rw [e]
  exact Log2Scan_spec value h0 31 h

/-- C22 (witness): the value 1000, whose highest set bit is bit 9. -/
theorem Log2_is_index_of_highest_bit_witness :
    (1000 ≠ 0 ∧ 1000 < 2 ^ 32) ∧ Log2 1000 = 9 ∧
      (2 ^ Log2 1000 ≤ 1000 ∧ 1000 < 2 ^ (Log2 1000 + 1) ∧ Log2 1000 ≤ 31) :=
  ⟨by decide, by decide, Log2_is_index_of_highest_bit 1000 (by decide) (by decide)⟩

end Lunar

/-! ## C23: the running panel set only shrinks -/

/-- C23: in an uncancelled run in Intersection mode (captured and manager mode
both Intersection) the running panel set only shrinks: for every selection and
all `k ≤ j`, `intersectingPanels` after `j` objects is contained in
`intersectingPanels` after `k` objects (for `k = 0`: the set before the first
object), which is contained in the registry; and a panel rejected by one of the
first `j` objects is absent from the set after `j` objects. -/
theorem intersecting_panels_only_shrink (args : PropertyThreadArgs) (env : WorkerEnv)
    (hs : Steady args) (hm : args.m_Setting = PropertySetting.Intersection)
    (hset : SteadySetting env PropertySetting.Intersection)
    (hreg : StdMap.WF env.s_PanelCreators) (k j : Nat) (hkj : k ≤ j) :
    ∃ mk mj, (pass1Upto args env k).1.maps = some mk ∧
      (pass1Upto args env j).1.maps = some mj ∧
      (∀ p ∈ mj.intersectingPanels, p ∈ mk.intersectingPanels) ∧
      (∀ p ∈ mk.intersectingPanels, p ∈ env.s_PanelCreators) ∧
      (∀ o ∈ (workerSelection args).take j, ∀ p,
        (env.objects o).ValidatePanel p.1 = false → p ∉ mj.intersectingPanels) := by
  obtain ⟨mk, hk1, hk2⟩ := pass1Upto_intersecting args env hs hm hset hreg k
  obtain ⟨mj, hj1, hj2⟩ := pass1Upto_intersecting args env hs hm hset hreg j
  refine ⟨mk, mj, hk1, hj1, ?_, ?_, ?_⟩
  · intro p hp
    obtain ⟨a, b, c⟩ := (hj2 p).1 hp
    refine (hk2 p).2 ⟨a, b, fun o ho => c o ?_⟩
    exact (List.take_sublist_take_left _ hkj).subset ho
  · intro p hp
    exact ((hk2 p).1 hp).2.1
  · intro o ho p hrej hp
    have := ((hj2 p).1 hp).2.2 o ho
    rw [hrej] at this
    exact Bool.false_ne_true this

/-- Witness for C23: A accepts {P1, P2}, B accepts {P2, P3}; after A the set is
{P1, P2}, after B it is {P2}. -/
theorem intersecting_panels_only_shrink_witness :
    (Steady (Scenario.steadyArgs [100, 200] .Intersection) ∧
      (Scenario.steadyArgs [100, 200] .Intersection).m_Setting = PropertySetting.Intersection ∧
      SteadySetting (Scenario.env .Intersection) PropertySetting.Intersection ∧
      StdMap.WF (Scenario.env .Intersection).s_PanelCreators ∧ 1 ≤ 2) ∧
    ((pass1Upto (Scenario.steadyArgs [100, 200] .Intersection)
        (Scenario.env .Intersection) 1).1.maps.map (fun m => m.intersectingPanels)
      = some [(Scenario.P1, 1), (Scenario.P2, 2)]) ∧
    ((pass1Upto (Scenario.steadyArgs [100, 200] .Intersection)
        (Scenario.env .Intersection) 2).1.maps.map (fun m => m.intersectingPanels)
      = some [(Scenario.P2, 2)]) ∧
    (∃ mk mj,
      (pass1Upto (Scenario.steadyArgs [100, 200] .Intersection)
        (Scenario.env .Intersection) 1).1.maps = some mk ∧
      (pass1Upto (Scenario.steadyArgs [100, 200] .Intersection)
        (Scenario.env .Intersection) 2).1.maps = some mj ∧
      (∀ p ∈ mj.intersectingPanels, p ∈ mk.intersectingPanels) ∧
      (∀ p ∈ mk.intersectingPanels, p ∈ (Scenario.env .Intersection).s_PanelCreators) ∧
      (∀ o ∈ (workerSelection (Scenario.steadyArgs [100, 200] .Intersection)).take 2, ∀ p,
        ((Scenario.env .Intersection).objects o).ValidatePanel p.1 = false →
          p ∉ mj.intersectingPanels)) :=
  ⟨⟨fun _ => rfl, rfl, fun _ => rfl, by decide, by decide⟩, by decide, by decide,
    intersecting_panels_only_shrink (Scenario.steadyArgs [100, 200] .Intersection)
      (Scenario.env .Intersection) (fun _ => rfl) rfl (fun _ => rfl) (by decide) 1 2 (by decide)⟩

/-! ## C24: pass 2 invokes each applicable creator once, in name order -/

/-- C24: in an uncancelled run the calls of pass 2 are, for each panel of the
applicable map in ascending panel-name order (the map is well-formed: each name
occurs once), one `Push`, one invocation of that panel's creator, one `Pop`, and
nothing else; pass 3 follows. In Intersection mode the map is the final
`intersectingPanels` and the argument is the full selection snapshot; in Union
mode the map is `unionedPanels`, the lookup of the panel's name in
`unionedSelections` succeeds and its result is the argument. -/
theorem panel_creators_invoked_once_in_order (args : PropertyThreadArgs) (env : WorkerEnv)
    (hs : Steady args) (hreg : StdMap.WF env.s_PanelCreators) :
    ∃ m, (pass1 args env).1.maps = some m ∧
      StdMap.WF m.intersectingPanels ∧ StdMap.WF m.unionedPanels ∧
      (args.m_Setting = PropertySetting.Intersection →
        (GenerateProperties args env).calls
          = m.intersectingPanels.flatMap (fun p =>
              [WorkerCall.Push, WorkerCall.Invoke p.2 (workerSelection args), WorkerCall.Pop])
            ++ m.commonElements.map
                (fun c => WorkerCall.InterpretReflect c.2 c.1.m_IncludeFlags c.1.m_ExcludeFlags)
            ++ m.commonUDTInstances.map (fun c => WorkerCall.InterpretSymbol c.2)) ∧
      (args.m_Setting = PropertySetting.Union →
        (∀ p ∈ m.unionedPanels, ∃ s, StdMap.find p.1 m.unionedSelections = some s) ∧
        (GenerateProperties args env).calls
          = m.unionedPanels.flatMap (fun p =>
              [WorkerCall.Push,
                WorkerCall.Invoke p.2 ((StdMap.find p.1 m.unionedSelections).getD []),
                WorkerCall.Pop])
            ++ m.commonElements.map
                (fun c => WorkerCall.InterpretReflect c.2 c.1.m_IncludeFlags c.1.m_ExcludeFlags)
            ++ m.commonUDTInstances.map (fun c => WorkerCall.InterpretSymbol c.2)) := by
  obtain ⟨st, t, hm, hwf, hg⟩ := GenerateProperties_steady args env hs hreg
  have hc := pass23_steady args hs st t hwf
  refine ⟨st.maps, hm, hwf.1, hwf.2.1, ?_, ?_⟩
  · intro hi
    rw [hg, hc]
    simp only [hi, if_true]
    rfl
  · intro hu
    refine ⟨fun p hp => ?_, ?_⟩
    · obtain ⟨s, hs1, -⟩ := hwf.2.lookup_succeeds p hp
      exact ⟨s, hs1⟩
    · rw [hg, hc]
      simp only [hu, reduceCtorEq, if_false]
      rfl

/-- Witness for C24: the Union run over A (accepts P1, P2) and B (accepts P2,
P3) invokes P1 on [A], P2 on [A, B], P3 on [B]. -/
theorem panel_creators_invoked_once_in_order_witness :
    (Steady (Scenario.steadyArgs [100, 200] .Union) ∧
      StdMap.WF (Scenario.env .Union).s_PanelCreators) ∧
    ((GenerateProperties (Scenario.steadyArgs [100, 200] .Union) (Scenario.env .Union)).calls
      = [.Push, .Invoke 1 [100], .Pop, .Push, .Invoke 2 [100, 200], .Pop,
          .Push, .Invoke 3 [200], .Pop, .InterpretReflect [Scenario.Ay, Scenario.By] 0 0]) ∧
    (∃ m, (pass1 (Scenario.steadyArgs [100, 200] .Union) (Scenario.env .Union)).1.maps = some m ∧
      StdMap.WF m.intersectingPanels ∧ StdMap.WF m.unionedPanels ∧
      ((Scenario.steadyArgs [100, 200] .Union).m_Setting = PropertySetting.Intersection →
        (GenerateProperties (Scenario.steadyArgs [100, 200] .Union) (Scenario.env .Union)).calls
          = m.intersectingPanels.flatMap (fun p =>
              [WorkerCall.Push,
                WorkerCall.Invoke p.2 (workerSelection (Scenario.steadyArgs [100, 200] .Union)),
                WorkerCall.Pop])
            ++ m.commonElements.map
                (fun c => WorkerCall.InterpretReflect c.2 c.1.m_IncludeFlags c.1.m_ExcludeFlags)
            ++ m.commonUDTInstances.map (fun c => WorkerCall.InterpretSymbol c.2)) ∧
      ((Scenario.steadyArgs [100, 200] .Union).m_Setting = PropertySetting.Union →
        (∀ p ∈ m.unionedPanels, ∃ s, StdMap.find p.1 m.unionedSelections = some s) ∧
        (GenerateProperties (Scenario.steadyArgs [100, 200] .Union) (Scenario.env .Union)).calls
          = m.unionedPanels.flatMap (fun p =>
              [WorkerCall.Push,
                WorkerCall.Invoke p.2 ((StdMap.find p.1 m.unionedSelections).getD []),
                WorkerCall.Pop])
            ++ m.commonElements.map
                (fun c => WorkerCall.InterpretReflect c.2 c.1.m_IncludeFlags c.1.m_ExcludeFlags)
            ++ m.commonUDTInstances.map (fun c => WorkerCall.InterpretSymbol c.2))) :=
  ⟨⟨fun _ => rfl, by decide⟩, by decide,
    panel_creators_invoked_once_in_order (Scenario.steadyArgs [100, 200] .Union)
      (Scenario.env .Union) (fun _ => rfl) (by decide)⟩

/-! ## C25: the worker reads the manager's own mode -/

/-- C25 (divergence): two uncancelled runs with the same captured arguments
(selection [A, B], generation 7, captured mode Intersection) and the same
registry and objects, the manager's `m_Setting` reading Intersection in the
first and Union in the second. The first ends pass 1 with the panel set {P2}
and invokes one creator; in the second the `switch ( m_Setting )` files every
accepted panel under the union maps and `intersectingPanels` is never replaced,
so pass 1 ends with the whole registry and three creators are invoked. -/
theorem manager_mode_changes_worker_result :
    Steady (Scenario.steadyArgs [100, 200] .Intersection) ∧
    (Scenario.env .Intersection).s_PanelCreators = (Scenario.env .Union).s_PanelCreators ∧
    (Scenario.env .Intersection).objects = (Scenario.env .Union).objects ∧
    ((pass1 (Scenario.steadyArgs [100, 200] .Intersection)
        (Scenario.env .Intersection)).1.maps.map (fun m => m.intersectingPanels)
      = some [(Scenario.P2, 2)]) ∧
    ((pass1 (Scenario.steadyArgs [100, 200] .Intersection)
        (Scenario.env .Union)).1.maps.map (fun m => m.intersectingPanels)
      = some [(Scenario.P1, 1), (Scenario.P2, 2), (Scenario.P3, 3)]) ∧
    ((GenerateProperties (Scenario.steadyArgs [100, 200] .Intersection)
        (Scenario.env .Intersection)).calls
      = [.Push, .Invoke 2 [100, 200], .Pop,
          .InterpretReflect [Scenario.Ay, Scenario.By] 0 0]) ∧
    ((GenerateProperties (Scenario.steadyArgs [100, 200] .Intersection)
        (Scenario.env .Union)).calls
      = [.Push, .Invoke 1 [100, 200], .Pop, .Push, .Invoke 2 [100, 200], .Pop,
          .Push, .Invoke 3 [100, 200], .Pop,
          .InterpretReflect [Scenario.Ay, Scenario.By] 0 0]) ∧
    ((GenerateProperties (Scenario.steadyArgs [100, 200] .Intersection)
        (Scenario.env .Intersection)).raised = some 7) ∧
    ((GenerateProperties (Scenario.steadyArgs [100, 200] .Intersection)
        (Scenario.env .Union)).raised = some 7) :=
  ⟨fun _ => rfl, rfl, rfl, by decide, by decide, by decide, by decide, by decide, by decide⟩

/-! ## C26: a hidden canvas defers the recomputation -/

/-- C26: while the canvas window is not shown, `CreateProperties`, `SetSelection`
and `SetProperties` only reset the enumerator and capture the scroll offset:
these are their only calls (no thread is created, nothing of
`FinalizeProperties` is done), `m_ThreadCount` is unchanged, whatever the
selection, and after `SetSelection` and `SetProperties` the dirty flag is set. -/
theorem hidden_canvas_defers_recomputation (m : PropertiesManager) (canvas : CanvasView)
    (h : canvas.IsShown = false) (selection : OS_SelectableDumbPtr)
    (setting : PropertySetting) :
    (m.CreateProperties canvas
        = ({ m with m_PreviousScroll := canvas.GetScroll },
            [ManagerCall.Reset, ManagerCall.GetScroll])) ∧
    (m.SetSelection canvas selection
        = ({ m with m_Selection := selection,
                    m_SelectionId := (m.m_SelectionId + 1) % u32Size,
                    m_SelectionDirty := true,
                    m_PreviousScroll := canvas.GetScroll },
            [ManagerCall.Reset, ManagerCall.GetScroll])) ∧
    (m.SetProperties canvas setting
        = ({ m with m_Setting := setting,
                    m_SelectionId := (m.m_SelectionId + 1) % u32Size,
                    m_SelectionDirty := true,
                    m_PreviousScroll := canvas.GetScroll },
            [ManagerCall.Reset, ManagerCall.GetScroll])) ∧
    (startedBy (m.CreateProperties canvas).2 = [] ∧
      startedBy (m.SetSelection canvas selection).2 = [] ∧
      startedBy (m.SetProperties canvas setting).2 = []) ∧
    ((m.CreateProperties canvas).1.m_ThreadCount = m.m_ThreadCount ∧
      (m.SetSelection canvas selection).1.m_ThreadCount = m.m_ThreadCount ∧
      (m.SetProperties canvas setting).1.m_ThreadCount = m.m_ThreadCount) ∧
    ((m.SetSelection canvas selection).1.m_SelectionDirty = true ∧
      (m.SetProperties canvas setting).1.m_SelectionDirty = true) := by
  have e1 := CreateProperties_hidden m canvas h
  have e2 : m.SetSelection canvas selection = _ :=
    CreateProperties_hidden _ canvas h
  have e3 : m.SetProperties canvas setting = _ :=
    CreateProperties_hidden _ canvas h
  refine ⟨e1, e2, e3, ?_, ?_, ?_⟩
  · rw [e1, e2, e3]; simp [startedBy]
  · rw [e1, e2, e3]; simp
  · rw [e2, e3]; simp

/-- Witness for C26: a manager at generation 3 with a hidden canvas is handed
the selection [100], then the mode Union. -/
theorem hidden_canvas_defers_recomputation_witness :
    (CanvasView.mk (5, 7) false).IsShown = false ∧
    ((PropertiesManager.mk .Intersection false 3 0 [] (0, 0)).SetSelection ⟨(5, 7), false⟩ [100]
      = (PropertiesManager.mk .Intersection true 4 0 [100] (5, 7),
          [ManagerCall.Reset, ManagerCall.GetScroll])) ∧
    (startedBy ((PropertiesManager.mk .Intersection false 3 0 [] (0, 0)).CreateProperties
        ⟨(5, 7), false⟩).2 = [] ∧
      startedBy ((PropertiesManager.mk .Intersection false 3 0 [] (0, 0)).SetSelection
        ⟨(5, 7), false⟩ [100]).2 = [] ∧
      startedBy ((PropertiesManager.mk .Intersection false 3 0 [] (0, 0)).SetProperties
        ⟨(5, 7), false⟩ .Union).2 = []) :=
  ⟨rfl, by decide,
    (hidden_canvas_defers_recomputation (PropertiesManager.mk .Intersection false 3 0 [] (0, 0))
      ⟨(5, 7), false⟩ rfl [100] .Union).2.2.2.1⟩

/-! ## C27: the union lookup of pass 2 never fails -/

/-- C27: the `NOC_BREAK` branch of pass 2 is never taken, in any run (whatever
the two modes, cancelled or not); an uncancelled run reaches the end of pass 1;
and whenever pass 1 ends, `unionedPanels` and `unionedSelections` have the same
keys, the lookup of every panel of `unionedPanels` in `unionedSelections`
succeeds, and every stored sub-selection is non-empty. -/
theorem union_lookup_never_fails (args : PropertyThreadArgs) (env : WorkerEnv)
    (hreg : StdMap.WF env.s_PanelCreators) :
    WorkerCall.NocBreak ∉ (GenerateProperties args env).calls ∧
    (Steady args → ∃ m, (pass1 args env).1.maps = some m) ∧
    ∀ m, (pass1 args env).1.maps = some m →
      (∀ name, name ∈ StdMap.keys m.unionedPanels ↔ name ∈ StdMap.keys m.unionedSelections) ∧
      (∀ p ∈ m.unionedPanels, ∃ s, StdMap.find p.1 m.unionedSelections = some s) ∧
      (∀ name s, StdMap.find name m.unionedSelections = some s → s ≠ []) := by
  refine ⟨GenerateProperties_no_break args env hreg, ?_, ?_⟩
  · intro hs
    obtain ⟨st, t, h | h⟩ := pass1_steady_exit args env hs
    · exact ⟨st.maps, by rw [h]; rfl⟩
    · exact ⟨st.maps, by rw [h]; rfl⟩
  · intro m hm
    obtain ⟨st, hx, rfl⟩ := pass1_maps_state args env m hm
    have hwf := pass1_WFPanels args env hreg st hx
    refine ⟨hwf.2.2.2.1, fun p hp => ?_, hwf.2.2.2.2⟩
    obtain ⟨s, hs1, -⟩ := hwf.2.lookup_succeeds p hp
    exact ⟨s, hs1⟩

/-- Witness for C27: the Union run over A and B ends pass 1 with the union
maps over P1, P2, P3. -/
theorem union_lookup_never_fails_witness :
    StdMap.WF (Scenario.env .Union).s_PanelCreators ∧
    ((pass1 (Scenario.steadyArgs [100, 200] .Union) (Scenario.env .Union)).1.maps.map
        (fun m => (m.unionedPanels, m.unionedSelections))
      = some ([(Scenario.P1, 1), (Scenario.P2, 2), (Scenario.P3, 3)],
          [(Scenario.P1, [100]), (Scenario.P2, [100, 200]), (Scenario.P3, [200])])) ∧
    (WorkerCall.NocBreak ∉
        (GenerateProperties (Scenario.steadyArgs [100, 200] .Union) (Scenario.env .Union)).calls ∧
      (Steady (Scenario.steadyArgs [100, 200] .Union) →
        ∃ m, (pass1 (Scenario.steadyArgs [100, 200] .Union) (Scenario.env .Union)).1.maps
          = some m) ∧
      ∀ m, (pass1 (Scenario.steadyArgs [100, 200] .Union) (Scenario.env .Union)).1.maps
          = some m →
        (∀ name, name ∈ StdMap.keys m.unionedPanels ↔ name ∈ StdMap.keys m.unionedSelections) ∧
        (∀ p ∈ m.unionedPanels, ∃ s, StdMap.find p.1 m.unionedSelections = some s) ∧
        (∀ name s, StdMap.find name m.unionedSelections = some s → s ≠ [])) :=
  ⟨by decide, by decide,
    union_lookup_never_fails (Scenario.steadyArgs [100, 200] .Union) (Scenario.env .Union)
      (by decide)⟩

/-! ## C28: the dirty flag survives a recomputation started by a setter -/

/-- C28: `SetSelection` and `SetProperties` leave the dirty flag set, whatever
the canvas answers. After `SetSelection` with a non-empty selection on a shown
canvas one worker has been started for the new generation id and the flag is
still set; a following `Show` (canvas shown) starts a second worker with the
same selection, the same generation id and the same mode, and `m_ThreadCount`
is then two above its value before `SetSelection`, until the two workers have
exited. -/
theorem show_after_selection_starts_second_worker (m : PropertiesManager)
    (canvas later : CanvasView) (selection : OS_SelectableDumbPtr)
    (setting : PropertySetting)
    (h1 : canvas.IsShown = true) (h2 : later.IsShown = true) (hsel : selection ≠ []) :
    (m.SetSelection canvas selection).1.m_SelectionDirty = true ∧
    (m.SetProperties canvas setting).1.m_SelectionDirty = true ∧
    startedBy (m.SetSelection canvas selection).2
      = [⟨copySelection selection, (m.m_SelectionId + 1) % u32Size, m.m_Setting⟩] ∧
    (m.SetSelection canvas selection).1.m_ThreadCount = m.m_ThreadCount + 1 ∧
    startedBy ((m.SetSelection canvas selection).1.Show later).2
      = [⟨copySelection selection, (m.m_SelectionId + 1) % u32Size, m.m_Setting⟩] ∧
    ((m.SetSelection canvas selection).1.Show later).1.m_ThreadCount = m.m_ThreadCount + 2 ∧
    ((m.SetSelection canvas selection).1.Show later).1.m_SelectionId
      = (m.m_SelectionId + 1) % u32Size ∧
    ((m.SetSelection canvas selection).1.Show
      later).1.GeneratePropertiesThread.GeneratePropertiesThread.m_ThreadCount
        = m.m_ThreadCount := by
  have e1 : m.SetSelection canvas selection = _ :=
    CreateProperties_shown_nonempty _ canvas h1 (by simpa using hsel)
  have hd := (SetProperties_fields m canvas setting).2.1
  rw [e1]
  have e2 := CreateProperties_shown_nonempty
    ({ m with m_Selection := selection, m_SelectionId := (m.m_SelectionId + 1) % u32Size,
              m_SelectionDirty := true, m_PreviousScroll := canvas.GetScroll,
              m_ThreadCount := m.m_ThreadCount + 1 } : PropertiesManager) later h2
    (by simpa using hsel)
  refine ⟨rfl, hd, by simp [startedBy], rfl, ?_, ?_, ?_, ?_⟩
  · simp [PropertiesManager.Show, e2, startedBy]
  · simp [PropertiesManager.Show, e2]; omega
  · simp [PropertiesManager.Show, e2]
  · simp [PropertiesManager.Show, e2, PropertiesManager.GeneratePropertiesThread]

/-- Witness for C28: the constructed manager, canvas shown, selection [100]:
after `SetSelection` and `Show` two workers run for generation 1. -/
theorem show_after_selection_starts_second_worker_witness :
    ((CanvasView.mk (0, 0) true).IsShown = true ∧ ([100] : OS_SelectableDumbPtr) ≠ []) ∧
    (((PropertiesManager.constructed.SetSelection ⟨(0, 0), true⟩ [100]).1.Show
        ⟨(0, 0), true⟩).1.m_ThreadCount = 2) ∧
    (startedBy ((PropertiesManager.constructed.SetSelection ⟨(0, 0), true⟩ [100]).1.Show
        ⟨(0, 0), true⟩).2 = [⟨[100], 1, .Intersection⟩]) ∧
    (startedBy ((PropertiesManager.constructed.SetSelection ⟨(0, 0), true⟩ [100]).1.Show
        ⟨(0, 0), true⟩).2
      = [⟨copySelection [100],
          (PropertiesManager.constructed.m_SelectionId + 1) % u32Size,
          PropertiesManager.constructed.m_Setting⟩]) :=
  ⟨⟨rfl, by decide⟩, by decide, by decide,
    (show_after_selection_starts_second_worker PropertiesManager.constructed ⟨(0, 0), true⟩
      ⟨(0, 0), true⟩ [100] .Union rfl rfl (by decide)).2.2.2.2.1⟩

/-! ## C29: `Show` on a hidden canvas drops the pending recomputation -/

/-- C29: `Show` on a dirty manager whose canvas window is not shown only resets
the enumerator and captures the scroll offset (no thread is created, nothing
is finalized, `m_ThreadCount` is unchanged), and yet leaves the dirty flag
clear: every later `Show` from that state, whatever the canvas answers then,
does nothing. -/
theorem show_on_hidden_canvas_drops_recomputation (m : PropertiesManager)
    (canvas : CanvasView) (hd : m.m_SelectionDirty = true) (hc : canvas.IsShown = false) :
    (m.Show canvas
        = ({ m with m_PreviousScroll := canvas.GetScroll, m_SelectionDirty := false },
            [ManagerCall.Reset, ManagerCall.GetScroll])) ∧
    (m.Show canvas).1.m_SelectionDirty = false ∧
    startedBy (m.Show canvas).2 = [] ∧
    (m.Show canvas).1.m_ThreadCount = m.m_ThreadCount ∧
    ∀ later : CanvasView, (m.Show canvas).1.Show later = ((m.Show canvas).1, []) := by
  have e : m.Show canvas
      = ({ m with m_PreviousScroll := canvas.GetScroll, m_SelectionDirty := false },
          [ManagerCall.Reset, ManagerCall.GetScroll]) := by
    simp [PropertiesManager.Show, hd, CreateProperties_hidden m canvas hc]
  refine ⟨e, ?_, ?_, ?_, ?_⟩
  · rw [e]
  · rw [e]; simp [startedBy]
  · rw [e]
  · intro later
    rw [e]
    simp [PropertiesManager.Show]

/-- Witness for C29: a dirty manager tracking [100] at generation 3, canvas
hidden: `Show` clears the flag; the next `Show`, canvas shown, does nothing. -/
theorem show_on_hidden_canvas_drops_recomputation_witness :
    ((PropertiesManager.mk .Intersection true 3 0 [100] (0, 0)).m_SelectionDirty = true ∧
      (CanvasView.mk (5, 7) false).IsShown = false) ∧
    ((PropertiesManager.mk .Intersection true 3 0 [100] (0, 0)).Show ⟨(5, 7), false⟩
      = (PropertiesManager.mk .Intersection false 3 0 [100] (5, 7),
          [ManagerCall.Reset, ManagerCall.GetScroll])) ∧
    (((PropertiesManager.mk .Intersection true 3 0 [100] (0, 0)).Show ⟨(5, 7), false⟩).1.Show
        ⟨(5, 7), true⟩
      = (((PropertiesManager.mk .Intersection true 3 0 [100] (0, 0)).Show ⟨(5, 7), false⟩).1,
          [])) :=
  ⟨⟨rfl, rfl⟩, by decide,
    (show_on_hidden_canvas_drops_recomputation
      (PropertiesManager.mk .Intersection true 3 0 [100] (0, 0)) ⟨(5, 7), false⟩ rfl
      rfl).2.2.2.2 ⟨(5, 7), true⟩⟩

/-! ## C30: `EnumerateElement` -/

/-- C30: one call of `EnumerateElement` writes one of the two per-object maps
and leaves the other as it is: a UDT instance is inserted into
`m_CurrentUDTInstances` under its symbol name, any other element into
`m_CurrentElements` under the key (type, includeFlags, excludeFlags). An entry
already stored under a key is kept (a new key receives the element). So the
per-object maps of an object hold, under each key, the first element the object
enumerated under it, and in an uncancelled run over a non-empty selection each
entry of the common maps lists, object by object, those first elements. -/
theorem EnumerateElement_writes_one_map_keeps_first (a : EnumerateElementArgs)
    (element : Element) (includeFlags excludeFlags : Int)
    (hwf : StdMap.WF a.m_CurrentElements ∧ StdMap.WF a.m_CurrentUDTInstances)
    (args : PropertyThreadArgs) (env : WorkerEnv) (hs : Steady args)
    (hne : workerSelection args ≠ []) :
    (∀ sym, element.GetSymbolName = some sym →
      a.EnumerateElement element includeFlags excludeFlags
        = ⟨a.m_CurrentElements, StdMap.insert sym element a.m_CurrentUDTInstances⟩ ∧
      (StdMap.find sym a.m_CurrentUDTInstances = none →
        StdMap.find sym
          (a.EnumerateElement element includeFlags excludeFlags).m_CurrentUDTInstances
          = some element)) ∧
    (element.GetSymbolName = none →
      a.EnumerateElement element includeFlags excludeFlags
        = ⟨StdMap.insert (ElementTypeFlags.mk element.GetType includeFlags excludeFlags)
            element a.m_CurrentElements, a.m_CurrentUDTInstances⟩ ∧
      (StdMap.find (ElementTypeFlags.mk element.GetType includeFlags excludeFlags)
          a.m_CurrentElements = none →
        StdMap.find (ElementTypeFlags.mk element.GetType includeFlags excludeFlags)
          (a.EnumerateElement element includeFlags excludeFlags).m_CurrentElements
          = some element)) ∧
    (∀ key e, StdMap.find key a.m_CurrentElements = some e →
      StdMap.find key (a.EnumerateElement element includeFlags excludeFlags).m_CurrentElements
        = some e) ∧
    (∀ sym e, StdMap.find sym a.m_CurrentUDTInstances = some e →
      StdMap.find sym
        (a.EnumerateElement element includeFlags excludeFlags).m_CurrentUDTInstances
        = some e) ∧
    (∀ obj key, StdMap.find key (currentElementsOf env obj)
      = ((env.objects obj).ConnectProperties.find? (fun c => c.1.GetSymbolName.isNone &&
          decide (ElementTypeFlags.mk c.1.GetType c.2.1 c.2.2 = key))).map (fun c => c.1)) ∧
    (∀ obj sym, StdMap.find sym (currentUDTInstancesOf env obj)
      = ((env.objects obj).ConnectProperties.find?
          (fun c => decide (c.1.GetSymbolName = some sym))).map (fun c => c.1)) ∧
    (∃ m, (pass1 args env).1.maps = some m ∧
      (∀ key l, StdMap.find key m.commonElements = some l →
        l.map some = (workerSelection args).map (fun obj =>
          ((env.objects obj).ConnectProperties.find? (fun c => c.1.GetSymbolName.isNone &&
            decide (ElementTypeFlags.mk c.1.GetType c.2.1 c.2.2 = key))).map (fun c => c.1))) ∧
      (∀ sym l, StdMap.find sym m.commonUDTInstances = some l →
        l.map some = (workerSelection args).map (fun obj =>
          ((env.objects obj).ConnectProperties.find?
            (fun c => decide (c.1.GetSymbolName = some sym))).map (fun c => c.1)))) := by
  refine ⟨?_, ?_, ?_, ?_, find_currentElementsOf env, find_currentUDTInstancesOf env, ?_⟩
  · intro sym hsym
    have e : a.EnumerateElement element includeFlags excludeFlags
        = ⟨a.m_CurrentElements, StdMap.insert sym element a.m_CurrentUDTInstances⟩ := by
      unfold EnumerateElementArgs.EnumerateElement
      rw [hsym]
    refine ⟨e, fun hnone => ?_⟩
    rw [e]
    show StdMap.find sym (StdMap.insert sym element a.m_CurrentUDTInstances) = _
    rw [StdMap.find_insert _ _ _ _ hwf.2, if_pos rfl, hnone]
    rfl
  · intro hsym
    have e : a.EnumerateElement element includeFlags excludeFlags
        = ⟨StdMap.insert (ElementTypeFlags.mk element.GetType includeFlags excludeFlags)
            element a.m_CurrentElements, a.m_CurrentUDTInstances⟩ := by
      unfold EnumerateElementArgs.EnumerateElement
      rw [hsym]
    refine ⟨e, fun hnone => ?_⟩
    rw [e]
    show StdMap.find _ (StdMap.insert _ element a.m_CurrentElements) = _
    rw [StdMap.find_insert _ _ _ _ hwf.1, if_pos rfl, hnone]
    rfl
  · intro key e he
    unfold EnumerateElementArgs.EnumerateElement
    cases element.GetSymbolName with
    | some sym => exact he
    | none =>
      show StdMap.find key (StdMap.insert _ element a.m_CurrentElements) = _
      rw [StdMap.find_insert _ _ _ _ hwf.1]
      split_ifs with hk
      · rw [← hk, he]; rfl
      · exact he
  · intro sym e he
    unfold EnumerateElementArgs.EnumerateElement
    cases element.GetSymbolName with
    | none => exact he
    | some s =>
      show StdMap.find sym (StdMap.insert s element a.m_CurrentUDTInstances) = _
      rw [StdMap.find_insert _ _ _ _ hwf.2]
      split_ifs with hk
      · rw [← hk, he]; rfl
      · exact he
  · obtain ⟨m, hm, -, -, h1, h2⟩ := pass1_common_expected args env hs hne
    refine ⟨m, hm, ?_, ?_⟩
    · intro key l hl
      have := (expectedCommon_spec (currentElementsOf env) (workerSelection args)
        m.commonElements h1 key).2 l hl
      rw [this]
      apply List.map_congr_left
      intro obj _
      exact find_currentElementsOf env obj key
    · intro sym l hl
      have := (expectedCommon_spec (currentUDTInstancesOf env) (workerSelection args)
        m.commonUDTInstances h2 sym).2 l hl
      rw [this]
      apply List.map_congr_left
      intro obj _
      exact find_currentUDTInstancesOf env obj sym

/-- Witness for C30: object `D` enumerates `Dx1` then `Dx2` under the key `x`
and `Ds1` then `Ds2` under the symbol `S`; the second call under `x` leaves the
maps as they are, and the common maps hold `Dx1` and `Ds1`. -/
theorem EnumerateElement_writes_one_map_keeps_first_witness :
    ((StdMap.WF ([(Scenario.keyX, Scenario.Dx1)] : M_ElementByType) ∧
        StdMap.WF ([] : M_UDTInstanceBySymbol)) ∧
      Steady (Scenario.steadyArgs [100] .Intersection) ∧
      workerSelection (Scenario.steadyArgs [100] .Intersection) ≠ []) ∧
    ((EnumerateElementArgs.mk [(Scenario.keyX, Scenario.Dx1)] []).EnumerateElement
        Scenario.Dx2 0 0
      = ⟨[(Scenario.keyX, Scenario.Dx1)], []⟩) ∧
    (connectProperties Scenario.objD
      = ⟨[(Scenario.keyX, Scenario.Dx1)], [(Scenario.S, Scenario.Ds1)]⟩) ∧
    ((pass1 (Scenario.steadyArgs [100] .Intersection) Scenario.envD).1.maps.map
        (fun m => (m.commonElements, m.commonUDTInstances))
      = some ([(Scenario.keyX, [Scenario.Dx1])], [(Scenario.S, [Scenario.Ds1])])) ∧
    (∀ key e, StdMap.find key
        (EnumerateElementArgs.mk [(Scenario.keyX, Scenario.Dx1)] []).m_CurrentElements = some e →
      StdMap.find key
        ((EnumerateElementArgs.mk [(Scenario.keyX, Scenario.Dx1)] []).EnumerateElement
          Scenario.Dx2 0 0).m_CurrentElements = some e) :=
  ⟨⟨⟨by decide, by decide⟩, fun _ => rfl, by decide⟩, by decide, by decide, by decide,
    (EnumerateElement_writes_one_map_keeps_first
      (EnumerateElementArgs.mk [(Scenario.keyX, Scenario.Dx1)] []) Scenario.Dx2 0 0
      ⟨by decide, by decide⟩ (Scenario.steadyArgs [100] .Intersection) Scenario.envD
      (fun _ => rfl) (by decide)).2.2.1⟩

end Luna
